import Mathlib

/-!
# dmq: a persistent two-file message queue

A shallow embedding of `src/dmq.c` / `src/dmq.h`.

Modelling decisions:

* a byte is a natural number (a `char` holds a value below 256);
* a queue lives under its base path: the map file (the `struct common` header,
  shared by every descriptor that maps it) and the two queue files;
* every `open` yields its own file offset, so a `statedescriptor` carries the
  offsets of its two open files; writes are `O_APPEND` (always at the end);
* the function-level statics of `dmq_receive` are one `statics` record per
  process; pointers into `buffer` are indices into it (`buffer + k` is `k`);
* undefined behaviour (a NULL dereference, an access outside an array) and
  `abort()` are outcomes of their own;
* `sleep(1)` in `dmq_read` is a suspension point: the call reports `sleeping`
  and is resumed at the `dmq_read` call it was suspended in;
* `BUFSIZ` comes from `<stdio.h>` and is a parameter; `unsigned short` is 16 bits,
  `size_t` 64 bits, the host is little-endian;
* `open`, `mmap`, `malloc`, `lseek` and `ftruncate` do not fail; `read` and
  `writev` fail as the environment record `sysenv` says.
-/

namespace Dmq

abbrev Byte := Nat

abbrev MODE_NULLS : Int := 0
abbrev MODE_NEWLINES : Int := 1
abbrev MODE_FRAMES : Int := 2
abbrev MODE_RAW : Int := 3

/-- The header `struct common` that lives in the map file. -/
structure common where
  readtarget : Int
  writetarget : Int
  writedelay : Int
  mode : Int
  readoffset : Nat
  position : Nat
  qfile0 : String
  qfile1 : String
  qfile2 : String
  deriving DecidableEq

/-- The three files of one queue: the map file (when it exists) and Q0, Q1. -/
structure qstore where
  mapexists : Bool
  shared : common
  q0 : List Byte
  q1 : List Byte
  deriving DecidableEq

/-- One slot of `sdarray`: `sharedstate` is the base path of the mapped header
(`none` is NULL), `qfd0`/`qfd1` are the file offsets of `qfd[0]`/`qfd[1]`. -/
structure statedescriptor where
  sharedstate : Option String
  qfd0 : Nat
  qfd1 : Nat
  direction : Int
  deriving DecidableEq

structure dmq_iovbuf where
  len : Int
  buf : Option Nat
  deriving DecidableEq

structure dmq_record where
  rbegin : Int
  rend : Int
  deriving DecidableEq

/-- The statics of `dmq_receive`. `iov` is `true` when it points to `readiov`
and `false` when it is NULL. -/
structure statics where
  pos : Int
  res : dmq_record
  readiov : dmq_iovbuf
  iov : Bool
  buffer : Nat → Byte

/-- What `writev` does: write everything, fail with -1, or accept only `k` bytes. -/
inductive wfault where
  | full
  | fail
  | short (k : Nat)
  deriving DecidableEq

structure sysenv where
  readfail : Bool
  writev : wfault
  deriving DecidableEq

/-- One process and the file system it runs on. -/
structure World where
  fs : String → qstore
  sdarray : Nat → statedescriptor
  dmq_errmsg : Option String
  st : statics
  env : sysenv

/-- Everything a call on one bound descriptor can reach: the mapped header, the
two queue files, the descriptor's own fields, and the process globals. -/
structure session where
  shared : common
  q0 : List Byte
  q1 : List Byte
  qfd0 : Nat
  qfd1 : Nat
  direction : Int
  st : statics
  dmq_errmsg : Option String
  env : sysenv

def attach (w : World) (sd : Nat) (B : String) : session :=
  { shared := (w.fs B).shared, q0 := (w.fs B).q0, q1 := (w.fs B).q1,
    qfd0 := (w.sdarray sd).qfd0, qfd1 := (w.sdarray sd).qfd1,
    direction := (w.sdarray sd).direction,
    st := w.st, dmq_errmsg := w.dmq_errmsg, env := w.env }

def detach (w : World) (sd : Nat) (B : String) (s : session) : World :=
  { fs := Function.update w.fs B
      { mapexists := (w.fs B).mapexists, shared := s.shared, q0 := s.q0, q1 := s.q1 },
    sdarray := Function.update w.sdarray sd
      { sharedstate := some B, qfd0 := s.qfd0, qfd1 := s.qfd1, direction := s.direction },
    dmq_errmsg := s.dmq_errmsg, st := s.st, env := s.env }

/-- The file behind `qfd[t]`. -/
def qfile (s : session) (t : Int) : List Byte := if t = 0 then s.q0 else s.q1

/-- The file offset of `qfd[t]`. -/
def qoff (s : session) (t : Int) : Nat := if t = 0 then s.qfd0 else s.qfd1

def setfile (s : session) (t : Int) (f : List Byte) : session :=
  if t = 0 then { s with q0 := f } else { s with q1 := f }

def setoff (s : session) (t : Int) (o : Nat) : session :=
  if t = 0 then { s with qfd0 := o } else { s with qfd1 := o }

/-- The bytes `buf[a], ..., buf[a+n-1]`. -/
def slice (buf : Nat → Byte) (a n : Nat) : List Byte :=
  (List.range n).map (fun i => buf (a + i))

/-- Store `data` at `buf[dst], ...`. -/
def blit (buf : Nat → Byte) (dst : Nat) (data : List Byte) : Nat → Byte :=
  fun i => if dst ≤ i ∧ i < dst + data.length then data.getD (i - dst) 0 else buf i

/-- `iov = dmq_read(...)`: the static `iov` is NULL (`false`) or `&readiov`. -/
def set_iov (s : session) (v : Bool) : session :=
  { s with st := { s.st with iov := v } }

/-- `pos = 0;` -/
def rewind (s : session) : session :=
  { s with st := { s.st with pos := 0 } }

/-- `readiov.len = BUFSIZ; readiov.buf = buffer + BUFSIZ;` -/
def arm (BUFSIZ : Nat) (s : session) : session :=
  { s with st := { s.st with readiov := { len := BUFSIZ, buf := some BUFSIZ } } }

/-- `sprintf(dmq_errmsg, ...)` into an allocated `dmq_errmsg`. -/
def set_errmsg (s : session) (m : String) : session :=
  { s with dmq_errmsg := some m }

/-- `case 0: sdp->direction = d;` of the `switch (sdp->direction)`. -/
def commit (s : session) (d : Int) : session :=
  if s.direction = 0 then { s with direction := d } else s

inductive readret where
  | iovp
  | null
  | sleeping
  | undefined
  | nofuel
  deriving DecidableEq

structure readout where
  s : session
  ret : readret
  err : Option Int

/-- What `read(sdp->qfd[shared->readtarget], iovp->buf, iovp->len)` returns. -/
def readlen (s : session) : Nat :=
  min s.st.readiov.len.toNat
    ((qfile s s.shared.readtarget).length - qoff s s.shared.readtarget)

/-- The session after `read` has returned `readlen s > 0` bytes into `buffer + b`:
`shared->readoffset += r; iovp->len = r`. -/
def after_read (s : session) (b : Nat) : session :=
  let s1 := setoff s s.shared.readtarget (qoff s s.shared.readtarget + readlen s)
  { s1 with
    shared := { s.shared with readoffset := s.shared.readoffset + readlen s },
    st := { s.st with
      buffer := blit s.st.buffer b
        (((qfile s s.shared.readtarget).drop (qoff s s.shared.readtarget)).take (readlen s)),
      readiov := { s.st.readiov with len := (readlen s : Nat) } } }

/-- End of file with `readtarget != writetarget`: `ftruncate` the read file, follow
the writer, `lseek` to 0, reset `readoffset` and `position`. -/
def after_follow (s : session) : session :=
  let s2 := setoff (setfile s s.shared.readtarget []) s.shared.writetarget 0
  { s2 with shared := { s.shared with readtarget := s.shared.writetarget,
                                      readoffset := 0, position := 0 } }

/-- End of file with `readtarget == writetarget`: redirect the writer once
`readoffset > 100`. -/
def after_wait (s : session) : session :=
  if s.shared.readoffset > 100 then
    { s with shared := { s.shared with writetarget := 1 - s.shared.writetarget } }
  else s

inductive passret where
  | done (o : readout)
  | again (s : session)

/-- One pass of the `while` loop of `dmq_read`, and what follows the loop when it
is left. -/
def dmq_read_pass (s : session) (nowait : Int) (errorp : Option Int) : passret :=
  if ¬ (s.shared.readtarget = 0 ∨ s.shared.readtarget = 1) then .done ⟨s, .undefined, errorp⟩
  else
    match s.st.readiov.buf with
    | none => .done ⟨s, .undefined, errorp⟩
    | some b =>
      if s.env.readfail then
        -- r < 0
        match s.dmq_errmsg with
        | none => .done ⟨s, .undefined, errorp⟩
        | some _ =>
          match errorp with
          | none => .done ⟨s, .undefined, errorp⟩
          | some _ => .done ⟨set_errmsg s "Read: error", .null, some 1⟩
      else if readlen s = 0 then
        -- hit EOF
        if s.shared.readtarget ≠ s.shared.writetarget then
          if ¬ (s.shared.writetarget = 0 ∨ s.shared.writetarget = 1) then
            .done ⟨s, .undefined, errorp⟩
          else .again (after_follow s)
        else if nowait ≠ 0 then
          match errorp with
          | some _ => .done ⟨after_wait s, .null, some 0⟩
          | none => .done ⟨after_wait s, .undefined, errorp⟩
        else .done ⟨after_wait s, .sleeping, errorp⟩
      else .done ⟨after_read s b, .iovp, errorp⟩

/-- `dmq_read(sdp, &readiov, nowait, errorp)`. One unit of fuel is one pass of
the `while` loop; `err` is the caller's flag after the call. -/
def dmq_read : Nat → session → Int → Option Int → readout
  | 0, s, _, errorp => ⟨s, .nofuel, errorp⟩
  | fuel + 1, s, nowait, errorp =>
    match dmq_read_pass s nowait errorp with
    | .done o => o
    | .again s1 => dmq_read fuel s1 nowait errorp

inductive eorret where
  | found (p : Int)
  | notfound
  | aborted
  | undefined
  deriving DecidableEq

/-- The `for (cp = begin; cp < end; ++cp) if (*cp == d) return cp;` loop, with
`n` the number of bytes left. -/
def scan (buf : Nat → Byte) (d : Byte) : Nat → Nat → Option Nat
  | _, 0 => none
  | cp, n + 1 => if buf cp = d then some cp else scan buf d (cp + 1) n

/-- `dmq_findeor(mode, begin, end)` over `buffer`, which has `2 * BUFSIZ` bytes. -/
def dmq_findeor (BUFSIZ : Nat) (buffer : Nat → Byte) (mode : Int) (rbegin rend : Int) : eorret :=
  if mode = MODE_NULLS ∨ mode = MODE_NEWLINES then
    if rend ≤ rbegin then .notfound
    else if rbegin < 0 then .undefined
    else
      match scan buffer (if mode = MODE_NULLS then 0 else 10) rbegin.toNat (rend - rbegin).toNat with
      | some cp => .found cp
      | none => .notfound
  else if mode = MODE_FRAMES then
    if rbegin < 0 ∨ 2 * (BUFSIZ : Int) < rbegin + 2 then .undefined
    else
      let shortint : Int := (buffer rbegin.toNat % 256 + 256 * (buffer (rbegin.toNat + 1) % 256) : Nat)
      if rbegin + shortint < rend then .found (rbegin + shortint) else .notfound
  else .aborted

inductive recvret where
  | record (r : dmq_record)
  | null
  | sleeping (site : Nat)
  | aborted
  | undefined
  | nofuel
  deriving DecidableEq

structure recvout where
  s : session
  ret : recvret
  err : Option Int

/-- Lines 324-329 of `dmq_receive`: hand out the record that ends at `eor`. -/
def receive_deliver (s : session) (b : Nat) (eor : Int) (errorp : Option Int) : recvout :=
  let pos1 : Int := eor - b + 1
  let res : dmq_record :=
    ⟨b + s.st.pos + (if s.shared.mode = MODE_FRAMES then 2 else 0), eor⟩
  ⟨{ s with
      st := { s.st with res := res, pos := pos1 },
      shared := { s.shared with
        position := (((s.shared.readoffset : Int) - s.st.readiov.len + pos1) % 2 ^ 64).toNat } },
   .record res, errorp⟩

/-- Lines 311-323 of `dmq_receive`: the second `dmq_read` and the second search. -/
def receive_refill2 (BUFSIZ fuel : Nat) (s : session) (nowait : Int) (errorp : Option Int) :
    recvout :=
  let o := dmq_read fuel s nowait errorp
  match o.ret with
  | .iovp =>
    match o.s.st.readiov.buf with
    | none => ⟨o.s, .undefined, o.err⟩
    | some b =>
      match dmq_findeor BUFSIZ o.s.st.buffer o.s.shared.mode (b + o.s.st.pos)
          (b + o.s.st.readiov.len) with
      | .found eor => receive_deliver (set_iov o.s true) b eor o.err
      | .notfound =>
        match o.s.dmq_errmsg with
        | none => ⟨o.s, .undefined, o.err⟩
        | some _ =>
          ⟨set_errmsg (set_iov o.s true) "Receive: record too big for internal buffer",
           .null, o.err.map (fun _ => 1)⟩
      | .aborted => ⟨o.s, .aborted, o.err⟩
      | .undefined => ⟨o.s, .undefined, o.err⟩
  | .null => ⟨set_iov o.s false, .null, o.err⟩
  | .sleeping => ⟨o.s, .sleeping 2, o.err⟩
  | .undefined => ⟨o.s, .undefined, o.err⟩
  | .nofuel => ⟨o.s, .nofuel, o.err⟩

/-- Lines 307-310 of `dmq_receive`: `memcpy(iov->buf + pos - BUFSIZ, iov->buf + pos,
iov->len - pos); pos -= BUFSIZ; readiov.len = BUFSIZ; readiov.buf = buffer + BUFSIZ;`
with `iov->buf` at `buffer + b`. -/
def carry_over (BUFSIZ : Nat) (s : session) (b : Nat) : session :=
  { s with st := { s.st with
      buffer := blit s.st.buffer ((b : Int) + s.st.pos - BUFSIZ).toNat
        (slice s.st.buffer ((b : Int) + s.st.pos).toNat (s.st.readiov.len - s.st.pos).toNat),
      pos := s.st.pos - BUFSIZ,
      readiov := { len := BUFSIZ, buf := some BUFSIZ } } }

/-- Lines 300-323 of `dmq_receive`: search the buffer, carry a partial record over. -/
def receive_find (BUFSIZ fuel : Nat) (s : session) (nowait : Int) (errorp : Option Int) :
    recvout :=
  if s.st.readiov.len ≤ s.st.pos then ⟨s, .null, errorp⟩
  else
    match s.st.readiov.buf with
    | none => ⟨s, .undefined, errorp⟩
    | some b =>
      match dmq_findeor BUFSIZ s.st.buffer s.shared.mode (b + s.st.pos) (b + s.st.readiov.len) with
      | .found eor => receive_deliver s b eor errorp
      | .notfound =>
        -- the destination of the memcpy must lie inside `buffer`
        if (b : Int) + s.st.pos - BUFSIZ < 0 then ⟨s, .undefined, errorp⟩
        else receive_refill2 BUFSIZ fuel (carry_over BUFSIZ s b) nowait errorp
      | .aborted => ⟨s, .aborted, errorp⟩
      | .undefined => ⟨s, .undefined, errorp⟩

/-- Lines 295-299 of `dmq_receive`, then the search: the first `dmq_read`. -/
def receive_refill1 (BUFSIZ fuel : Nat) (s : session) (nowait : Int) (errorp : Option Int) :
    recvout :=
  let o := dmq_read fuel s nowait errorp
  match o.ret with
  | .iovp => receive_find BUFSIZ fuel (rewind (set_iov o.s true)) nowait o.err
  | .null => ⟨set_iov o.s false, .null, o.err⟩
  | .sleeping => ⟨o.s, .sleeping 1, o.err⟩
  | .undefined => ⟨o.s, .undefined, o.err⟩
  | .nofuel => ⟨o.s, .nofuel, o.err⟩

/-- The body of `dmq_receive` after `CHECK_SDESC`. -/
def dmq_receive_body (BUFSIZ fuel : Nat) (s : session) (nowait : Int) (errorp : Option Int) :
    recvout :=
  if s.direction = 1 then
    match s.dmq_errmsg, errorp with
    | some _, some _ => ⟨set_errmsg s "Receive: cannot after send", .null, some 1⟩
    | _, _ => ⟨s, .undefined, errorp⟩
  else if (commit s 2).st.iov = false then ⟨commit s 2, .undefined, errorp⟩
  else if (commit s 2).st.pos = (commit s 2).st.readiov.len then
    receive_refill1 BUFSIZ fuel (arm BUFSIZ (commit s 2)) nowait errorp
  else receive_find BUFSIZ fuel (commit s 2) nowait errorp

/-- A suspended `dmq_receive` continues in the `dmq_read` call it sleeps in. -/
def dmq_receive_resume (BUFSIZ fuel : Nat) (site : Nat) (s : session) (nowait : Int)
    (errorp : Option Int) : recvout :=
  if site = 1 then receive_refill1 BUFSIZ fuel s nowait errorp
  else receive_refill2 BUFSIZ fuel s nowait errorp

inductive sendret where
  | ret (r : Int)
  | undefined
  deriving DecidableEq

structure sendout where
  s : session
  ret : sendret

/-- The `iovec` array as `writev` sees it, and `len` after the `switch`. The
Frames prefix is `&len`, read when `writev` runs, that is after `len += sizeof len`. -/
def send_frame (mode : Int) (data : List Byte) (slen : Int) : List (List Byte) × Nat :=
  let len : Nat := (slen % 65536).toNat
  if mode = MODE_NULLS then ([data.take len, [0]], (len + 1) % 65536)
  else if mode = MODE_NEWLINES then ([data.take len, [10]], (len + 1) % 65536)
  else if mode = MODE_FRAMES then
    let len2 := (len + 2) % 65536
    ([[len2 % 256, len2 / 256], data.take len], len2)
  else if mode = MODE_RAW then ([data.take len], len)
  else ([], len)

/-- What `writev` appends: everything, or the first `k` bytes. -/
def written (wf : wfault) (bytes : List Byte) : List Byte :=
  match wf with
  | .short k => bytes.take k
  | _ => bytes

/-- The session after `writev` has appended `bytes` to the write file (`O_APPEND`:
the file offset ends at the end of the file). -/
def after_write (s : session) (bytes : List Byte) : session :=
  setoff (setfile s s.shared.writetarget (qfile s s.shared.writetarget ++ bytes))
    s.shared.writetarget (qfile s s.shared.writetarget ++ bytes).length

/-- The body of `dmq_send` after `CHECK_SDESC`. `data` is the caller's buffer `s`. -/
def dmq_send_body (s : session) (data : List Byte) (slen : Int) : sendout :=
  if s.direction = 2 then
    match s.dmq_errmsg with
    | some _ => ⟨set_errmsg s "Send: not after receive", .ret (-1)⟩
    | none => ⟨s, .undefined⟩
  else
    let s1 := commit s 1
    let fr := send_frame s1.shared.mode data slen
    if ¬ (s1.shared.writetarget = 0 ∨ s1.shared.writetarget = 1) then ⟨s1, .undefined⟩
    else if s1.env.writev = .fail then
      match s1.dmq_errmsg with
      | some _ => ⟨set_errmsg s1 "Send: write error", .ret (-1)⟩
      | none => ⟨s1, .undefined⟩
    else
      let w := written s1.env.writev fr.1.flatten
      let s2 := after_write s1 w
      if (w.length : Int) ≠ fr.2 then
        match s2.dmq_errmsg with
        | some _ => ⟨set_errmsg s2 "Send: short write", .ret (-1)⟩
        | none => ⟨s2, .undefined⟩
      else ⟨s2, .ret w.length⟩

/-- `CHECK_SDESC`: `true` when the handle is out of range or not bound. -/
def CHECK_SDESC (w : World) (sdesc : Int) : Bool :=
  decide (sdesc < 0) || decide (20 ≤ sdesc) || (w.sdarray sdesc.toNat).sharedstate.isNone

structure wsend where
  w : World
  ret : sendret

def dmq_send (w : World) (sdesc : Int) (data : List Byte) (slen : Int) : wsend :=
  match (if CHECK_SDESC w sdesc then none else (w.sdarray sdesc.toNat).sharedstate) with
  | none =>
    match w.dmq_errmsg with
    | some _ => ⟨{ w with dmq_errmsg := some "Invalid descriptor" }, .ret (-1)⟩
    | none => ⟨w, .undefined⟩
  | some B =>
    let o := dmq_send_body (attach w sdesc.toNat B) data slen
    ⟨detach w sdesc.toNat B o.s, o.ret⟩

structure wrecv where
  w : World
  ret : recvret
  err : Option Int

def dmq_receive (BUFSIZ fuel : Nat) (w : World) (sdesc : Int) (nowait : Int)
    (errorp : Option Int) : wrecv :=
  match (if CHECK_SDESC w sdesc then none else (w.sdarray sdesc.toNat).sharedstate) with
  | none =>
    match w.dmq_errmsg with
    | some _ => ⟨{ w with dmq_errmsg := some "Invalid descriptor" }, .null, errorp⟩
    | none => ⟨w, .undefined, errorp⟩
  | some B =>
    let o := dmq_receive_body BUFSIZ fuel (attach w sdesc.toNat B) nowait errorp
    ⟨detach w sdesc.toNat B o.s, o.ret, o.err⟩

/-- Resume the `dmq_receive` call on `sdesc` that is suspended at `site`. -/
def dmq_receive_wake (BUFSIZ fuel : Nat) (site : Nat) (w : World) (sdesc : Int) (nowait : Int)
    (errorp : Option Int) : wrecv :=
  match (w.sdarray sdesc.toNat).sharedstate with
  | none => ⟨w, .undefined, errorp⟩
  | some B =>
    let o := dmq_receive_resume BUFSIZ fuel site (attach w sdesc.toNat B) nowait errorp
    ⟨detach w sdesc.toNat B o.s, o.ret, o.err⟩

/-- The first free slot of `sdarray`, or 20. -/
def freeslot (w : World) : Nat :=
  ((List.range 20).find? (fun i => (w.sdarray i).sharedstate.isNone)).getD 20

structure winit where
  w : World
  ret : sendret

/-- `if (dmq_errmsg == NULL) dmq_errmsg = malloc(2*PATH_MAX);` -/
def alloc_errmsg (w : World) : World :=
  if w.dmq_errmsg.isNone then { w with dmq_errmsg := some "" } else w

/-- The header `dmq_init` writes into a map file it creates. -/
def newheader (B : String) (m : Int) : common :=
  { readtarget := 0, writetarget := 0, writedelay := 0,
    mode := if m < 0 then MODE_NEWLINES else m, readoffset := 0, position := 0,
    qfile0 := B ++ "0", qfile1 := B ++ "1", qfile2 := B ++ "map" }

/-- Lines 88-118 of `dmq_init`: map the header, creating and filling the map file
when it does not exist, and open (creating when needed) the two queue files. -/
def open_queue (q : qstore) (basepath : String) (mode : Int) : qstore :=
  if q.mapexists then q
  else { q with mapexists := true, shared := newheader basepath mode }

/-- Lines 120-123 of `dmq_init`: seek the read file to `position`, set
`readoffset`, bind the slot. -/
def bind_slot (w : World) (basepath : String) (q : qstore) (sdesc : Nat) : World :=
  { w with
    fs := Function.update w.fs basepath
      { q with shared := { q.shared with readoffset := q.shared.position } },
    sdarray := Function.update w.sdarray sdesc
      { sharedstate := some basepath,
        qfd0 := if q.shared.readtarget = 0 then q.shared.position else 0,
        qfd1 := if q.shared.readtarget = 0 then 0 else q.shared.position,
        direction := 0 } }

def dmq_init (w : World) (basepath : String) (mode : Int) : winit :=
  let w1 := alloc_errmsg w
  if 20 ≤ freeslot w1 then ⟨{ w1 with dmq_errmsg := some "No descriptors available" }, .ret (-1)⟩
  else
    let q := open_queue (w1.fs basepath) basepath mode
    if ¬ (q.shared.readtarget = 0 ∨ q.shared.readtarget = 1) then ⟨w1, .undefined⟩
    else ⟨bind_slot w1 basepath q (freeslot w1), .ret (freeslot w1)⟩

def dmq_free (w : World) (sdesc : Int) : wsend :=
  if CHECK_SDESC w sdesc then
    match w.dmq_errmsg with
    | some _ => ⟨{ w with dmq_errmsg := some "Invalid descriptor" }, .ret 0⟩
    | none => ⟨w, .undefined⟩
  else
    let sdp := w.sdarray sdesc.toNat
    let sd : statedescriptor := { sdp with sharedstate := none, direction := 0 }
    ⟨{ w with sdarray := Function.update w.sdarray sdesc.toNat sd }, .ret 0⟩

/-- A process that has just started, with nothing on disk at first. -/
def statics0 : statics :=
  { pos := 0, res := ⟨0, 0⟩, readiov := { len := 0, buf := none }, iov := true,
    buffer := fun _ => 0 }

def common0 : common :=
  { readtarget := 0, writetarget := 0, writedelay := 0, mode := 0, readoffset := 0,
    position := 0, qfile0 := "", qfile1 := "", qfile2 := "" }

def boot (env : sysenv) : World :=
  { fs := fun _ => { mapexists := false, shared := common0, q0 := [], q1 := [] },
    sdarray := fun _ => { sharedstate := none, qfd0 := 0, qfd1 := 0, direction := 0 },
    dmq_errmsg := none, st := statics0, env := env }

/-- A new process on the file system `w` leaves behind. -/
def spawn (w : World) : World :=
  { boot w.env with fs := w.fs }

def nofault : sysenv := { readfail := false, writev := .full }

/-- The bytes of a record handed out by `dmq_receive`. -/
def record_bytes (st : statics) (r : dmq_record) : List Byte :=
  slice st.buffer r.rbegin.toNat (r.rend - r.rbegin).toNat

/-- File `t` of a queue. -/
def wfile (q : qstore) (t : Int) : List Byte := if t = 0 then q.q0 else q.q1

/-- Send the records one after the other on descriptor `sd`. -/
def send_all (w : World) (sd : Int) : List (List Byte) → World
  | [] => w
  | r :: rs => send_all (dmq_send w sd r r.length).w sd rs

/-- A process that has created the queue `B` and holds two descriptors on it:
0 (used to send) and 1 (used to receive). -/
def fresh_pair (B : String) (m : Int) : World :=
  (dmq_init (dmq_init (boot nofault) B m).w B m).w

/-! ## Definitions used by the statements -/

/-- A fresh Frames queue after `dmq_send` of the four bytes 00 FF 0A 42. -/
def frames_one : World := (dmq_send (fresh_pair "q" MODE_FRAMES) 0 [0, 255, 10, 66] 4).w

/-- A fresh Frames queue after `dmq_send` of 01 02 and of 03 04. -/
def frames_two : World := send_all (fresh_pair "q" MODE_FRAMES) 0 [[1, 2], [3, 4]]

/-- A fresh Newlines queue on which the consumer has polled once (would-block)
and the producer has then sent the record "x". -/
def polled (BUFSIZ : Nat) : World :=
  (dmq_send (dmq_receive BUFSIZ 2 (fresh_pair "q" MODE_NEWLINES) 1 1 (some 1)).w 0 [120] 1).w

/-- The session a pass of the loop ends in. -/
def passret.s : passret → session
  | .done o => o.s
  | .again s => s

/-- What no step of the receive path changes: the direction, the environment,
the framing mode; and an allocated `dmq_errmsg` stays allocated. -/
def keeps (s0 s : session) : Prop :=
  s.direction = s0.direction ∧ s.env = s0.env ∧ s.shared.mode = s0.shared.mode
    ∧ (s0.dmq_errmsg ≠ none → s.dmq_errmsg ≠ none)

/-- The delimiter byte of a delimiter mode. -/
def delim (m : Int) : Byte := if m = MODE_NULLS then 0 else 10

/-- The bytes a producer leaves on disk for a list of records in a delimiter mode. -/
def frames (m : Int) : List (List Byte) → List Byte
  | [] => []
  | r :: rs => r ++ delim m :: frames m rs

/-- What the consumer still has to be fed, seen from the files. `pend` are the
records sent and not yet handed out, `nxt` is the offset in the read file of the
first byte not yet handed out, `n` the number of bytes read but not handed out.
The read file from `nxt` on holds the first `j` pending records, the write file
(when it is the other one) holds the rest. -/
structure Feed (s : session) (pend : List (List Byte)) (nxt n : Nat) : Prop where
  mode : s.shared.mode = MODE_NULLS ∨ s.shared.mode = MODE_NEWLINES
  rt : s.shared.readtarget = 0 ∨ s.shared.readtarget = 1
  wt : s.shared.writetarget = 0 ∨ s.shared.writetarget = 1
  env : s.env.readfail = false
  iov : s.st.iov = true
  off : nxt + n = qoff s s.shared.readtarget
  offle : qoff s s.shared.readtarget ≤ (qfile s s.shared.readtarget).length
  ro : s.shared.readoffset = qoff s s.shared.readtarget
  data : ∃ j, j ≤ pend.length
    ∧ (qfile s s.shared.readtarget).drop nxt = frames s.shared.mode (pend.take j)
    ∧ (if s.shared.readtarget = s.shared.writetarget then []
        else qfile s s.shared.writetarget) = frames s.shared.mode (pend.drop j)
  other : s.shared.readtarget = s.shared.writetarget →
    qfile s (1 - s.shared.readtarget) = []

/-- The consumer between two calls of `dmq_receive`: `pos = p`, `iov->len = l`, the
`l - p` unread bytes of the buffer are the bytes of the read file from `nxt` on,
and they end with a whole record unless the last `read` filled the buffer. -/
structure Consumer (BUFSIZ : Nat) (s : session) (pend : List (List Byte)) (nxt p l : Nat) :
    Prop where
  feed : Feed s pend nxt (l - p)
  pos : s.st.pos = p
  len : s.st.readiov.len = l
  ple : p ≤ l
  lle : l ≤ BUFSIZ
  buf : p < l → s.st.readiov.buf = some BUFSIZ
  content : slice s.st.buffer (BUFSIZ + p) (l - p)
    = ((qfile s s.shared.readtarget).drop nxt).take (l - p)
  whole : l = BUFSIZ ∨ ∃ k, k ≤ pend.length ∧
    ((qfile s s.shared.readtarget).drop nxt).take (l - p) = frames s.shared.mode (pend.take k)

/-- The consumer suspended in the first `dmq_read` of `dmq_receive`. -/
structure Asleep (BUFSIZ : Nat) (s : session) (pend : List (List Byte)) (nxt : Nat) : Prop where
  feed : Feed s pend nxt 0
  readiov : s.st.readiov = { len := BUFSIZ, buf := some BUFSIZ }

/-! ## Definitions used by the invariants of a producer and a consumer -/

/-- Descriptor `a` of the process is a producer of queue `B` whose writes go through. -/
structure Producer (w : World) (a : Nat) (B : String) : Prop where
  slot : a < 20
  bound : (w.sdarray a).sharedstate = some B
  dir : (w.sdarray a).direction ≠ 2
  full : w.env.writev = .full

/-- Descriptor `c` of the process is a consumer of queue `B`, between two calls of
`dmq_receive`, with the records `pend` still to be handed out. -/
structure Idle (BUFSIZ : Nat) (w : World) (c : Nat) (B : String) (pend : List (List Byte))
    (nxt : Nat) : Prop where
  slot : c < 20
  bound : (w.sdarray c).sharedstate = some B
  dir : (w.sdarray c).direction ≠ 1
  cons : ∃ p l, Consumer BUFSIZ (attach w c B) pend nxt p l

/-- Descriptor `c` of the process is a consumer of queue `B` that sleeps in the
first `dmq_read` of a `dmq_receive`. -/
structure Napping (BUFSIZ : Nat) (w : World) (c : Nat) (B : String) (pend : List (List Byte))
    (nxt : Nat) : Prop where
  slot : c < 20
  bound : (w.sdarray c).sharedstate = some B
  dir : (w.sdarray c).direction ≠ 1
  nap : Asleep BUFSIZ (attach w c B) pend nxt

/-- Call `dmq_receive` `n` times on descriptor `sd`, reading each record before the
next call: the records handed out and the final state, or `none` when a call
hands out no record. -/
def receive_all (BUFSIZ fuel : Nat) (sd nowait : Int) :
    Nat → World → Option Int → Option (List (List Byte) × World)
  | 0, w, _ => some ([], w)
  | n + 1, w, errorp =>
    match (dmq_receive BUFSIZ fuel w sd nowait errorp).ret with
    | .record res =>
      (receive_all BUFSIZ fuel sd nowait n (dmq_receive BUFSIZ fuel w sd nowait errorp).w
          (dmq_receive BUFSIZ fuel w sd nowait errorp).err).map
        (fun x => (record_bytes (dmq_receive BUFSIZ fuel w sd nowait errorp).w.st res :: x.1, x.2))
    | _ => none

/-- One step of an interleaving of a producer (descriptor 0) and a consumer
(descriptor 1): an atomic `dmq_send`, a new blocking `dmq_receive`, or the
resumption of the `dmq_receive` that sleeps. -/
inductive move where
  | send (r : List Byte)
  | receive (errorp : Option Int)
  | wake

/-- The state of an interleaving: the process, the records sent and the records
handed out so far, the call that sleeps (its site and its `errorp`), and whether
a `dmq_receive` has ended in something else than a record or a sleep. -/
structure interleaving where
  w : World
  sent : List (List Byte)
  delivered : List (List Byte)
  asleep : Option (Nat × Option Int)
  failed : Bool

/-- Account for the outcome of a `dmq_receive` that was started or resumed. -/
def settle (t : interleaving) (o : wrecv) : interleaving :=
  match o.ret with
  | .record res =>
    { t with w := o.w, delivered := t.delivered ++ [record_bytes o.w.st res], asleep := none }
  | .sleeping site => { t with w := o.w, asleep := some (site, o.err) }
  | _ => { t with w := o.w, asleep := none, failed := true }

/-- One step of an interleaving. A `receive` while a call sleeps and a `wake`
while none does are not steps of the system and change nothing. -/
def play (BUFSIZ fuel : Nat) (t : interleaving) : move → interleaving
  | .send r => { t with w := (dmq_send t.w 0 r r.length).w, sent := t.sent ++ [r] }
  | .receive errorp =>
    match t.asleep with
    | some _ => t
    | none => settle t (dmq_receive BUFSIZ fuel t.w 1 0 errorp)
  | .wake =>
    match t.asleep with
    | none => t
    | some (site, errorp) => settle t (dmq_receive_wake BUFSIZ fuel site t.w 1 0 errorp)

/-- A fresh Newlines queue with nothing sent and nothing handed out. -/
def start (B : String) : interleaving :=
  { w := fresh_pair B MODE_NEWLINES, sent := [], delivered := [], asleep := none, failed := false }

/-- The records an interleaving sends. -/
def sends : List move → List (List Byte)
  | [] => []
  | .send r :: ms => r :: sends ms
  | _ :: ms => sends ms

/-- What every state of an interleaving satisfies: the records sent are the
records handed out followed by the records the consumer is still to be fed. -/
structure InOrder (BUFSIZ : Nat) (B : String) (t : interleaving) : Prop where
  prod : Producer t.w 0 B
  mode : (t.w.fs B).shared.mode = MODE_NEWLINES
  ok : t.failed = false
  feed : ∃ pend nxt, t.sent = t.delivered ++ pend
    ∧ (∀ r ∈ pend, 10 ∉ r ∧ r.length < BUFSIZ)
    ∧ (t.asleep = none → Idle BUFSIZ t.w 1 B pend nxt)
    ∧ (∀ site e, t.asleep = some (site, e) → site = 1 ∧ Napping BUFSIZ t.w 1 B pend nxt)

/-! ## Further states used by the statements -/

/-- A Raw-mode queue that holds the byte "x". -/
def raw_one : World := (dmq_send (fresh_pair "q" MODE_RAW) 0 [120] 1).w

/-- One process with four descriptors on two Newlines queues: 0 sends on "a", 1 sends
on "b", 2 receives from "a", 3 receives from "b"; "x" and "y" have been sent on
"a" and "z" on "b". -/
def two_queues : World :=
  (dmq_send (send_all (dmq_init (dmq_init (dmq_init (dmq_init (boot nofault)
    "a" MODE_NEWLINES).w "b" MODE_NEWLINES).w "a" MODE_NEWLINES).w "b" MODE_NEWLINES).w
    0 [[120], [121]]) 1 [122] 1).w

/-- A fresh Newlines queue after "x" and "y" have been sent, the consumer has
received once, and its descriptor has been freed and bound again by `dmq_init`. -/
def reattached (BUFSIZ : Nat) : winit :=
  dmq_init (dmq_free (dmq_receive BUFSIZ 2
    (send_all (fresh_pair "q" MODE_NEWLINES) 0 [[120], [121]]) 1 0 (some 0)).w 1).w
    "q" MODE_NEWLINES

/-- A fresh Newlines queue after "a", "b" and "cde" have been sent, the consumer
has received once, and a further descriptor has been attached with `dmq_init`. -/
def attached_late (BUFSIZ : Nat) : winit :=
  dmq_init (dmq_receive BUFSIZ 2
    (send_all (fresh_pair "q" MODE_NEWLINES) 0 [[97], [98], [99, 100, 101]]) 1 0 (some 0)).w
    "q" MODE_NEWLINES

/-- A fresh Newlines queue after one `dmq_send` of 20000 bytes "x": a record of more
than `2 * BUFSIZ` bytes for `BUFSIZ = 8192`. -/
def long_record : World :=
  (dmq_send (fresh_pair "q" MODE_NEWLINES) 0 (List.replicate 20000 120) 20000).w

/-- The statics a `dmq_receive` leaves when it fails with "record too big": `pos`
has been moved back by `BUFSIZ` (line 308) and not restored, and the bytes from
`iov->buf + pos` to the end of the buffer hold no end of record. -/
structure Wedged (BUFSIZ : Nat) (s : session) : Prop where
  pos : ∃ q : Nat, q < BUFSIZ ∧ s.st.pos = (q : Int) - (BUFSIZ : Nat)
  readiov : s.st.readiov = { len := (BUFSIZ : Nat), buf := some BUFSIZ }
  iov : s.st.iov = true
  scan : dmq_findeor BUFSIZ s.st.buffer s.shared.mode ((BUFSIZ : Nat) + s.st.pos)
    ((BUFSIZ : Nat) + s.st.readiov.len) = .notfound

/-! # Theorems -/

/-! ## Buffer lemmas -/

theorem slice_length (buf : Nat → Byte) (a n : Nat) : (slice buf a n).length = n := by
  simp [slice]

theorem slice_zero (buf : Nat → Byte) (a : Nat) : slice buf a 0 = [] := by
  simp [slice]

theorem slice_succ (buf : Nat → Byte) (a n : Nat) :
    slice buf a (n + 1) = buf a :: slice buf (a + 1) n := by
  simp only [slice, List.range_succ_eq_map, List.map_cons, List.map_map, Nat.add_zero]
  congr 1
  apply List.map_congr_left
  intro i _
  simp only [Function.comp_apply]
  congr 1
  omega

theorem slice_add (buf : Nat → Byte) (a n m : Nat) :
    slice buf a (n + m) = slice buf a n ++ slice buf (a + n) m := by
  induction n generalizing a with
  | zero => simp [slice_zero]
  | succ n ih =>
    have h : n + 1 + m = (n + m) + 1 := by omega
    rw [h, slice_succ, slice_succ, ih (a + 1)]
    have h2 : a + 1 + n = a + (n + 1) := by omega
    rw [h2]
    rfl

theorem slice_congr (b1 b2 : Nat → Byte) (a n : Nat)
    (h : ∀ i, a ≤ i → i < a + n → b1 i = b2 i) : slice b1 a n = slice b2 a n := by
  simp only [slice]
  apply List.map_congr_left
  intro i hi
  exact h (a + i) (by omega) (by have := List.mem_range.mp hi; omega)

theorem slice_blit_self (buf : Nat → Byte) (a : Nat) (L : List Byte) :
    slice (blit buf a L) a L.length = L := by
  apply List.ext_getElem
  · simp [slice_length]
  · intro i h1 h2
    simp only [slice, List.getElem_map, List.getElem_range, blit]
    have : a ≤ a + i ∧ a + i < a + L.length := by omega
    rw [if_pos this]
    have h3 : a + i - a = i := by omega
    rw [h3, List.getD_eq_getElem _ _ h2]

theorem slice_blit_off (buf : Nat → Byte) (dst : Nat) (L : List Byte) (a n : Nat)
    (h : a + n ≤ dst ∨ dst + L.length ≤ a) :
    slice (blit buf dst L) a n = slice buf a n := by
  apply slice_congr
  intro i h1 h2
  simp only [blit]
  rw [if_neg]
  omega

theorem slice_eq_take_drop (buf : Nat → Byte) (a n k : Nat) (h : k ≤ n) :
    slice buf a n = slice buf a k ++ slice buf (a + k) (n - k) := by
  have : n = k + (n - k) := by omega
  rw [this, slice_add]
  simp

theorem scan_found (buf : Nat → Byte) (d : Byte) (r t : List Byte) (hr : d ∉ r) :
    ∀ (cp n : Nat), slice buf cp n = r ++ d :: t → scan buf d cp n = some (cp + r.length) := by
  induction r with
  | nil =>
    intro cp n h
    cases n with
    | zero => simp [slice_zero] at h
    | succ n =>
      rw [slice_succ] at h
      simp only [List.nil_append, List.cons.injEq] at h
      simp [scan, h.1]
  | cons x r ih =>
    intro cp n h
    cases n with
    | zero => simp [slice_zero] at h
    | succ n =>
      rw [slice_succ] at h
      simp only [List.cons_append, List.cons.injEq] at h
      have hx : buf cp ≠ d := by
        rw [h.1]; intro e; exact hr (by simp [e])
      have hr2 : d ∉ r := fun e => hr (by simp [e])
      simp only [scan, if_neg hx]
      rw [ih hr2 (cp + 1) n h.2]
      simp only [List.length_cons]
      congr 1
      omega

theorem scan_none (buf : Nat → Byte) (d : Byte) :
    ∀ (n cp : Nat), d ∉ slice buf cp n → scan buf d cp n = none := by
  intro n
  induction n with
  | zero => intro cp _; rfl
  | succ n ih =>
    intro cp h
    rw [slice_succ] at h
    simp only [List.mem_cons, not_or] at h
    have hx : buf cp ≠ d := fun e => h.1 e.symm
    simp only [scan, if_neg hx]
    exact ih (cp + 1) h.2

theorem take_slice (buf : Nat → Byte) (a n k : Nat) (h : k ≤ n) :
    (slice buf a n).take k = slice buf a k := by
  rw [slice_eq_take_drop buf a n k h, List.take_left' (slice_length _ _ _)]

theorem drop_slice (buf : Nat → Byte) (a n k : Nat) (h : k ≤ n) :
    (slice buf a n).drop k = slice buf (a + k) (n - k) := by
  rw [slice_eq_take_drop buf a n k h, List.drop_left' (slice_length _ _ _)]

theorem take_cons_pos (n : Nat) (a : Byte) (X : List Byte) (h : 0 < n) :
    (a :: X).take n = a :: X.take (n - 1) := by
  cases n with
  | zero => omega
  | succ n => simp

/-- A pending stream that starts with the record `r`, read from the buffer at `a`. -/
theorem record_at (buf : Nat → Byte) (a n : Nat) (r X : List Byte) (d : Byte)
    (h : slice buf a n = r ++ d :: X) : slice buf a r.length = r := by
  have hn : r.length ≤ n := by
    have := congrArg List.length h
    simp [slice_length] at this
    omega
  rw [← take_slice buf a n r.length hn, h]
  simp

/-- The buffer after a carry-over and a refill: the carried bytes and the new
bytes are one run of the read file. -/
theorem carry_run (BUFSIZ : Nat) (buf : Nat → Byte) (D : List Byte) (p rr : Nat)
    (hp : p < BUFSIZ)
    (hres : slice buf p (BUFSIZ - p) = D.take (BUFSIZ - p))
    (hrr : rr + (BUFSIZ - p) ≤ D.length) :
    slice (blit buf BUFSIZ ((D.drop (BUFSIZ - p)).take rr)) p (BUFSIZ - p + rr)
      = D.take (BUFSIZ - p + rr) := by
  have hlen : ((D.drop (BUFSIZ - p)).take rr).length = rr := by
    rw [List.length_take, List.length_drop]
    omega
  have hA : slice (blit buf BUFSIZ ((D.drop (BUFSIZ - p)).take rr)) p (BUFSIZ - p)
      = D.take (BUFSIZ - p) := by
    rw [slice_blit_off _ _ _ _ _ (Or.inl (by omega))]
    exact hres
  have hB : slice (blit buf BUFSIZ ((D.drop (BUFSIZ - p)).take rr)) BUFSIZ rr
      = (D.drop (BUFSIZ - p)).take rr := by
    have := slice_blit_self buf BUFSIZ ((D.drop (BUFSIZ - p)).take rr)
    rwa [hlen] at this
  have h1 : p + (BUFSIZ - p) = BUFSIZ := by omega
  rw [slice_add, hA, h1, hB, List.take_add]

/-- `size_t` arithmetic of `position = (readoffset - iov->len) + pos` when nothing wraps. -/
theorem wrap_pos (a b c d : Nat) (h : a + c = b + d) :
    ((((a : Nat) : Int) - ((b : Nat) : Int) + ((c : Nat) : Int)) % 2 ^ 64).toNat = d % 2 ^ 64 := by
  have h1 : ((a : Nat) : Int) - ((b : Nat) : Int) + ((c : Nat) : Int) = ((d : Nat) : Int) := by
    omega
  rw [h1]
  omega

/-! ## Framing lemmas -/

theorem frames_append (m : Int) (a b : List (List Byte)) :
    frames m (a ++ b) = frames m a ++ frames m b := by
  induction a with
  | nil => rfl
  | cons r a ih => simp [frames, ih]

theorem frames_take_drop (m : Int) (k : Nat) (l : List (List Byte)) :
    frames m (l.take k) ++ frames m (l.drop k) = frames m l := by
  rw [← frames_append, List.take_append_drop]

theorem frames_eq_nil (m : Int) (l : List (List Byte)) : frames m l = [] ↔ l = [] := by
  cases l with
  | nil => simp [frames]
  | cons r l => simp [frames]

/-- A non-empty run of whole pending records starts with the first one. -/
theorem frames_take_cons (m : Int) (r : List Byte) (rest : List (List Byte)) (k : Nat)
    (X : List Byte) (hX : X = frames m ((r :: rest).take k)) (hne : X ≠ []) :
    1 ≤ k ∧ X = r ++ delim m :: frames m (rest.take (k - 1)) := by
  cases k with
  | zero => simp [frames] at hX; exact absurd hX hne
  | succ k => simpa [frames] using hX

/-! ## Session lemmas -/

@[simp] theorem setoff_shared (s : session) (t : Int) (o : Nat) : (setoff s t o).shared = s.shared := by
  unfold setoff; split <;> rfl
@[simp] theorem setoff_st (s : session) (t : Int) (o : Nat) : (setoff s t o).st = s.st := by
  unfold setoff; split <;> rfl
@[simp] theorem setoff_direction (s : session) (t : Int) (o : Nat) :
    (setoff s t o).direction = s.direction := by
  unfold setoff; split <;> rfl
@[simp] theorem setoff_errmsg (s : session) (t : Int) (o : Nat) :
    (setoff s t o).dmq_errmsg = s.dmq_errmsg := by
  unfold setoff; split <;> rfl
@[simp] theorem setoff_env (s : session) (t : Int) (o : Nat) : (setoff s t o).env = s.env := by
  unfold setoff; split <;> rfl
@[simp] theorem setoff_q0 (s : session) (t : Int) (o : Nat) : (setoff s t o).q0 = s.q0 := by
  unfold setoff; split <;> rfl
@[simp] theorem setoff_q1 (s : session) (t : Int) (o : Nat) : (setoff s t o).q1 = s.q1 := by
  unfold setoff; split <;> rfl
@[simp] theorem setfile_shared (s : session) (t : Int) (f : List Byte) :
    (setfile s t f).shared = s.shared := by
  unfold setfile; split <;> rfl
@[simp] theorem setfile_st (s : session) (t : Int) (f : List Byte) : (setfile s t f).st = s.st := by
  unfold setfile; split <;> rfl
@[simp] theorem setfile_direction (s : session) (t : Int) (f : List Byte) :
    (setfile s t f).direction = s.direction := by
  unfold setfile; split <;> rfl
@[simp] theorem setfile_errmsg (s : session) (t : Int) (f : List Byte) :
    (setfile s t f).dmq_errmsg = s.dmq_errmsg := by
  unfold setfile; split <;> rfl
@[simp] theorem setfile_env (s : session) (t : Int) (f : List Byte) : (setfile s t f).env = s.env := by
  unfold setfile; split <;> rfl
@[simp] theorem setfile_qfd0 (s : session) (t : Int) (f : List Byte) :
    (setfile s t f).qfd0 = s.qfd0 := by
  unfold setfile; split <;> rfl
@[simp] theorem setfile_qfd1 (s : session) (t : Int) (f : List Byte) :
    (setfile s t f).qfd1 = s.qfd1 := by
  unfold setfile; split <;> rfl

/-- `qfile` and `qoff` read only the files and the offsets. -/
theorem qfile_congr (s1 s2 : session) (t : Int) (h0 : s1.q0 = s2.q0) (h1 : s1.q1 = s2.q1) :
    qfile s1 t = qfile s2 t := by
  simp [qfile, h0, h1]

theorem qoff_congr (s1 s2 : session) (t : Int) (h0 : s1.qfd0 = s2.qfd0) (h1 : s1.qfd1 = s2.qfd1) :
    qoff s1 t = qoff s2 t := by
  simp [qoff, h0, h1]

@[simp] theorem qfile_setoff (s : session) (t u : Int) (o : Nat) :
    qfile (setoff s t o) u = qfile s u := qfile_congr _ _ _ (by simp) (by simp)

@[simp] theorem qoff_setfile (s : session) (t u : Int) (f : List Byte) :
    qoff (setfile s t f) u = qoff s u := qoff_congr _ _ _ (by simp) (by simp)

@[simp] theorem qoff_setoff_same (s : session) (t : Int) (o : Nat) : qoff (setoff s t o) t = o := by
  unfold setoff qoff; split <;> simp [*]

@[simp] theorem qfile_setfile_same (s : session) (t : Int) (f : List Byte) :
    qfile (setfile s t f) t = f := by
  unfold setfile qfile; split <;> simp [*]

theorem qoff_setoff_other (s : session) (t u : Int) (o : Nat)
    (ht : t = 0 ∨ t = 1) (hu : u = 0 ∨ u = 1) (h : u ≠ t) :
    qoff (setoff s t o) u = qoff s u := by
  rcases ht with ht | ht <;> rcases hu with hu | hu <;> subst ht <;> subst hu <;>
    simp_all [setoff, qoff]

theorem qfile_setfile_other (s : session) (t u : Int) (f : List Byte)
    (ht : t = 0 ∨ t = 1) (hu : u = 0 ∨ u = 1) (h : u ≠ t) :
    qfile (setfile s t f) u = qfile s u := by
  rcases ht with ht | ht <;> rcases hu with hu | hu <;> subst ht <;> subst hu <;>
    simp_all [setfile, qfile]

theorem commit_fields (s : session) (d : Int) :
    (commit s d).shared = s.shared ∧ (commit s d).q0 = s.q0 ∧ (commit s d).q1 = s.q1
    ∧ (commit s d).qfd0 = s.qfd0 ∧ (commit s d).qfd1 = s.qfd1 ∧ (commit s d).st = s.st
    ∧ (commit s d).dmq_errmsg = s.dmq_errmsg ∧ (commit s d).env = s.env
    ∧ (commit s d).direction = if s.direction = 0 then d else s.direction := by
  unfold commit
  split <;> simp [*]

@[simp] theorem commit_shared (s : session) (d : Int) : (commit s d).shared = s.shared :=
  (commit_fields s d).1
@[simp] theorem commit_q0 (s : session) (d : Int) : (commit s d).q0 = s.q0 :=
  (commit_fields s d).2.1
@[simp] theorem commit_q1 (s : session) (d : Int) : (commit s d).q1 = s.q1 :=
  (commit_fields s d).2.2.1
@[simp] theorem commit_qfd0 (s : session) (d : Int) : (commit s d).qfd0 = s.qfd0 :=
  (commit_fields s d).2.2.2.1
@[simp] theorem commit_qfd1 (s : session) (d : Int) : (commit s d).qfd1 = s.qfd1 :=
  (commit_fields s d).2.2.2.2.1
@[simp] theorem commit_st (s : session) (d : Int) : (commit s d).st = s.st :=
  (commit_fields s d).2.2.2.2.2.1
@[simp] theorem commit_errmsg (s : session) (d : Int) : (commit s d).dmq_errmsg = s.dmq_errmsg :=
  (commit_fields s d).2.2.2.2.2.2.1
@[simp] theorem commit_env (s : session) (d : Int) : (commit s d).env = s.env :=
  (commit_fields s d).2.2.2.2.2.2.2.1
theorem commit_direction (s : session) (d : Int) :
    (commit s d).direction = if s.direction = 0 then d else s.direction :=
  (commit_fields s d).2.2.2.2.2.2.2.2

@[simp] theorem qfile_commit (s : session) (d t : Int) : qfile (commit s d) t = qfile s t :=
  qfile_congr _ _ _ (by simp) (by simp)
@[simp] theorem qoff_commit (s : session) (d t : Int) : qoff (commit s d) t = qoff s t :=
  qoff_congr _ _ _ (by simp) (by simp)

/-- The session after `writev`, field by field. -/
theorem after_write_fields (s : session) (bytes : List Byte)
    (hwt : s.shared.writetarget = 0 ∨ s.shared.writetarget = 1) :
    (after_write s bytes).shared = s.shared
    ∧ (after_write s bytes).st = s.st
    ∧ (after_write s bytes).env = s.env
    ∧ (after_write s bytes).direction = s.direction
    ∧ (after_write s bytes).dmq_errmsg = s.dmq_errmsg
    ∧ qfile (after_write s bytes) s.shared.writetarget = qfile s s.shared.writetarget ++ bytes
    ∧ qfile (after_write s bytes) (1 - s.shared.writetarget)
        = qfile s (1 - s.shared.writetarget) := by
  unfold after_write
  refine ⟨by simp, by simp, by simp, by simp, by simp, by simp, ?_⟩
  rw [qfile_setoff]
  apply qfile_setfile_other _ _ _ _ hwt
  · rcases hwt with h | h <;> rw [h] <;> simp
  · rcases hwt with h | h <;> rw [h] <;> simp

/-- The session after the reader has followed the writer, field by field. -/
theorem after_follow_fields (s : session)
    (hrt : s.shared.readtarget = 0 ∨ s.shared.readtarget = 1)
    (hwt : s.shared.writetarget = 0 ∨ s.shared.writetarget = 1)
    (hne : s.shared.readtarget ≠ s.shared.writetarget) :
    (after_follow s).shared.readtarget = s.shared.writetarget
    ∧ (after_follow s).shared.writetarget = s.shared.writetarget
    ∧ (after_follow s).shared.mode = s.shared.mode
    ∧ (after_follow s).shared.readoffset = 0
    ∧ (after_follow s).shared.position = 0
    ∧ (after_follow s).st = s.st
    ∧ (after_follow s).env = s.env
    ∧ (after_follow s).direction = s.direction
    ∧ qoff (after_follow s) s.shared.writetarget = 0
    ∧ qfile (after_follow s) s.shared.writetarget = qfile s s.shared.writetarget
    ∧ qfile (after_follow s) s.shared.readtarget = [] := by
  refine ⟨rfl, rfl, rfl, rfl, rfl, by simp [after_follow], by simp [after_follow],
    by simp [after_follow], ?_, ?_, ?_⟩
  · have : qoff (after_follow s) s.shared.writetarget
        = qoff (setoff (setfile s s.shared.readtarget []) s.shared.writetarget 0)
            s.shared.writetarget := qoff_congr _ _ _ rfl rfl
    rw [this, qoff_setoff_same]
  · have : qfile (after_follow s) s.shared.writetarget
        = qfile (setfile s s.shared.readtarget []) s.shared.writetarget :=
      qfile_congr _ _ _ (by simp [after_follow]) (by simp [after_follow])
    rw [this]
    exact qfile_setfile_other _ _ _ _ hrt hwt (Ne.symm hne)
  · have : qfile (after_follow s) s.shared.readtarget
        = qfile (setfile s s.shared.readtarget []) s.shared.readtarget :=
      qfile_congr _ _ _ (by simp [after_follow]) (by simp [after_follow])
    rw [this, qfile_setfile_same]

/-- The session after the wait step, field by field. -/
theorem after_wait_fields (s : session) :
    (after_wait s).shared.readtarget = s.shared.readtarget
    ∧ (after_wait s).shared.writetarget
        = (if s.shared.readoffset > 100 then 1 - s.shared.writetarget else s.shared.writetarget)
    ∧ (after_wait s).shared.mode = s.shared.mode
    ∧ (after_wait s).shared.readoffset = s.shared.readoffset
    ∧ (after_wait s).shared.position = s.shared.position
    ∧ (after_wait s).st = s.st
    ∧ (after_wait s).env = s.env
    ∧ (after_wait s).direction = s.direction
    ∧ (after_wait s).q0 = s.q0 ∧ (after_wait s).q1 = s.q1
    ∧ (after_wait s).qfd0 = s.qfd0 ∧ (after_wait s).qfd1 = s.qfd1 := by
  unfold after_wait
  split <;> simp

theorem after_read_fields (s : session) (b : Nat) :
    (after_read s b).shared.readtarget = s.shared.readtarget
    ∧ (after_read s b).shared.writetarget = s.shared.writetarget
    ∧ (after_read s b).shared.mode = s.shared.mode
    ∧ (after_read s b).shared.readoffset = s.shared.readoffset + readlen s
    ∧ (after_read s b).q0 = s.q0 ∧ (after_read s b).q1 = s.q1
    ∧ (after_read s b).st.pos = s.st.pos
    ∧ (after_read s b).st.iov = s.st.iov
    ∧ (after_read s b).st.readiov = { len := (readlen s : Nat), buf := s.st.readiov.buf }
    ∧ (after_read s b).st.buffer = blit s.st.buffer b
        (((qfile s s.shared.readtarget).drop (qoff s s.shared.readtarget)).take (readlen s))
    ∧ (after_read s b).env = s.env
    ∧ (after_read s b).direction = s.direction
    ∧ qoff (after_read s b) s.shared.readtarget = qoff s s.shared.readtarget + readlen s
    ∧ (∀ t, qfile (after_read s b) t = qfile s t) := by
  refine ⟨rfl, rfl, rfl, rfl, by simp [after_read], by simp [after_read], rfl, rfl, rfl, rfl,
    by simp [after_read], by simp [after_read], ?_, ?_⟩
  · have : qoff (after_read s b) s.shared.readtarget
        = qoff (setoff s s.shared.readtarget (qoff s s.shared.readtarget + readlen s))
            s.shared.readtarget := qoff_congr _ _ _ (by simp [after_read]) (by simp [after_read])
    rw [this, qoff_setoff_same]
  · intro t
    exact qfile_congr _ _ _ (by simp [after_read]) (by simp [after_read])

/-- The session `receive_deliver` ends in, field by field. -/
theorem receive_deliver_fields (s : session) (b : Nat) (eor : Int) (e : Option Int) :
    (receive_deliver s b eor e).ret
        = .record ⟨b + s.st.pos + (if s.shared.mode = MODE_FRAMES then 2 else 0), eor⟩
    ∧ (receive_deliver s b eor e).err = e
    ∧ (receive_deliver s b eor e).s.shared.mode = s.shared.mode
    ∧ (receive_deliver s b eor e).s.shared.readtarget = s.shared.readtarget
    ∧ (receive_deliver s b eor e).s.shared.writetarget = s.shared.writetarget
    ∧ (receive_deliver s b eor e).s.shared.readoffset = s.shared.readoffset
    ∧ (receive_deliver s b eor e).s.shared.position
        = (((s.shared.readoffset : Int) - s.st.readiov.len + (eor - b + 1)) % 2 ^ 64).toNat
    ∧ (receive_deliver s b eor e).s.q0 = s.q0
    ∧ (receive_deliver s b eor e).s.q1 = s.q1
    ∧ (receive_deliver s b eor e).s.qfd0 = s.qfd0
    ∧ (receive_deliver s b eor e).s.qfd1 = s.qfd1
    ∧ (receive_deliver s b eor e).s.direction = s.direction
    ∧ (receive_deliver s b eor e).s.env = s.env
    ∧ (receive_deliver s b eor e).s.st.pos = eor - b + 1
    ∧ (receive_deliver s b eor e).s.st.iov = s.st.iov
    ∧ (receive_deliver s b eor e).s.st.readiov = s.st.readiov
    ∧ (receive_deliver s b eor e).s.st.buffer = s.st.buffer :=
  ⟨rfl, rfl, rfl, rfl, rfl, rfl, rfl, rfl, rfl, rfl, rfl, rfl, rfl, rfl, rfl, rfl, rfl⟩

/-- The session after the carry-over, field by field. -/
theorem carry_over_fields (BUFSIZ : Nat) (s : session) (p n : Nat)
    (hpos : s.st.pos = (p : Nat)) (hlen : s.st.readiov.len = ((p + n : Nat) : Int)) :
    (carry_over BUFSIZ s BUFSIZ).st.buffer
        = blit s.st.buffer p (slice s.st.buffer (BUFSIZ + p) n)
    ∧ (carry_over BUFSIZ s BUFSIZ).st.pos = (p : Int) - (BUFSIZ : Nat)
    ∧ (carry_over BUFSIZ s BUFSIZ).st.readiov = { len := (BUFSIZ : Nat), buf := some BUFSIZ }
    ∧ (carry_over BUFSIZ s BUFSIZ).st.iov = s.st.iov := by
  have h1 : ((BUFSIZ : Int) + (p : Nat) - (BUFSIZ : Nat)).toNat = p := by omega
  have h2 : ((BUFSIZ : Int) + (p : Nat)).toNat = BUFSIZ + p := by omega
  have h3 : (((p + n : Nat) : Int) - (p : Nat)).toNat = n := by omega
  refine ⟨?_, ?_, rfl, rfl⟩
  · simp only [carry_over, hpos, hlen, h1, h2, h3]
  · simp only [carry_over, hpos]

/-- What `read` returns with a request of `BUFSIZ` bytes. -/
theorem readlen_cases (BUFSIZ : Nat) (s : session) (hlen : s.st.readiov.len = (BUFSIZ : Nat))
    (hle : qoff s s.shared.readtarget ≤ (qfile s s.shared.readtarget).length) :
    (readlen s = BUFSIZ
        ∧ qoff s s.shared.readtarget + readlen s ≤ (qfile s s.shared.readtarget).length)
      ∨ (readlen s ≤ BUFSIZ
        ∧ qoff s s.shared.readtarget + readlen s = (qfile s s.shared.readtarget).length) := by
  unfold readlen
  rw [hlen, Int.toNat_ofNat]
  omega

/-! ## The three outcomes of a pass of `dmq_read` -/

theorem dmq_read_data (fuel : Nat) (s : session) (nowait : Int) (e : Option Int) (b : Nat)
    (hrt : s.shared.readtarget = 0 ∨ s.shared.readtarget = 1)
    (hbuf : s.st.readiov.buf = some b)
    (henv : s.env.readfail = false)
    (hr : 0 < readlen s) :
    dmq_read (fuel + 1) s nowait e = ⟨after_read s b, .iovp, e⟩ := by
  have hr2 : ¬ (readlen s = 0) := by omega
  simp [dmq_read, dmq_read_pass, hrt, hbuf, henv, hr2]

theorem dmq_read_follow (fuel : Nat) (s : session) (nowait : Int) (e : Option Int) (b : Nat)
    (hrt : s.shared.readtarget = 0 ∨ s.shared.readtarget = 1)
    (hwt : s.shared.writetarget = 0 ∨ s.shared.writetarget = 1)
    (hbuf : s.st.readiov.buf = some b)
    (henv : s.env.readfail = false)
    (hr : readlen s = 0)
    (hne : s.shared.readtarget ≠ s.shared.writetarget) :
    dmq_read (fuel + 1) s nowait e = dmq_read fuel (after_follow s) nowait e := by
  simp [dmq_read, dmq_read_pass, hrt, hwt, hbuf, henv, hr, hne]

theorem dmq_read_wait (fuel : Nat) (s : session) (nowait : Int) (e : Option Int) (b : Nat)
    (hrt : s.shared.readtarget = 0 ∨ s.shared.readtarget = 1)
    (hbuf : s.st.readiov.buf = some b)
    (henv : s.env.readfail = false)
    (hr : readlen s = 0)
    (heq : s.shared.readtarget = s.shared.writetarget) :
    dmq_read (fuel + 1) s nowait e =
      if nowait ≠ 0 then
        match e with
        | some _ => ⟨after_wait s, .null, some 0⟩
        | none => ⟨after_wait s, .undefined, e⟩
      else ⟨after_wait s, .sleeping, e⟩ := by
  have hwt : s.shared.writetarget = 0 ∨ s.shared.writetarget = 1 := heq ▸ hrt
  simp only [dmq_read, dmq_read_pass, hrt, hwt, hbuf, henv, hr, heq, not_true_eq_false, if_false,
    Bool.false_eq_true, if_true, ne_eq]
  by_cases hn : nowait = 0
  · simp [hn]
  · cases e <;> simp [hn]

/-! ## Sending -/

theorem dmq_send_bound (w : World) (sdesc : Int) (B : String) (data : List Byte) (slen : Int)
    (hchk : CHECK_SDESC w sdesc = false)
    (hB : (w.sdarray sdesc.toNat).sharedstate = some B) :
    dmq_send w sdesc data slen =
      ⟨detach w sdesc.toNat B (dmq_send_body (attach w sdesc.toNat B) data slen).s,
       (dmq_send_body (attach w sdesc.toNat B) data slen).ret⟩ := by
  simp [dmq_send, hchk, hB]

theorem ushort_of_length (data : List Byte) (h : data.length ≤ 65535) :
    (((data.length : Int) % 65536).toNat) = data.length := by
  omega

/-- A `dmq_send_body` whose `writev` writes everything, whatever it returns. -/
theorem send_body_full (s : session) (data : List Byte) (slen : Int)
    (hdir : s.direction ≠ 2) (hfull : s.env.writev = .full)
    (hwt : s.shared.writetarget = 0 ∨ s.shared.writetarget = 1) :
    (dmq_send_body s data slen).s.shared = s.shared
    ∧ (dmq_send_body s data slen).s.st = s.st
    ∧ (dmq_send_body s data slen).s.env = s.env
    ∧ qfile (dmq_send_body s data slen).s s.shared.writetarget
        = qfile s s.shared.writetarget ++ (send_frame s.shared.mode data slen).1.flatten
    ∧ qfile (dmq_send_body s data slen).s (1 - s.shared.writetarget)
        = qfile s (1 - s.shared.writetarget) := by
  have hwt1 : (commit s 1).shared.writetarget = 0 ∨ (commit s 1).shared.writetarget = 1 := by
    simpa using hwt
  obtain ⟨a1, a2, a3, -, -, a6, a7⟩ := after_write_fields (commit s 1)
    (send_frame s.shared.mode data slen).1.flatten hwt1
  simp only [commit_shared, commit_st, commit_env, qfile_commit] at a1 a2 a3 a6 a7
  have hnf : ¬ (s.env.writev = wfault.fail) := by simp [hfull]
  unfold dmq_send_body
  rw [if_neg hdir]
  simp only [commit_shared, not_not.mpr hwt, if_false, commit_env, if_neg hnf]
  simp only [hfull, written]
  split
  · split
    · exact ⟨a1, a2, a3, a6, a7⟩
    · exact ⟨a1, a2, a3, a6, a7⟩
  · exact ⟨a1, a2, a3, a6, a7⟩

theorem send_body_ret (s : session) (data : List Byte) (slen : Int)
    (hdir : s.direction ≠ 2) (hfull : s.env.writev = .full)
    (hwt : s.shared.writetarget = 0 ∨ s.shared.writetarget = 1)
    (herr : s.dmq_errmsg ≠ none) :
    (dmq_send_body s data slen).ret
      = if (((send_frame s.shared.mode data slen).1.flatten.length : Nat) : Int)
            = (send_frame s.shared.mode data slen).2
        then .ret (send_frame s.shared.mode data slen).1.flatten.length else .ret (-1) := by
  have hwt1 : (commit s 1).shared.writetarget = 0 ∨ (commit s 1).shared.writetarget = 1 := by
    simpa using hwt
  obtain ⟨-, -, -, -, a5, -, -⟩ := after_write_fields (commit s 1)
    (send_frame s.shared.mode data slen).1.flatten hwt1
  obtain ⟨m, hm⟩ := Option.ne_none_iff_exists'.mp herr
  have hnf : ¬ (s.env.writev = wfault.fail) := by simp [hfull]
  unfold dmq_send_body
  rw [if_neg hdir]
  simp only [commit_shared, not_not.mpr hwt, if_false, commit_env, if_neg hnf]
  simp only [hfull, written]
  rw [a5, commit_errmsg, hm]
  split_ifs <;> first | rfl | contradiction

theorem dmq_send_files (w : World) (sdesc : Int) (B : String) (data : List Byte) (slen : Int)
    (hchk : CHECK_SDESC w sdesc = false)
    (hB : (w.sdarray sdesc.toNat).sharedstate = some B)
    (hdir : (w.sdarray sdesc.toNat).direction ≠ 2)
    (hfull : w.env.writev = .full)
    (hwt : (w.fs B).shared.writetarget = 0 ∨ (w.fs B).shared.writetarget = 1) :
    wfile ((dmq_send w sdesc data slen).w.fs B) (w.fs B).shared.writetarget
        = wfile (w.fs B) (w.fs B).shared.writetarget
            ++ (send_frame (w.fs B).shared.mode data slen).1.flatten
      ∧ wfile ((dmq_send w sdesc data slen).w.fs B) (1 - (w.fs B).shared.writetarget)
          = wfile (w.fs B) (1 - (w.fs B).shared.writetarget)
      ∧ ((dmq_send w sdesc data slen).w.fs B).shared = (w.fs B).shared := by
  obtain ⟨h1, -, -, h4, h5⟩ := send_body_full (attach w sdesc.toNat B) data slen hdir hfull hwt
  rw [dmq_send_bound w sdesc B data slen hchk hB]
  refine ⟨?_, ?_, ?_⟩
  · simpa [detach, attach, wfile, qfile] using h4
  · simpa [detach, attach, wfile, qfile] using h5
  · simpa [detach, attach] using h1

theorem dmq_send_ret (w : World) (sdesc : Int) (B : String) (data : List Byte) (slen : Int)
    (hchk : CHECK_SDESC w sdesc = false)
    (hB : (w.sdarray sdesc.toNat).sharedstate = some B)
    (hdir : (w.sdarray sdesc.toNat).direction ≠ 2)
    (hfull : w.env.writev = .full)
    (hwt : (w.fs B).shared.writetarget = 0 ∨ (w.fs B).shared.writetarget = 1)
    (herr : w.dmq_errmsg ≠ none) :
    (dmq_send w sdesc data slen).ret
      = if (((send_frame (w.fs B).shared.mode data slen).1.flatten.length : Nat) : Int)
            = (send_frame (w.fs B).shared.mode data slen).2
        then .ret (send_frame (w.fs B).shared.mode data slen).1.flatten.length else .ret (-1) := by
  have h := send_body_ret (attach w sdesc.toNat B) data slen hdir hfull hwt herr
  rw [dmq_send_bound w sdesc B data slen hchk hB]
  exact h

/-! ## A fresh queue with two descriptors -/

theorem fresh_pair_eq (B : String) (m : Int) :
    fresh_pair B m =
      { fs := Function.update (Function.update (boot nofault).fs B
                { mapexists := true, shared := newheader B m, q0 := [], q1 := [] }) B
                { mapexists := true, shared := newheader B m, q0 := [], q1 := [] },
        sdarray := Function.update (Function.update (boot nofault).sdarray 0
                { sharedstate := some B, qfd0 := 0, qfd1 := 0, direction := 0 }) 1
                { sharedstate := some B, qfd0 := 0, qfd1 := 0, direction := 0 },
        dmq_errmsg := some "", st := statics0, env := nofault } := by
  have h1 : dmq_init (boot nofault) B m =
      ⟨{ fs := Function.update (boot nofault).fs B
                { mapexists := true, shared := newheader B m, q0 := [], q1 := [] },
         sdarray := Function.update (boot nofault).sdarray 0
                { sharedstate := some B, qfd0 := 0, qfd1 := 0, direction := 0 },
         dmq_errmsg := some "", st := statics0, env := nofault }, .ret 0⟩ := by
    rfl
  have hf : freeslot
      { fs := Function.update (boot nofault).fs B
                { mapexists := true, shared := newheader B m, q0 := [], q1 := [] },
        sdarray := Function.update (boot nofault).sdarray 0
                { sharedstate := some B, qfd0 := 0, qfd1 := 0, direction := 0 },
        dmq_errmsg := some "", st := statics0, env := nofault } = 1 := rfl
  unfold fresh_pair
  rw [h1]
  simp [dmq_init, alloc_errmsg, open_queue, bind_slot, hf]
  simp [newheader]


@[simp] theorem fresh_pair_fs (B : String) (m : Int) :
    (fresh_pair B m).fs B = { mapexists := true, shared := newheader B m, q0 := [], q1 := [] } := by
  simp [fresh_pair_eq]

@[simp] theorem fresh_pair_sd1 (B : String) (m : Int) :
    (fresh_pair B m).sdarray 1 = { sharedstate := some B, qfd0 := 0, qfd1 := 0, direction := 0 } := by
  simp [fresh_pair_eq]

@[simp] theorem fresh_pair_sd0 (B : String) (m : Int) :
    (fresh_pair B m).sdarray 0 = { sharedstate := some B, qfd0 := 0, qfd1 := 0, direction := 0 } := by
  simp [fresh_pair_eq]

@[simp] theorem fresh_pair_st (B : String) (m : Int) : (fresh_pair B m).st = statics0 := by
  simp [fresh_pair_eq]

@[simp] theorem fresh_pair_errmsg (B : String) (m : Int) :
    (fresh_pair B m).dmq_errmsg = some "" := by
  simp [fresh_pair_eq]

@[simp] theorem fresh_pair_env (B : String) (m : Int) : (fresh_pair B m).env = nofault := by
  simp [fresh_pair_eq]

theorem dmq_receive_bound (BUFSIZ fuel : Nat) (w : World) (sdesc : Int) (B : String)
    (nowait : Int) (errorp : Option Int)
    (hchk : CHECK_SDESC w sdesc = false)
    (hB : (w.sdarray sdesc.toNat).sharedstate = some B) :
    dmq_receive BUFSIZ fuel w sdesc nowait errorp =
      ⟨detach w sdesc.toNat B (dmq_receive_body BUFSIZ fuel (attach w sdesc.toNat B) nowait errorp).s,
       (dmq_receive_body BUFSIZ fuel (attach w sdesc.toNat B) nowait errorp).ret,
       (dmq_receive_body BUFSIZ fuel (attach w sdesc.toNat B) nowait errorp).err⟩ := by
  simp [dmq_receive, hchk, hB]

/-! ## Wire format -/

/-- C4: a `dmq_send` of `data` (at most 65535 bytes) whose `writev` writes everything
appends `data ++ [0x0A]` in Newlines mode, `data ++ [0x00]` in Nulls mode and `data`
in Raw mode to the file indexed by the header's `writetarget`, and leaves the other
queue file unchanged; "hello" then "world" in Newlines mode on an empty queue leave
the bytes of "hello\nworld\n" in the written file. -/
theorem dmq_send_delimiter_wire_format (w : World) (sdesc : Int) (B : String) (data : List Byte)
    (hchk : CHECK_SDESC w sdesc = false)
    (hB : (w.sdarray sdesc.toNat).sharedstate = some B)
    (hdir : (w.sdarray sdesc.toNat).direction ≠ 2)
    (hfull : w.env.writev = .full)
    (hwt : (w.fs B).shared.writetarget = 0 ∨ (w.fs B).shared.writetarget = 1)
    (hlen : data.length ≤ 65535) :
    ((w.fs B).shared.mode = MODE_NEWLINES →
        wfile ((dmq_send w sdesc data data.length).w.fs B) (w.fs B).shared.writetarget
          = wfile (w.fs B) (w.fs B).shared.writetarget ++ data ++ [10])
    ∧ ((w.fs B).shared.mode = MODE_NULLS →
        wfile ((dmq_send w sdesc data data.length).w.fs B) (w.fs B).shared.writetarget
          = wfile (w.fs B) (w.fs B).shared.writetarget ++ data ++ [0])
    ∧ ((w.fs B).shared.mode = MODE_RAW →
        wfile ((dmq_send w sdesc data data.length).w.fs B) (w.fs B).shared.writetarget
          = wfile (w.fs B) (w.fs B).shared.writetarget ++ data)
    ∧ wfile ((dmq_send w sdesc data data.length).w.fs B) (1 - (w.fs B).shared.writetarget)
        = wfile (w.fs B) (1 - (w.fs B).shared.writetarget)
    ∧ wfile ((send_all (fresh_pair "q" MODE_NEWLINES) 0
          [[104, 101, 108, 108, 111], [119, 111, 114, 108, 100]]).fs "q") 0
        = [104, 101, 108, 108, 111, 10, 119, 111, 114, 108, 100, 10] := by
  obtain ⟨h1, h2, -⟩ := dmq_send_files w sdesc B data data.length hchk hB hdir hfull hwt
  have hl := ushort_of_length data hlen
  refine ⟨fun hm => ?_, fun hm => ?_, fun hm => ?_, h2, by decide⟩
  · rw [h1]; simp [send_frame, hm, hl]
  · rw [h1]; simp [send_frame, hm, hl]
  · rw [h1]; simp [send_frame, hm, hl]

theorem dmq_send_delimiter_wire_format_witness :
    wfile ((dmq_send (fresh_pair "q" MODE_NEWLINES) 0 [104, 105] 2).w.fs "q") 0 = [104, 105, 10] :=
  ((dmq_send_delimiter_wire_format (fresh_pair "q" MODE_NEWLINES) 0 "q" [104, 105]
    (by decide) (by decide) (by decide) (by decide) (by decide) (by decide)).1 (by decide))

/-- C3, amended: in Frames mode a `dmq_send` of a payload of `L <= 65533` bytes whose
`writev` writes everything appends the two-byte little-endian encoding of `L + 2`
(the length of the record with its prefix) followed by the `L` payload bytes, and
leaves the other queue file unchanged; for the payload 00 FF 0A 42 the appended
bytes are 06 00 00 FF 0A 42. -/
theorem dmq_send_frames_wire_format (w : World) (sdesc : Int) (B : String) (data : List Byte)
    (hchk : CHECK_SDESC w sdesc = false)
    (hB : (w.sdarray sdesc.toNat).sharedstate = some B)
    (hdir : (w.sdarray sdesc.toNat).direction ≠ 2)
    (hfull : w.env.writev = .full)
    (hwt : (w.fs B).shared.writetarget = 0 ∨ (w.fs B).shared.writetarget = 1)
    (hm : (w.fs B).shared.mode = MODE_FRAMES)
    (hlen : data.length ≤ 65533) :
    wfile ((dmq_send w sdesc data data.length).w.fs B) (w.fs B).shared.writetarget
        = wfile (w.fs B) (w.fs B).shared.writetarget
            ++ [(data.length + 2) % 256, (data.length + 2) / 256] ++ data
    ∧ wfile ((dmq_send w sdesc data data.length).w.fs B) (1 - (w.fs B).shared.writetarget)
        = wfile (w.fs B) (1 - (w.fs B).shared.writetarget)
    ∧ wfile (frames_one.fs "q") 0 = [6, 0, 0, 255, 10, 66] := by
  obtain ⟨h1, h2, -⟩ := dmq_send_files w sdesc B data data.length hchk hB hdir hfull hwt
  have hl := ushort_of_length data (by omega)
  have h3 : (data.length + 2) % 65536 = data.length + 2 := by omega
  refine ⟨?_, h2, by decide⟩
  rw [h1]; simp [send_frame, hm, hl, h3]

theorem dmq_send_frames_wire_format_witness :
    wfile ((dmq_send (fresh_pair "q" MODE_FRAMES) 0 [7, 8, 9] 3).w.fs "q") 0 = [5, 0, 7, 8, 9] :=
  (dmq_send_frames_wire_format (fresh_pair "q" MODE_FRAMES) 0 "q" [7, 8, 9]
    (by decide) (by decide) (by decide) (by decide) (by decide) (by decide) (by decide)).1

/-- The bytes a Frames-mode `dmq_send` of 00 FF 0A 42 appends are not
04 00 00 FF 0A 42: the two-byte count is not the payload length. -/
theorem dmq_send_frames_prefix_not_payload_length :
    wfile (frames_one.fs "q") 0 ≠ [4, 0, 0, 255, 10, 66] := by
  decide

theorem send_boundary (data : List Byte) :
    (data.length = 65535 →
      (dmq_send (fresh_pair "q" MODE_NEWLINES) 0 data 65535).ret = .ret (-1)
      ∧ wfile ((dmq_send (fresh_pair "q" MODE_NEWLINES) 0 data 65535).w.fs "q") 0 = data ++ [10])
    ∧ (data.length = 65534 →
      (dmq_send (fresh_pair "q" MODE_FRAMES) 0 data 65534).ret = .ret (-1)
      ∧ (dmq_send (fresh_pair "q" MODE_NEWLINES) 0 data 65534).ret = .ret 65535) := by
  have hc : CHECK_SDESC (fresh_pair "q" MODE_NEWLINES) 0 = false := by decide
  have hc2 : CHECK_SDESC (fresh_pair "q" MODE_FRAMES) 0 = false := by decide
  refine ⟨fun hl => ⟨?_, ?_⟩, fun hl => ⟨?_, ?_⟩⟩
  · rw [dmq_send_ret _ 0 "q" _ _ hc (by decide) (by decide) (by decide) (by decide) (by decide)]
    simp [send_frame, newheader, hl, MODE_FRAMES, MODE_NEWLINES, MODE_NULLS]
  · have h := (dmq_send_files (fresh_pair "q" MODE_NEWLINES) 0 "q" data 65535
      hc (by decide) (by decide) (by decide) (by decide)).1
    have h2 : List.take 65535 data = data := List.take_of_length_le (by omega)
    simpa [send_frame, newheader, wfile, h2, MODE_FRAMES, MODE_NEWLINES, MODE_NULLS] using h
  · rw [dmq_send_ret _ 0 "q" _ _ hc2 (by decide) (by decide) (by decide) (by decide) (by decide)]
    simp [send_frame, newheader, hl, MODE_FRAMES, MODE_NEWLINES, MODE_NULLS]
  · rw [dmq_send_ret _ 0 "q" _ _ hc (by decide) (by decide) (by decide) (by decide) (by decide)]
    simp [send_frame, newheader, hl, MODE_FRAMES, MODE_NEWLINES, MODE_NULLS]

/-- C5, failing inputs: on a fresh Newlines queue a `dmq_send` of 65535 bytes appends
all 65536 framed bytes and returns -1; on a fresh Frames queue a `dmq_send` of 65534
bytes returns -1; a Newlines `dmq_send` of 65534 bytes returns 65535. -/
theorem dmq_send_full_write_reported_short :
    (dmq_send (fresh_pair "q" MODE_NEWLINES) 0 (List.replicate 65535 65) 65535).ret = .ret (-1)
    ∧ wfile ((dmq_send (fresh_pair "q" MODE_NEWLINES) 0 (List.replicate 65535 65) 65535).w.fs "q") 0
        = List.replicate 65535 65 ++ [10]
    ∧ (dmq_send (fresh_pair "q" MODE_FRAMES) 0 (List.replicate 65534 65) 65534).ret = .ret (-1)
    ∧ (dmq_send (fresh_pair "q" MODE_NEWLINES) 0 (List.replicate 65534 65) 65534).ret
        = .ret 65535 :=
  ⟨((send_boundary _).1 (List.length_replicate _ _)).1,
   ((send_boundary _).1 (List.length_replicate _ _)).2,
   ((send_boundary _).2 (List.length_replicate _ _)).1,
   ((send_boundary _).2 (List.length_replicate _ _)).2⟩

/-! ## Evaluations -/

/-- C2, failing inputs: after a `dmq_send` of 00 FF 0A 42 on a fresh Frames queue a
non-blocking `dmq_receive` returns NULL with the flag 0 and a blocking one goes to
sleep in its second `dmq_read`; after a `dmq_send` of 01 02 and of 03 04 the first
`dmq_receive` hands out 01 02 and leaves `position` at 5, not 4, and the second
returns NULL. -/
theorem frames_round_trip_fails :
    (dmq_receive 8192 2 frames_one 1 1 (some 1)).ret = .null
    ∧ (dmq_receive 8192 2 frames_one 1 1 (some 1)).err = some 0
    ∧ (dmq_receive 8192 2 frames_one 1 0 (some 1)).ret = .sleeping 2
    ∧ (dmq_receive 8192 2 frames_two 1 1 (some 1)).ret = .record ⟨8194, 8196⟩
    ∧ record_bytes (dmq_receive 8192 2 frames_two 1 1 (some 1)).w.st ⟨8194, 8196⟩ = [1, 2]
    ∧ ((dmq_receive 8192 2 frames_two 1 1 (some 1)).w.fs "q").shared.position = 5
    ∧ (dmq_receive 8192 2 (dmq_receive 8192 2 frames_two 1 1 (some 1)).w 1 1 (some 1)).ret = .null := by
  decide

/-- C10, failing input: on a fresh Newlines queue a non-blocking `dmq_receive` returns
NULL with the flag 0 and leaves the static `iov` NULL; after a `dmq_send` of "x",
which is on disk, the next `dmq_receive` dereferences that NULL pointer. -/
theorem receive_after_would_block_undefined :
    (dmq_receive 8192 2 (fresh_pair "q" MODE_NEWLINES) 1 1 (some 1)).ret = .null
    ∧ (dmq_receive 8192 2 (fresh_pair "q" MODE_NEWLINES) 1 1 (some 1)).err = some 0
    ∧ (dmq_receive 8192 2 (fresh_pair "q" MODE_NEWLINES) 1 1 (some 1)).w.st.iov = false
    ∧ wfile ((polled 8192).fs "q") 0 = [120, 10]
    ∧ (dmq_receive 8192 2 (polled 8192) 1 1 (some 1)).ret = .undefined := by
  decide

/-- The first poll of a process: on a fresh queue a `dmq_receive` with `nowait != 0`
returns NULL, sets the flag to 0, and leaves the header (read target, write target,
read offset, position) and both files, which are empty, unchanged. -/
theorem receive_empty_would_block (BUFSIZ fuel : Nat) (B : String) (m nowait v : Int)
    (hn : nowait ≠ 0) :
    (dmq_receive BUFSIZ (fuel + 1) (fresh_pair B m) 1 nowait (some v)).ret = .null
    ∧ (dmq_receive BUFSIZ (fuel + 1) (fresh_pair B m) 1 nowait (some v)).err = some 0
    ∧ ((dmq_receive BUFSIZ (fuel + 1) (fresh_pair B m) 1 nowait (some v)).w.fs B).shared
        = ((fresh_pair B m).fs B).shared
    ∧ ((dmq_receive BUFSIZ (fuel + 1) (fresh_pair B m) 1 nowait (some v)).w.fs B).q0 = []
    ∧ ((dmq_receive BUFSIZ (fuel + 1) (fresh_pair B m) 1 nowait (some v)).w.fs B).q1 = []
    ∧ ((fresh_pair B m).fs B).q0 = [] ∧ ((fresh_pair B m).fs B).q1 = [] := by
  rw [dmq_receive_bound BUFSIZ (fuel + 1) (fresh_pair B m) 1 B nowait (some v)
    (by simp [CHECK_SDESC]) (by simp)]
  simp [attach, detach, dmq_receive_body, statics0, receive_refill1, dmq_read, dmq_read_pass,
    readlen, after_wait, qfile, qoff, hn, newheader, nofault, commit, arm, set_iov]

theorem receive_empty_would_block_witness :
    (dmq_receive 8192 2 (fresh_pair "q" MODE_NEWLINES) 1 1 (some 5)).err = some 0 :=
  (receive_empty_would_block 8192 1 "q" MODE_NEWLINES 1 5 (by decide)).2.1

/-! ## What the receive path leaves alone -/

theorem keeps_refl (s : session) : keeps s s := ⟨rfl, rfl, rfl, id⟩

theorem keeps_trans {s0 s1 s2 : session} (h1 : keeps s0 s1) (h2 : keeps s1 s2) : keeps s0 s2 :=
  ⟨h2.1.trans h1.1, h2.2.1.trans h1.2.1, h2.2.2.1.trans h1.2.2.1, fun h => h2.2.2.2 (h1.2.2.2 h)⟩

theorem keeps_after_read (s : session) (b : Nat) : keeps s (after_read s b) := by
  simp [keeps, after_read]

theorem keeps_after_follow (s : session) : keeps s (after_follow s) := by
  simp [keeps, after_follow]

theorem keeps_after_wait (s : session) : keeps s (after_wait s) := by
  unfold after_wait; split <;> simp [keeps]

theorem keeps_set_iov (s : session) (v : Bool) : keeps s (set_iov s v) := ⟨rfl, rfl, rfl, id⟩

theorem keeps_rewind (s : session) : keeps s (rewind s) := ⟨rfl, rfl, rfl, id⟩

theorem keeps_arm (BUFSIZ : Nat) (s : session) : keeps s (arm BUFSIZ s) := ⟨rfl, rfl, rfl, id⟩

theorem keeps_carry_over (BUFSIZ : Nat) (s : session) (b : Nat) :
    keeps s (carry_over BUFSIZ s b) := ⟨rfl, rfl, rfl, id⟩

theorem keeps_set_errmsg (s : session) (m : String) : keeps s (set_errmsg s m) :=
  ⟨rfl, rfl, rfl, fun _ => by simp [set_errmsg]⟩

theorem dmq_read_pass_keeps (s : session) (nowait : Int) (e : Option Int) :
    keeps s (dmq_read_pass s nowait e).s := by
  unfold dmq_read_pass
  repeat' split
  all_goals first
    | exact keeps_refl s
    | exact keeps_after_read s _
    | exact keeps_after_follow s
    | exact keeps_after_wait s
    | exact keeps_set_errmsg s _

theorem dmq_read_keeps (fuel : Nat) :
    ∀ (s : session) (nowait : Int) (e : Option Int), keeps s (dmq_read fuel s nowait e).s := by
  induction fuel with
  | zero => intro s nowait e; exact keeps_refl s
  | succ n ih =>
    intro s nowait e
    have hp := dmq_read_pass_keeps s nowait e
    simp only [dmq_read]
    cases hq : dmq_read_pass s nowait e with
    | done o => rw [hq] at hp; exact hp
    | again s1 => rw [hq] at hp; exact keeps_trans hp (ih s1 nowait e)

theorem receive_deliver_keeps (s : session) (b : Nat) (eor : Int) (e : Option Int) :
    keeps s (receive_deliver s b eor e).s := ⟨rfl, rfl, rfl, id⟩

theorem receive_refill2_keeps (BUFSIZ fuel : Nat) (s : session) (nowait : Int) (e : Option Int) :
    keeps s (receive_refill2 BUFSIZ fuel s nowait e).s := by
  have hr := dmq_read_keeps fuel s nowait e
  unfold receive_refill2
  generalize dmq_read fuel s nowait e = o at hr
  rcases o with ⟨so, ro, eo⟩
  cases ro <;> dsimp only at hr ⊢
  all_goals repeat' split
  all_goals first
    | exact hr
    | exact keeps_trans hr (keeps_trans (keeps_set_iov _ _) (receive_deliver_keeps _ _ _ _))
    | exact keeps_trans hr (keeps_set_iov _ _)
    | exact keeps_trans hr (keeps_trans (keeps_set_iov _ _) (keeps_set_errmsg _ _))

theorem receive_find_keeps (BUFSIZ fuel : Nat) (s : session) (nowait : Int) (e : Option Int) :
    keeps s (receive_find BUFSIZ fuel s nowait e).s := by
  unfold receive_find
  repeat' split
  all_goals first
    | exact keeps_refl s
    | exact receive_deliver_keeps _ _ _ _
    | exact keeps_trans (keeps_carry_over _ _ _) (receive_refill2_keeps _ _ _ _ _)

theorem receive_refill1_keeps (BUFSIZ fuel : Nat) (s : session) (nowait : Int) (e : Option Int) :
    keeps s (receive_refill1 BUFSIZ fuel s nowait e).s := by
  have hr := dmq_read_keeps fuel s nowait e
  unfold receive_refill1
  generalize dmq_read fuel s nowait e = o at hr
  rcases o with ⟨so, ro, eo⟩
  cases ro <;> dsimp only at hr ⊢
  all_goals first
    | exact hr
    | exact keeps_trans hr (keeps_set_iov _ _)
    | exact keeps_trans hr (keeps_trans (keeps_trans (keeps_set_iov _ _) (keeps_rewind _))
        (receive_find_keeps _ _ _ _ _))

theorem receive_body_direction (BUFSIZ fuel : Nat) (s : session) (nowait : Int)
    (e : Option Int) :
    (dmq_receive_body BUFSIZ fuel s nowait e).s.direction
      = if s.direction = 0 then 2 else s.direction := by
  unfold dmq_receive_body
  by_cases h1 : s.direction = 1
  · have h0 : s.direction ≠ 0 := by omega
    rw [if_pos h1, if_neg h0]
    repeat' split
    all_goals rfl
  · rw [if_neg h1, ← commit_direction]
    split
    · rfl
    · split
      · rw [(receive_refill1_keeps _ _ _ _ _).1]; rfl
      · rw [(receive_find_keeps _ _ _ _ _).1]

theorem send_body_direction (s : session) (data : List Byte) (slen : Int) :
    (dmq_send_body s data slen).s.direction = if s.direction = 0 then 1 else s.direction := by
  unfold dmq_send_body
  by_cases h2 : s.direction = 2
  · have h0 : s.direction ≠ 0 := by omega
    rw [if_pos h2, if_neg h0]
    split <;> rfl
  · rw [if_neg h2, ← commit_direction]
    dsimp only
    repeat' split
    all_goals first
      | rfl
      | simp [after_write, set_errmsg]

/-! ## Handles and the direction lock -/

theorem check_sdesc_false (w : World) (h : Int) (hc : CHECK_SDESC w h = false) :
    0 ≤ h ∧ h < 20 ∧ (w.sdarray h.toNat).sharedstate ≠ none := by
  simp only [CHECK_SDESC, Bool.or_eq_false_iff, decide_eq_false_iff_not, not_lt, not_le] at hc
  refine ⟨hc.1.1, hc.1.2, ?_⟩
  intro hn
  simp [hn] at hc

theorem freeslot_spec (w : World) :
    (freeslot w < 20 ∧ (w.sdarray (freeslot w)).sharedstate = none) ∨ freeslot w = 20 := by
  unfold freeslot
  cases hf : (List.range 20).find? (fun i => (w.sdarray i).sharedstate.isNone) with
  | none => right; rfl
  | some i =>
    left
    have h1 := List.find?_some hf
    have h2 := List.mem_of_find?_eq_some hf
    simp only [Option.getD_some]
    exact ⟨List.mem_range.mp h2, by simpa using h1⟩

theorem alloc_errmsg_ne (w : World) : (alloc_errmsg w).dmq_errmsg ≠ none := by
  unfold alloc_errmsg
  split
  · simp
  · rename_i h
    intro hn
    simp [hn] at h

theorem dmq_init_handle (w0 : World) (B : String) (m : Int) (k : Int)
    (hinit : (dmq_init w0 B m).ret = .ret k) (hk : 0 ≤ k) :
    CHECK_SDESC (dmq_init w0 B m).w k = false
    ∧ ((dmq_init w0 B m).w.sdarray k.toNat).sharedstate = some B
    ∧ ((dmq_init w0 B m).w.sdarray k.toNat).direction = 0
    ∧ (dmq_init w0 B m).w.dmq_errmsg ≠ none := by
  unfold dmq_init at hinit ⊢
  dsimp only at hinit ⊢
  split at hinit
  · simp only [sendret.ret.injEq] at hinit
    omega
  · rename_i hlt
    split at hinit
    · simp at hinit
    · rename_i hv
      simp only [sendret.ret.injEq] at hinit
      rw [if_neg hlt, if_neg hv]
      subst hinit
      simp only [bind_slot, Int.toNat_ofNat, Function.update_same, CHECK_SDESC, Option.isNone_some,
        Bool.or_false, Bool.or_eq_false_iff, decide_eq_false_iff_not, not_lt, not_le]
      exact ⟨⟨by omega, by omega⟩, trivial, trivial, alloc_errmsg_ne w0⟩

theorem detach_fs_same (w : World) (sd : Nat) (B : String) (s : session)
    (h1 : s.shared = (w.fs B).shared) (h2 : s.q0 = (w.fs B).q0) (h3 : s.q1 = (w.fs B).q1) :
    (detach w sd B s).fs = w.fs := by
  simp only [detach, h1, h2, h3]
  exact Function.update_eq_self B w.fs

theorem detach_sdarray_same (w : World) (sd : Nat) (B : String) (s : session)
    (hB : (w.sdarray sd).sharedstate = some B)
    (h1 : s.qfd0 = (w.sdarray sd).qfd0) (h2 : s.qfd1 = (w.sdarray sd).qfd1)
    (h3 : s.direction = (w.sdarray sd).direction) :
    (detach w sd B s).sdarray = w.sdarray := by
  simp only [detach, h1, h2, h3, ← hB]
  exact Function.update_eq_self sd w.sdarray

theorem dmq_send_other_slot (w : World) (h h2 : Int) (data : List Byte) (slen : Int)
    (hh : 0 ≤ h) (hne : h2 ≠ h) :
    (dmq_send w h2 data slen).w.sdarray h.toNat = w.sdarray h.toNat := by
  unfold dmq_send
  split
  · split <;> rfl
  · rename_i B hB
    split at hB
    · simp at hB
    · rename_i hc
      have := check_sdesc_false w h2 (by simpa using hc)
      have hn : h.toNat ≠ h2.toNat := by omega
      simp [detach, Function.update_noteq hn]

theorem dmq_receive_other_slot (BUFSIZ fuel : Nat) (w : World) (h h2 : Int) (nowait : Int)
    (e : Option Int) (hh : 0 ≤ h) (hne : h2 ≠ h) :
    (dmq_receive BUFSIZ fuel w h2 nowait e).w.sdarray h.toNat = w.sdarray h.toNat := by
  unfold dmq_receive
  split
  · split <;> rfl
  · rename_i B hB
    split at hB
    · simp at hB
    · rename_i hc
      have := check_sdesc_false w h2 (by simpa using hc)
      have hn : h.toNat ≠ h2.toNat := by omega
      simp [detach, Function.update_noteq hn]

/-- C6: a descriptor returned by `dmq_init` is bound and uncommitted; on an
uncommitted descriptor `dmq_send` commits to send and `dmq_receive` commits to
receive, whatever the call returns; on a send-committed descriptor `dmq_receive`
returns NULL with the flag 1 and on a receive-committed descriptor `dmq_send`
returns -1, both without changing the files, the header or any descriptor; the
committed direction stays, also under calls on other descriptors. -/
theorem direction_lock (BUFSIZ fuel : Nat) (w : World) (h : Int) (B : String)
    (data : List Byte) (slen nowait v : Int) (errorp : Option Int)
    (hchk : CHECK_SDESC w h = false)
    (hB : (w.sdarray h.toNat).sharedstate = some B)
    (herr : w.dmq_errmsg ≠ none) :
    (∀ (w0 : World) (B0 : String) (m k : Int), (dmq_init w0 B0 m).ret = .ret k → 0 ≤ k →
        CHECK_SDESC (dmq_init w0 B0 m).w k = false
        ∧ ((dmq_init w0 B0 m).w.sdarray k.toNat).sharedstate = some B0
        ∧ ((dmq_init w0 B0 m).w.sdarray k.toNat).direction = 0
        ∧ (dmq_init w0 B0 m).w.dmq_errmsg ≠ none)
    ∧ ((w.sdarray h.toNat).direction = 0 →
        ((dmq_send w h data slen).w.sdarray h.toNat).direction = 1
        ∧ ((dmq_receive BUFSIZ fuel w h nowait errorp).w.sdarray h.toNat).direction = 2)
    ∧ ((w.sdarray h.toNat).direction = 1 →
        ((dmq_send w h data slen).w.sdarray h.toNat).direction = 1
        ∧ (dmq_receive BUFSIZ fuel w h nowait (some v)).ret = .null
        ∧ (dmq_receive BUFSIZ fuel w h nowait (some v)).err = some 1
        ∧ (dmq_receive BUFSIZ fuel w h nowait (some v)).w.fs = w.fs
        ∧ (dmq_receive BUFSIZ fuel w h nowait (some v)).w.sdarray = w.sdarray)
    ∧ ((w.sdarray h.toNat).direction = 2 →
        ((dmq_receive BUFSIZ fuel w h nowait errorp).w.sdarray h.toNat).direction = 2
        ∧ (dmq_send w h data slen).ret = .ret (-1)
        ∧ (dmq_send w h data slen).w.fs = w.fs
        ∧ (dmq_send w h data slen).w.sdarray = w.sdarray)
    ∧ (∀ h2 : Int, h2 ≠ h →
        (dmq_send w h2 data slen).w.sdarray h.toNat = w.sdarray h.toNat
        ∧ (dmq_receive BUFSIZ fuel w h2 nowait errorp).w.sdarray h.toNat = w.sdarray h.toNat) := by
  have hh := (check_sdesc_false w h hchk).1
  obtain ⟨msg, hmsg⟩ := Option.ne_none_iff_exists'.mp herr
  have hsd : ∀ (s : session), ((detach w h.toNat B s).sdarray h.toNat).direction = s.direction := by
    intro s; simp [detach]
  refine ⟨fun w0 B0 m k h1 h2 => dmq_init_handle w0 B0 m k h1 h2, fun hd => ⟨?_, ?_⟩,
    fun hd => ⟨?_, ?_, ?_, ?_, ?_⟩, fun hd => ⟨?_, ?_, ?_, ?_⟩,
    fun h2 hne => ⟨dmq_send_other_slot w h h2 data slen hh hne,
      dmq_receive_other_slot BUFSIZ fuel w h h2 nowait errorp hh hne⟩⟩
  · rw [dmq_send_bound w h B data slen hchk hB, hsd, send_body_direction]
    simp [attach, hd]
  · rw [dmq_receive_bound BUFSIZ fuel w h B nowait errorp hchk hB, hsd, receive_body_direction]
    simp [attach, hd]
  · rw [dmq_send_bound w h B data slen hchk hB, hsd, send_body_direction]
    simp [attach, hd]
  · rw [dmq_receive_bound BUFSIZ fuel w h B nowait (some v) hchk hB]
    simp [dmq_receive_body, attach, hd, hmsg]
  · rw [dmq_receive_bound BUFSIZ fuel w h B nowait (some v) hchk hB]
    simp [dmq_receive_body, attach, hd, hmsg]
  · rw [dmq_receive_bound BUFSIZ fuel w h B nowait (some v) hchk hB]
    apply detach_fs_same <;> simp [dmq_receive_body, attach, hd, hmsg, set_errmsg]
  · rw [dmq_receive_bound BUFSIZ fuel w h B nowait (some v) hchk hB]
    apply detach_sdarray_same _ _ _ _ hB <;> simp [dmq_receive_body, attach, hd, hmsg, set_errmsg]
  · rw [dmq_receive_bound BUFSIZ fuel w h B nowait errorp hchk hB, hsd, receive_body_direction]
    simp [attach, hd]
  · rw [dmq_send_bound w h B data slen hchk hB]
    simp [dmq_send_body, attach, hd, hmsg]
  · rw [dmq_send_bound w h B data slen hchk hB]
    apply detach_fs_same <;> simp [dmq_send_body, attach, hd, hmsg, set_errmsg]
  · rw [dmq_send_bound w h B data slen hchk hB]
    apply detach_sdarray_same _ _ _ _ hB <;> simp [dmq_send_body, attach, hd, hmsg, set_errmsg]

theorem direction_lock_witness :
    (dmq_receive 8192 2 (dmq_send (fresh_pair "q" MODE_NEWLINES) 0 [120] 1).w 0 0 (some 0)).ret
        = .null
    ∧ (dmq_receive 8192 2 (dmq_send (fresh_pair "q" MODE_NEWLINES) 0 [120] 1).w 0 0 (some 0)).err
        = some 1 :=
  ⟨((direction_lock 8192 2 (dmq_send (fresh_pair "q" MODE_NEWLINES) 0 [120] 1).w 0 "q" [] 0 0 0
      none (by decide) (by decide) (by decide)).2.2.1 (by decide)).2.1,
   ((direction_lock 8192 2 (dmq_send (fresh_pair "q" MODE_NEWLINES) 0 [120] 1).w 0 "q" [] 0 0 0
      none (by decide) (by decide) (by decide)).2.2.1 (by decide)).2.2.1⟩

/-! ## The consumer invariant: one call that finds data -/

theorem findeor_delim (BUFSIZ : Nat) (buf : Nat → Byte) (mode : Int) (x y : Int) (a b : Nat)
    (hm : mode = MODE_NULLS ∨ mode = MODE_NEWLINES) (hx : x = a) (hy : y = b) (hab : a < b) :
    dmq_findeor BUFSIZ buf mode x y =
      match scan buf (delim mode) a (b - a) with
      | some cp => .found cp
      | none => .notfound := by
  subst hx hy
  have h1 : ¬ ((b : Int) ≤ a) := by omega
  have h2 : ¬ ((a : Int) < 0) := by omega
  have h3 : ((b : Int) - a).toNat = b - a := by omega
  unfold dmq_findeor
  rw [if_pos hm, if_neg h1, if_neg h2, Int.toNat_ofNat, h3]
  rfl

/-- The facts about the read file that `receive_find` starts from. -/
theorem consumer_head (BUFSIZ : Nat) (s : session) (r : List Byte) (rest : List (List Byte))
    (nxt p l : Nat) (hc : Consumer BUFSIZ s (r :: rest) nxt p l) (hpl : p < l) :
    ∃ j, 1 ≤ j ∧ j ≤ rest.length + 1
      ∧ (qfile s s.shared.readtarget).drop nxt
          = r ++ delim s.shared.mode :: frames s.shared.mode (rest.take (j - 1))
      ∧ (if s.shared.readtarget = s.shared.writetarget then []
          else qfile s s.shared.writetarget) = frames s.shared.mode (rest.drop (j - 1))
      ∧ l - p ≤ ((qfile s s.shared.readtarget).drop nxt).length := by
  obtain ⟨j, hj, h1, h2⟩ := hc.feed.data
  have hlen : l - p ≤ ((qfile s s.shared.readtarget).drop nxt).length := by
    have := hc.feed.off
    have := hc.feed.offle
    rw [List.length_drop]
    omega
  have hne : (qfile s s.shared.readtarget).drop nxt ≠ [] := by
    intro h
    rw [h] at hlen
    simp at hlen
    omega
  obtain ⟨hj1, h3⟩ := frames_take_cons _ r rest j _ h1 hne
  refine ⟨j, hj1, by simpa using hj, h3, ?_, hlen⟩
  rw [h2]
  congr 1
  cases j with
  | zero => omega
  | succ j => simp

theorem not_frames_mode (m : Int) (hm : m = MODE_NULLS ∨ m = MODE_NEWLINES) :
    ¬ (m = MODE_FRAMES) := by
  rcases hm with h | h <;> simp [h, MODE_NULLS, MODE_NEWLINES, MODE_FRAMES]

/-- `receive_find` when the end of the next record is in the buffer. -/
theorem receive_find_direct (BUFSIZ fuel : Nat) (s : session) (nowait : Int) (e : Option Int)
    (r : List Byte) (rest : List (List Byte)) (nxt p l : Nat)
    (hc : Consumer BUFSIZ s (r :: rest) nxt p l) (hpl : p < l)
    (hd : delim s.shared.mode ∉ r) (hrn : r.length < l - p) :
    ∃ s' res,
      receive_find BUFSIZ fuel s nowait e = ⟨s', .record res, e⟩
      ∧ record_bytes s'.st res = r
      ∧ Consumer BUFSIZ s' rest (nxt + r.length + 1) (p + r.length + 1) l
      ∧ s'.shared.position = (nxt + r.length + 1) % 2 ^ 64
      ∧ s'.shared.readtarget = s.shared.readtarget
      ∧ s'.shared.writetarget = s.shared.writetarget
      ∧ s'.q0 = s.q0 ∧ s'.q1 = s.q1 ∧ s'.direction = s.direction := by
  obtain ⟨j, hj1, hj2, hD, hO, hlen⟩ := consumer_head BUFSIZ s r rest nxt p l hc hpl
  have hbuf := hc.buf hpl
  have hpos := hc.pos
  have hl := hc.len
  have hoff := hc.feed.off
  have hro := hc.feed.ro
  have hoffle := hc.feed.offle
  have hmode := hc.feed.mode
  -- the unread bytes start with the record and its delimiter
  have hsl : slice s.st.buffer (BUFSIZ + p) (l - p)
      = r ++ delim s.shared.mode
          :: (frames s.shared.mode (rest.take (j - 1))).take (l - p - r.length - 1) := by
    rw [hc.content, hD, List.take_append_eq_append_take, List.take_of_length_le (by omega)]
    congr 1
    rw [take_cons_pos _ _ _ (by omega)]
  have hscan := scan_found s.st.buffer (delim s.shared.mode) r _ hd (BUFSIZ + p) (l - p) hsl
  have hfind : dmq_findeor BUFSIZ s.st.buffer s.shared.mode ((BUFSIZ : Int) + s.st.pos)
      ((BUFSIZ : Int) + s.st.readiov.len) = .found ((BUFSIZ + p + r.length : Nat) : Int) := by
    rw [findeor_delim BUFSIZ s.st.buffer s.shared.mode _ _ (BUFSIZ + p) (BUFSIZ + l) hmode
      (by rw [hpos]; push_cast; ring) (by rw [hl]; push_cast; ring) (by omega)]
    have h2 : BUFSIZ + l - (BUFSIZ + p) = l - p := by omega
    rw [h2, hscan]
  have hnl : ¬ (s.st.readiov.len ≤ s.st.pos) := by rw [hpos, hl]; omega
  have hp1 : ((BUFSIZ + p + r.length : Nat) : Int) - (BUFSIZ : Int) + 1
      = ((p + r.length + 1 : Nat) : Int) := by push_cast; ring
  unfold receive_find
  rw [if_neg hnl]
  simp only [hbuf, hfind]
  refine ⟨_, _, rfl, ?_, ?_, ?_, rfl, rfl, rfl, rfl, rfl⟩
  · -- the bytes handed out
    simp only [receive_deliver, record_bytes, if_neg (not_frames_mode _ hmode), hpos]
    have h3 : ((BUFSIZ : Int) + (p : Int) + 0).toNat = BUFSIZ + p := by omega
    have h4 : (((BUFSIZ + p + r.length : Nat) : Int) - ((BUFSIZ : Int) + (p : Int) + 0)).toNat
        = r.length := by omega
    rw [h3, h4, ← take_slice s.st.buffer (BUFSIZ + p) (l - p) r.length (by omega), hsl]
    simp
  · -- the invariant
    have hdd : List.drop (nxt + r.length + 1) (qfile s s.shared.readtarget)
        = frames s.shared.mode (rest.take (j - 1)) := by
      have h5 : nxt + r.length + 1 = nxt + (r.length + 1) := by omega
      rw [h5, ← List.drop_drop, hD]
      simp
    refine ⟨⟨hmode, hc.feed.rt, hc.feed.wt, hc.feed.env, hc.feed.iov, ?_, hoffle, hro,
      ⟨j - 1, by omega, hdd, hO⟩, hc.feed.other⟩, ?_, hl, by omega, hc.lle, fun _ => hbuf, ?_, ?_⟩
    · show nxt + r.length + 1 + (l - (p + r.length + 1)) = qoff s s.shared.readtarget
      omega
    · show (receive_deliver s BUFSIZ _ e).s.st.pos = _
      simp only [receive_deliver, hp1]
    · show slice s.st.buffer (BUFSIZ + (p + r.length + 1)) (l - (p + r.length + 1))
        = (List.drop (nxt + r.length + 1) (qfile s s.shared.readtarget)).take
            (l - (p + r.length + 1))
      have h6 := drop_slice s.st.buffer (BUFSIZ + p) (l - p) (r.length + 1) (by omega)
      rw [hsl] at h6
      have h7 : BUFSIZ + p + (r.length + 1) = BUFSIZ + (p + r.length + 1) := by omega
      have h8 : l - p - (r.length + 1) = l - (p + r.length + 1) := by omega
      rw [h7, h8] at h6
      rw [← h6, hdd]
      simp
      congr 1
    · rcases hc.whole with hw | ⟨k, hk, hw⟩
      · exact Or.inl hw
      · right
        rw [← hc.content, hsl] at hw
        obtain ⟨hk1, hw2⟩ := frames_take_cons _ r rest k _ hw (by simp)
        refine ⟨k - 1, by simp at hk; omega, ?_⟩
        show (List.drop (nxt + r.length + 1) (qfile s s.shared.readtarget)).take
            (l - (p + r.length + 1)) = _
        rw [hdd]
        have h9 := List.append_cancel_left hw2
        simp only [List.cons.injEq, true_and] at h9
        rw [← h9]
        congr 1
        omega
  · -- the position written to the header
    simp only [receive_deliver, hp1, hl, hro]
    have h10 : ((qoff s s.shared.readtarget : Nat) : Int) - (l : Int) + ((p + r.length + 1 : Nat) : Int)
        = ((nxt + r.length + 1 : Nat) : Int) := by
      push_cast
      omega
    rw [h10]
    omega

/-- `receive_refill2` when the second `dmq_read` brings the end of the record. -/
theorem receive_refill2_found (BUFSIZ fuel : Nat) (s s2 : session) (nowait : Int)
    (e : Option Int) (b : Nat) (eor : Int)
    (hread : dmq_read fuel s nowait e = ⟨s2, .iovp, e⟩)
    (hbuf : s2.st.readiov.buf = some b)
    (hfind : dmq_findeor BUFSIZ s2.st.buffer s2.shared.mode (b + s2.st.pos)
      (b + s2.st.readiov.len) = .found eor) :
    receive_refill2 BUFSIZ fuel s nowait e
      = receive_deliver (set_iov s2 true) b eor e := by
  unfold receive_refill2
  simp only [hread, hbuf, hfind]

/-- The invariant after the carried-over record has been handed out. `n` bytes
were carried, `rr` bytes were read, `q` is the new `pos`. -/
theorem carry_core (BUFSIZ : Nat) (s S : session) (r : List Byte) (rest : List (List Byte))
    (nxt p j rr n q : Nat)
    (hmode : s.shared.mode = MODE_NULLS ∨ s.shared.mode = MODE_NEWLINES)
    (hrt : s.shared.readtarget = 0 ∨ s.shared.readtarget = 1)
    (hwt : s.shared.writetarget = 0 ∨ s.shared.writetarget = 1)
    (henv : s.env.readfail = false)
    (hn : p + n = BUFSIZ)
    (hq : q + BUFSIZ = p + r.length + 1)
    (hrB : r.length < BUFSIZ)
    (hoff : nxt + n = qoff s s.shared.readtarget)
    (hro : s.shared.readoffset = qoff s s.shared.readtarget)
    (hj : j ≤ rest.length)
    (hD : (qfile s s.shared.readtarget).drop nxt
      = r ++ delim s.shared.mode :: frames s.shared.mode (rest.take j))
    (hO : (if s.shared.readtarget = s.shared.writetarget then []
      else qfile s s.shared.writetarget) = frames s.shared.mode (rest.drop j))
    (hother : s.shared.readtarget = s.shared.writetarget →
      qfile s (1 - s.shared.readtarget) = [])
    (hrr : (rr = BUFSIZ ∧ qoff s s.shared.readtarget + rr ≤ (qfile s s.shared.readtarget).length)
      ∨ (rr ≤ BUFSIZ ∧ qoff s s.shared.readtarget + rr = (qfile s s.shared.readtarget).length))
    (hrun : slice S.st.buffer p (n + rr)
      = ((qfile s s.shared.readtarget).drop nxt).take (n + rr))
    (t1 : S.shared.mode = s.shared.mode)
    (t2 : S.shared.readtarget = s.shared.readtarget)
    (t3 : S.shared.writetarget = s.shared.writetarget)
    (t4 : S.shared.readoffset = s.shared.readoffset + rr)
    (t5 : S.env = s.env)
    (t6 : S.st.iov = true)
    (t7 : S.st.pos = (q : Int))
    (t8 : S.st.readiov = { len := rr, buf := some BUFSIZ })
    (tq0 : S.q0 = s.q0) (tq1 : S.q1 = s.q1)
    (tqo : qoff S s.shared.readtarget = qoff s s.shared.readtarget + rr) :
    slice S.st.buffer p r.length = r
    ∧ Consumer BUFSIZ S rest (nxt + r.length + 1) q rr := by
  have hDlen := congrArg List.length hD
  simp only [List.length_drop, List.length_append, List.length_cons] at hDlen
  have hF : (qfile s s.shared.readtarget).length
      = nxt + r.length + 1 + (frames s.shared.mode (rest.take j)).length := by omega
  clear hDlen
  have t10 : ∀ t, qfile S t = qfile s t := fun t => qfile_congr _ _ t tq0 tq1
  have hlt : r.length < n + rr := by omega
  have hrun2 : slice S.st.buffer p (n + rr)
      = r ++ delim s.shared.mode
          :: (frames s.shared.mode (rest.take j)).take (n + rr - r.length - 1) := by
    rw [hrun, hD, List.take_append_eq_append_take, List.take_of_length_le (by omega)]
    congr 1
    rw [take_cons_pos _ _ _ (by omega)]
  have hdd : List.drop (nxt + r.length + 1) (qfile s s.shared.readtarget)
      = frames s.shared.mode (rest.take j) := by
    have h5 : nxt + r.length + 1 = nxt + (r.length + 1) := by omega
    rw [h5, ← List.drop_drop, hD]
    simp
  have hple : q ≤ rr := by omega
  have hlle : rr ≤ BUFSIZ := by omega
  refine ⟨record_at _ _ _ _ _ _ hrun2, ?_⟩
  refine ⟨⟨?_, ?_, ?_, ?_, t6, ?_, ?_, ?_, ⟨j, hj, ?_, ?_⟩, ?_⟩,
    t7, ?_, hple, hlle, fun _ => ?_, ?_, ?_⟩
  · rw [t1]; exact hmode
  · rw [t2]; exact hrt
  · rw [t3]; exact hwt
  · rw [t5]; exact henv
  · rw [t2, tqo]; omega
  · rw [t2, tqo, t10]; omega
  · rw [t2, tqo, t4, hro]
  · rw [t2, t10, t1]; exact hdd
  · rw [t2, t3, t10, t1]; exact hO
  · rw [t2, t3, t10]; exact hother
  · rw [t8]
  · rw [t8]
  · rw [t2, t10]
    have h6 := drop_slice S.st.buffer p (n + rr) (r.length + 1) (by omega)
    rw [hrun2] at h6
    have h7 : p + (r.length + 1) = BUFSIZ + q := by omega
    have h8 : n + rr - (r.length + 1) = rr - q := by omega
    rw [h7, h8] at h6
    rw [← h6, hdd]
    have h9 : n + rr - r.length - 1 = rr - q := by omega
    simp [h9]
  · rcases hrr with ⟨hB, -⟩ | ⟨-, hE⟩
    · exact Or.inl hB
    · right
      refine ⟨j, hj, ?_⟩
      rw [t2, t10, t1, hdd]
      apply List.take_of_length_le
      omega

/-- `receive_find` when the end of the record is not in the buffer. -/
theorem receive_find_notfound (BUFSIZ fuel : Nat) (s : session) (nowait : Int) (e : Option Int)
    (b : Nat) (hlen : s.st.pos < s.st.readiov.len) (hbuf : s.st.readiov.buf = some b)
    (hfind : dmq_findeor BUFSIZ s.st.buffer s.shared.mode (b + s.st.pos) (b + s.st.readiov.len)
      = .notfound)
    (hdst : 0 ≤ (b : Int) + s.st.pos - BUFSIZ) :
    receive_find BUFSIZ fuel s nowait e
      = receive_refill2 BUFSIZ fuel (carry_over BUFSIZ s b) nowait e := by
  unfold receive_find
  rw [if_neg (not_le.mpr hlen)]
  simp only [hbuf, hfind]
  rw [if_neg (not_lt.mpr hdst)]

/-- The session after the second `dmq_read` has found the end of the record. -/
theorem deliver_after_read_fields (s : session) (b : Nat) (eor : Int) (e : Option Int)
    (S : session)
    (hS : S = (receive_deliver (set_iov (after_read s b) true)
      b eor e).s) :
    S.shared.mode = s.shared.mode
    ∧ S.shared.readtarget = s.shared.readtarget
    ∧ S.shared.writetarget = s.shared.writetarget
    ∧ S.shared.readoffset = s.shared.readoffset + readlen s
    ∧ S.env = s.env
    ∧ S.st.iov = true
    ∧ S.st.pos = eor - b + 1
    ∧ S.st.readiov = { len := (readlen s : Nat), buf := s.st.readiov.buf }
    ∧ S.q0 = s.q0 ∧ S.q1 = s.q1
    ∧ qoff S s.shared.readtarget = qoff s s.shared.readtarget + readlen s
    ∧ S.shared.position = ((((s.shared.readoffset + readlen s : Nat) : Int)
        - ((readlen s : Nat) : Int) + (eor - b + 1)) % 2 ^ 64).toNat
    ∧ S.direction = s.direction
    ∧ S.st.buffer = blit s.st.buffer b
        (((qfile s s.shared.readtarget).drop (qoff s s.shared.readtarget)).take (readlen s)) := by
  obtain ⟨f1, f2, f3, f4, f5, f6, f7, f8, f9, f10, f11, f12, f13, f14⟩ := after_read_fields s b
  subst hS
  refine ⟨rfl, rfl, rfl, rfl, f11, rfl, rfl, rfl, f5, f6, ?_, rfl, f12, rfl⟩
  rw [← f13]
  exact qoff_congr _ _ _ rfl rfl

/-- The second search finds the end of the carried-over record. -/
theorem carry_find (BUFSIZ : Nat) (buf : Nat → Byte) (mode : Int) (D r X : List Byte)
    (p n rr : Nat) (x y : Int)
    (hm : mode = MODE_NULLS ∨ mode = MODE_NEWLINES)
    (hn : p + n = BUFSIZ) (hrr : 0 < rr)
    (hx : x = (BUFSIZ : Nat) + ((p : Int) - (BUFSIZ : Nat))) (hy : y = (BUFSIZ : Nat) + (rr : Nat))
    (hrun : slice buf p (n + rr) = D.take (n + rr))
    (hD : D = r ++ delim mode :: X) (hd : delim mode ∉ r) (hlt : r.length < n + rr) :
    dmq_findeor BUFSIZ buf mode x y = .found ((p + r.length : Nat) : Int) := by
  have hrun2 : slice buf p (n + rr) = r ++ delim mode :: X.take (n + rr - r.length - 1) := by
    rw [hrun, hD, List.take_append_eq_append_take, List.take_of_length_le (by omega)]
    congr 1
    rw [take_cons_pos _ _ _ (by omega)]
  have hscan := scan_found buf (delim mode) r _ hd p (n + rr) hrun2
  rw [findeor_delim BUFSIZ buf mode x y p (BUFSIZ + rr) hm (by rw [hx]; ring)
    (by rw [hy]; push_cast; ring) (by omega)]
  have h2 : BUFSIZ + rr - p = n + rr := by omega
  rw [h2, hscan]

/-- A consumer whose unread bytes do not reach the end of the next record has a
full buffer, and the unread bytes are the start of that record. -/
theorem consumer_partial (BUFSIZ : Nat) (s : session) (r : List Byte) (rest : List (List Byte))
    (nxt p l n : Nat) (hc : Consumer BUFSIZ s (r :: rest) nxt p l) (hn : p + n = l) (hpos : 0 < n)
    (hd : delim s.shared.mode ∉ r) (hrn : n ≤ r.length) :
    l = BUFSIZ
    ∧ slice s.st.buffer (BUFSIZ + p) n = ((qfile s s.shared.readtarget).drop nxt).take n
    ∧ dmq_findeor BUFSIZ s.st.buffer s.shared.mode ((BUFSIZ : Nat) + s.st.pos)
        ((BUFSIZ : Nat) + s.st.readiov.len) = .notfound
    ∧ ∃ j, j ≤ rest.length
      ∧ (qfile s s.shared.readtarget).drop nxt
          = r ++ delim s.shared.mode :: frames s.shared.mode (rest.take j)
      ∧ (if s.shared.readtarget = s.shared.writetarget then []
          else qfile s s.shared.writetarget) = frames s.shared.mode (rest.drop j) := by
  have hnl : l - p = n := by omega
  obtain ⟨j, hj1, hj2, hD, hO, hlen⟩ := consumer_head BUFSIZ s r rest nxt p l hc (by omega)
  have hcontent := hc.content
  have hwhole := hc.whole
  rw [hnl] at hcontent hwhole
  have hsl : slice s.st.buffer (BUFSIZ + p) n = r.take n := by
    rw [hcontent, hD, List.take_append_of_le_length hrn]
  have hnd : delim s.shared.mode ∉ slice s.st.buffer (BUFSIZ + p) n := by
    rw [hsl]
    exact fun h => hd (List.mem_of_mem_take h)
  have hscan := scan_none s.st.buffer (delim s.shared.mode) n (BUFSIZ + p) hnd
  refine ⟨?_, hcontent, ?_, j - 1, by omega, hD, hO⟩
  · rcases hwhole with hw | ⟨k, hk, hw⟩
    · exact hw
    · exfalso
      have hne : ((qfile s s.shared.readtarget).drop nxt).take n ≠ [] := by
        rw [← hcontent]
        intro h
        have := congrArg List.length h
        rw [slice_length] at this
        simp at this
        omega
      obtain ⟨-, hw2⟩ := frames_take_cons _ r rest k _ hw hne
      have h1 := congrArg List.length hw2
      rw [← hcontent, slice_length] at h1
      simp at h1
      omega
  · rw [findeor_delim BUFSIZ s.st.buffer s.shared.mode _ _ (BUFSIZ + p) (BUFSIZ + l)
      hc.feed.mode (by rw [hc.pos]; push_cast; ring) (by rw [hc.len]; push_cast; ring)
      (by omega)]
    have h2 : BUFSIZ + l - (BUFSIZ + p) = n := by omega
    rw [h2, hscan]

/-- `receive_find` when the buffer ends inside the next record: the partial
record is carried over and completed by a second `dmq_read`. -/
theorem receive_find_carry (BUFSIZ fuel : Nat) (s : session) (nowait : Int) (e : Option Int)
    (r : List Byte) (rest : List (List Byte)) (nxt p l n : Nat)
    (hc : Consumer BUFSIZ s (r :: rest) nxt p l) (hn : p + n = l) (hpos : 0 < n)
    (hd : delim s.shared.mode ∉ r) (hrn : n ≤ r.length) (hrB : r.length < BUFSIZ) :
    ∃ s' res q l',
      receive_find BUFSIZ (fuel + 1) s nowait e = ⟨s', .record res, e⟩
      ∧ record_bytes s'.st res = r
      ∧ Consumer BUFSIZ s' rest (nxt + r.length + 1) q l'
      ∧ s'.shared.position = (nxt + r.length + 1) % 2 ^ 64
      ∧ s'.shared.readtarget = s.shared.readtarget
      ∧ s'.shared.writetarget = s.shared.writetarget
      ∧ s'.q0 = s.q0 ∧ s'.q1 = s.q1 ∧ s'.direction = s.direction := by
  obtain ⟨hlB, hcontent, hnf, j, hj, hD, hO⟩ :=
    consumer_partial BUFSIZ s r rest nxt p l n hc hn hpos hd hrn
  have hmode := hc.feed.mode
  have hoff := hc.feed.off
  have hoffle := hc.feed.offle
  have hnl : l - p = n := by omega
  rw [hnl] at hoff
  have hbuf := hc.buf (by omega)
  have hpB : p + n = BUFSIZ := by omega
  -- the carry-over
  have hstep := receive_find_notfound BUFSIZ (fuel + 1) s nowait e BUFSIZ
    (by rw [hc.pos, hc.len]; omega) hbuf hnf (by rw [hc.pos]; omega)
  obtain ⟨c1, c2, c3, c4⟩ := carry_over_fields BUFSIZ s p n hc.pos (by rw [hc.len, hn])
  -- the second read
  have hlen1 : (carry_over BUFSIZ s BUFSIZ).st.readiov.len = (BUFSIZ : Nat) := by rw [c3]
  have hbuf1 : (carry_over BUFSIZ s BUFSIZ).st.readiov.buf = some BUFSIZ := by rw [c3]
  have hF := congrArg List.length hD
  simp only [List.length_drop, List.length_append, List.length_cons] at hF
  have hcases := readlen_cases BUFSIZ (carry_over BUFSIZ s BUFSIZ) hlen1 hoffle
  obtain ⟨rr, hrr⟩ : ∃ rr, rr = readlen (carry_over BUFSIZ s BUFSIZ) := ⟨_, rfl⟩
  rw [← hrr] at hcases
  have hcases' : (rr = BUFSIZ ∧ qoff s s.shared.readtarget + rr
        ≤ (qfile s s.shared.readtarget).length)
      ∨ (rr ≤ BUFSIZ ∧ qoff s s.shared.readtarget + rr
        = (qfile s s.shared.readtarget).length) := hcases
  have hrrpos : 0 < rr := by omega
  have hlt : r.length < n + rr := by omega
  have hrrD : rr + (BUFSIZ - p) ≤ ((qfile s s.shared.readtarget).drop nxt).length := by
    rw [List.length_drop]
    omega
  have hread := dmq_read_data fuel (carry_over BUFSIZ s BUFSIZ) nowait e BUFSIZ hc.feed.rt hbuf1
    hc.feed.env (by rw [← hrr]; exact hrrpos)
  -- the buffer after the second read
  have hnB : BUFSIZ - p = n := by omega
  have hres : slice (blit s.st.buffer p (slice s.st.buffer (BUFSIZ + p) n)) p (BUFSIZ - p)
      = ((qfile s s.shared.readtarget).drop nxt).take (BUFSIZ - p) := by
    rw [hnB, ← hcontent]
    have := slice_blit_self s.st.buffer p (slice s.st.buffer (BUFSIZ + p) n)
    rwa [slice_length] at this
  have hrun := carry_run BUFSIZ _ ((qfile s s.shared.readtarget).drop nxt) p rr (by omega)
    hres hrrD
  rw [List.drop_drop, hnB, hoff] at hrun
  obtain ⟨S, hS⟩ : ∃ S, S = (receive_deliver
      (set_iov (after_read (carry_over BUFSIZ s BUFSIZ) BUFSIZ) true)
      BUFSIZ ((p + r.length : Nat) : Int) e).s := ⟨_, rfl⟩
  obtain ⟨t1, t2, t3, t4, t5, t6, t7, t8, tq0, tq1, tqo, tpn, tdir, tbuf⟩ :=
    deliver_after_read_fields (carry_over BUFSIZ s BUFSIZ) BUFSIZ ((p + r.length : Nat) : Int) e
      S hS
  rw [← hrr] at t4 t8 tqo tpn tbuf
  have tbuf2 : S.st.buffer = blit (blit s.st.buffer p (slice s.st.buffer (BUFSIZ + p) n)) BUFSIZ
      (((qfile s s.shared.readtarget).drop (qoff s s.shared.readtarget)).take rr) := by
    rw [tbuf, c1]; rfl
  have hrunS : slice S.st.buffer p (n + rr)
      = ((qfile s s.shared.readtarget).drop nxt).take (n + rr) := by
    rw [tbuf2]; exact hrun
  -- the second search
  obtain ⟨q, hq⟩ : ∃ q, q + BUFSIZ = p + r.length + 1 := ⟨p + r.length + 1 - BUFSIZ, by omega⟩
  have hb2 : (after_read (carry_over BUFSIZ s BUFSIZ) BUFSIZ).st.buffer = S.st.buffer := by
    rw [hS]; rfl
  have hfind2 := carry_find BUFSIZ S.st.buffer s.shared.mode _ r _ p n rr
    ((BUFSIZ : Nat) + (after_read (carry_over BUFSIZ s BUFSIZ) BUFSIZ).st.pos)
    ((BUFSIZ : Nat) + (after_read (carry_over BUFSIZ s BUFSIZ) BUFSIZ).st.readiov.len)
    hmode hpB hrrpos
    (by rw [show (after_read (carry_over BUFSIZ s BUFSIZ) BUFSIZ).st.pos
          = (carry_over BUFSIZ s BUFSIZ).st.pos from rfl, c2])
    (by rw [show (after_read (carry_over BUFSIZ s BUFSIZ) BUFSIZ).st.readiov.len
          = ((readlen (carry_over BUFSIZ s BUFSIZ) : Nat) : Int) from rfl, ← hrr])
    hrunS hD hd hlt
  rw [← hb2] at hfind2
  have hfound := receive_refill2_found BUFSIZ (fuel + 1) (carry_over BUFSIZ s BUFSIZ)
    (after_read (carry_over BUFSIZ s BUFSIZ) BUFSIZ) nowait e BUFSIZ _ hread hbuf1 hfind2
  obtain ⟨d1, d2, -⟩ := receive_deliver_fields
    (set_iov (after_read (carry_over BUFSIZ s BUFSIZ) BUFSIZ) true)
    BUFSIZ ((p + r.length : Nat) : Int) e
  have hnfm : ¬ (s.shared.mode = MODE_FRAMES) := not_frames_mode _ hmode
  have hbeg : ((BUFSIZ : Nat) : Int) + (carry_over BUFSIZ s BUFSIZ).st.pos + 0 = (p : Int) := by
    rw [c2]; ring
  have d1' : (receive_deliver
      (set_iov (after_read (carry_over BUFSIZ s BUFSIZ) BUFSIZ) true)
      BUFSIZ ((p + r.length : Nat) : Int) e).ret
      = .record ⟨(p : Int), ((p + r.length : Nat) : Int)⟩ := by
    rw [d1]
    show recvret.record ⟨((BUFSIZ : Nat) : Int) + (carry_over BUFSIZ s BUFSIZ).st.pos
      + (if s.shared.mode = MODE_FRAMES then 2 else 0), _⟩ = _
    rw [if_neg hnfm, hbeg]
  have hres : receive_find BUFSIZ (fuel + 1) s nowait e
      = ⟨S, .record ⟨(p : Int), ((p + r.length : Nat) : Int)⟩, e⟩ := by
    have heta : ∀ T : recvout, T = ⟨T.s, T.ret, T.err⟩ := fun T => rfl
    rw [hstep, hfound, heta (receive_deliver _ _ _ _), d1', d2, ← hS]
  have hpq : ((p + r.length : Nat) : Int) - (BUFSIZ : Nat) + 1 = ((q : Nat) : Int) := by omega
  rw [hpq] at t7 tpn
  obtain ⟨hbytes, hcons⟩ := carry_core BUFSIZ s S r rest nxt p j rr n q hmode hc.feed.rt
    hc.feed.wt hc.feed.env hpB hq hrB hoff hc.feed.ro hj hD hO hc.feed.other hcases' hrunS
    t1 t2 t3 t4 t5 t6 t7 (by rw [t8, hbuf1]) tq0 tq1 tqo
  refine ⟨S, _, q, rr, hres, ?_, hcons, ?_, t2, t3, tq0, tq1, tdir⟩
  · simp only [record_bytes]
    have h3 : ((p : Nat) : Int).toNat = p := by omega
    have h4 : (((p + r.length : Nat) : Int) - (p : Int)).toNat = r.length := by omega
    rw [h3, h4]
    exact hbytes
  · rw [tpn]
    apply wrap_pos
    have := hc.feed.ro
    have h5 : (carry_over BUFSIZ s BUFSIZ).shared.readoffset = s.shared.readoffset := rfl
    rw [h5]
    omega

/-! ## The consumer invariant: refills, follows and waits -/

/-- The feed seen from a session that differs only in what the feed does not read. -/
theorem feed_of_fields (s S : session) (pend : List (List Byte)) (nxt n N : Nat)
    (hf : Feed s pend nxt n)
    (t1 : S.shared.mode = s.shared.mode)
    (t2 : S.shared.readtarget = s.shared.readtarget)
    (t3 : S.shared.writetarget = s.shared.writetarget)
    (t5 : S.env = s.env) (t6 : S.st.iov = true)
    (tq0 : S.q0 = s.q0) (tq1 : S.q1 = s.q1)
    (toff : nxt + N = qoff S s.shared.readtarget)
    (tle : qoff S s.shared.readtarget ≤ (qfile s s.shared.readtarget).length)
    (tro : S.shared.readoffset = qoff S s.shared.readtarget) :
    Feed S pend nxt N := by
  have t10 : ∀ t, qfile S t = qfile s t := fun t => qfile_congr _ _ t tq0 tq1
  obtain ⟨j, hj, hD, hO⟩ := hf.data
  refine ⟨?_, ?_, ?_, ?_, t6, ?_, ?_, ?_, ⟨j, hj, ?_, ?_⟩, ?_⟩
  · rw [t1]; exact hf.mode
  · rw [t2]; exact hf.rt
  · rw [t3]; exact hf.wt
  · rw [t5]; exact hf.env
  · rw [t2]; exact toff
  · rw [t2, t10]; exact tle
  · rw [t2]; exact tro
  · rw [t2, t10, t1]; exact hD
  · rw [t2, t3, t10, t1]; exact hO
  · rw [t2, t3, t10]; exact hf.other

/-- The consumer after a first `dmq_read` that brought data. -/
theorem consumer_after_read (BUFSIZ : Nat) (s : session) (pend : List (List Byte)) (nxt : Nat)
    (ha : Asleep BUFSIZ s pend nxt) :
    Consumer BUFSIZ (rewind (set_iov (after_read s BUFSIZ) true)) pend nxt 0 (readlen s) := by
  obtain ⟨f1, f2, f3, f4, f5, f6, f7, f8, f9, f10, f11, f12, f13, f14⟩ :=
    after_read_fields s BUFSIZ
  have hlen : s.st.readiov.len = (BUFSIZ : Nat) := by rw [ha.readiov]
  have hbuf : s.st.readiov.buf = some BUFSIZ := by rw [ha.readiov]
  have hoff := ha.feed.off
  have hro := ha.feed.ro
  have hcases := readlen_cases BUFSIZ s hlen ha.feed.offle
  have hq : qoff (rewind (set_iov (after_read s BUFSIZ) true)) s.shared.readtarget
      = qoff s s.shared.readtarget + readlen s := by
    rw [← f13]; exact qoff_congr _ _ _ rfl rfl
  have hrt : (rewind (set_iov (after_read s BUFSIZ) true)).shared.readtarget
      = s.shared.readtarget := f1
  have hqf : ∀ t, qfile (rewind (set_iov (after_read s BUFSIZ) true)) t = qfile s t :=
    fun t => qfile_congr _ _ t f5 f6
  have hmd : (rewind (set_iov (after_read s BUFSIZ) true)).shared.mode = s.shared.mode := f3
  have htl : (List.take (readlen s) (List.drop (qoff s s.shared.readtarget)
      (qfile s s.shared.readtarget))).length = readlen s := by
    rw [List.length_take, List.length_drop]
    omega
  have hnq : nxt = qoff s s.shared.readtarget := by omega
  refine ⟨feed_of_fields s _ pend nxt 0 (readlen s - 0) ha.feed f3 f1 f2 f11 rfl f5 f6 ?_ ?_ ?_,
    rfl, ?_, Nat.zero_le _, ?_, fun _ => ?_, ?_, ?_⟩
  · rw [hq]; omega
  · rw [hq]; omega
  · rw [hq]; show s.shared.readoffset + readlen s = _; rw [hro]
  · show ((readlen s : Nat) : Int) = _; rfl
  · omega
  · show s.st.readiov.buf = some BUFSIZ; exact hbuf
  · rw [hrt, hqf, Nat.sub_zero, Nat.add_zero, hnq]
    show slice (blit s.st.buffer BUFSIZ _) BUFSIZ (readlen s) = _
    have := slice_blit_self s.st.buffer BUFSIZ (List.take (readlen s)
      (List.drop (qoff s s.shared.readtarget) (qfile s s.shared.readtarget)))
    rwa [htl] at this
  · rcases hcases with ⟨hB, -⟩ | ⟨-, hE⟩
    · exact Or.inl hB
    · right
      obtain ⟨j, hj, hD, -⟩ := ha.feed.data
      refine ⟨j, hj, ?_⟩
      rw [hrt, hqf, hmd, ← hD, Nat.sub_zero]
      apply List.take_of_length_le
      rw [List.length_drop]
      omega

/-- `receive_find` on a consumer with unread bytes and a pending record. -/
theorem receive_find_record (BUFSIZ fuel : Nat) (s : session) (nowait : Int) (e : Option Int)
    (r : List Byte) (rest : List (List Byte)) (nxt p l : Nat)
    (hc : Consumer BUFSIZ s (r :: rest) nxt p l) (hpl : p < l)
    (hd : delim s.shared.mode ∉ r) (hrB : r.length < BUFSIZ) :
    ∃ s' res q l',
      receive_find BUFSIZ (fuel + 1) s nowait e = ⟨s', .record res, e⟩
      ∧ record_bytes s'.st res = r
      ∧ Consumer BUFSIZ s' rest (nxt + r.length + 1) q l'
      ∧ s'.shared.position = (nxt + r.length + 1) % 2 ^ 64
      ∧ s'.shared.readtarget = s.shared.readtarget
      ∧ s'.shared.writetarget = s.shared.writetarget
      ∧ s'.q0 = s.q0 ∧ s'.q1 = s.q1 ∧ s'.direction = s.direction := by
  by_cases h : r.length < l - p
  · obtain ⟨s', res, h1⟩ :=
      receive_find_direct BUFSIZ (fuel + 1) s nowait e r rest nxt p l hc hpl hd h
    exact ⟨s', res, _, _, h1⟩
  · exact receive_find_carry BUFSIZ fuel s nowait e r rest nxt p l (l - p) hc (by omega)
      (by omega) hd (by omega) hrB

/-- `receive_refill1` when its `dmq_read` returns data read in the session `s0`. -/
theorem refill1_data (BUFSIZ fuel : Nat) (s0 s : session) (nowait : Int) (e : Option Int)
    (r : List Byte) (rest : List (List Byte)) (nxt : Nat)
    (ha : Asleep BUFSIZ s0 (r :: rest) nxt)
    (hread : dmq_read (fuel + 1) s nowait e = ⟨after_read s0 BUFSIZ, .iovp, e⟩)
    (hpos : 0 < readlen s0) (hd : delim s0.shared.mode ∉ r) (hrB : r.length < BUFSIZ) :
    ∃ s' res q l',
      receive_refill1 BUFSIZ (fuel + 1) s nowait e = ⟨s', .record res, e⟩
      ∧ record_bytes s'.st res = r
      ∧ Consumer BUFSIZ s' rest (nxt + r.length + 1) q l'
      ∧ s'.shared.position = (nxt + r.length + 1) % 2 ^ 64
      ∧ s'.shared.readtarget = s0.shared.readtarget
      ∧ s'.shared.writetarget = s0.shared.writetarget
      ∧ s'.q0 = s0.q0 ∧ s'.q1 = s0.q1 := by
  obtain ⟨f1, f2, f3, -, f5, f6, -⟩ := after_read_fields s0 BUFSIZ
  have hc := consumer_after_read BUFSIZ s0 (r :: rest) nxt ha
  obtain ⟨s', res, q, l', h1, h2, h3, h4, h5, h6, h7, h8, -⟩ :=
    receive_find_record BUFSIZ fuel _ nowait e r rest nxt 0 (readlen s0) hc hpos
      (by rw [show (rewind (set_iov (after_read s0 BUFSIZ) true)).shared.mode
            = s0.shared.mode from f3]; exact hd) hrB
  refine ⟨s', res, q, l', ?_, h2, h3, h4, h5.trans f1, h6.trans f2, h7.trans f5, h8.trans f6⟩
  unfold receive_refill1
  simp only [hread]
  exact h1

/-- Nothing to read and pending records: on an empty run of the read file. -/
theorem feed_eof (s : session) (pend : List (List Byte)) (nxt : Nat)
    (hf : Feed s pend nxt 0)
    (hlen : (qfile s s.shared.readtarget).length ≤ qoff s s.shared.readtarget) :
    (if s.shared.readtarget = s.shared.writetarget then []
        else qfile s s.shared.writetarget) = frames s.shared.mode pend := by
  obtain ⟨j, hj, hD, hO⟩ := hf.data
  have hoff := hf.off
  have h1 : (qfile s s.shared.readtarget).drop nxt = [] := by
    apply List.drop_of_length_le
    omega
  rw [h1] at hD
  have h2 := (frames_eq_nil _ _).mp hD.symm
  have h3 := List.take_append_drop j pend
  rw [h2, List.nil_append] at h3
  rw [hO, h3]

/-- The consumer after it has followed the writer to the other file. -/
theorem asleep_follow (BUFSIZ : Nat) (s : session) (pend : List (List Byte)) (nxt : Nat)
    (ha : Asleep BUFSIZ s pend nxt)
    (hlen : (qfile s s.shared.readtarget).length ≤ qoff s s.shared.readtarget)
    (hne : s.shared.readtarget ≠ s.shared.writetarget) :
    Asleep BUFSIZ (after_follow s) pend 0 := by
  obtain ⟨g1, g2, g3, g4, g5, g6, g7, g8, g9, g10, g11⟩ :=
    after_follow_fields s ha.feed.rt ha.feed.wt hne
  have heof := feed_eof s pend nxt ha.feed hlen
  rw [if_neg hne] at heof
  have hone : 1 - s.shared.writetarget = s.shared.readtarget := by
    rcases ha.feed.rt with h | h <;> rcases ha.feed.wt with h' | h' <;> rw [h, h'] at hne ⊢ <;>
      simp at hne ⊢
  refine ⟨⟨?_, ?_, ?_, ?_, ?_, ?_, ?_, ?_, ⟨pend.length, le_refl _, ?_, ?_⟩, ?_⟩, ?_⟩
  · rw [g3]; exact ha.feed.mode
  · rw [g1]; exact ha.feed.wt
  · rw [g2]; exact ha.feed.wt
  · rw [g7]; exact ha.feed.env
  · rw [g6]; exact ha.feed.iov
  · rw [g1, g9]
  · rw [g1, g9]; exact Nat.zero_le _
  · rw [g1, g9, g4]
  · rw [g1, g10, g3, List.take_length, List.drop_zero]; exact heof
  · rw [g1, g2, if_pos rfl, List.drop_length]; rfl
  · intro _
    rw [g1, hone]; exact g11
  · rw [g6]; exact ha.readiov

/-- The consumer after the wait step on an empty queue. -/
theorem asleep_wait (BUFSIZ : Nat) (s : session) (nxt : Nat)
    (ha : Asleep BUFSIZ s [] nxt)
    (heq : s.shared.readtarget = s.shared.writetarget) :
    Asleep BUFSIZ (after_wait s) [] nxt := by
  obtain ⟨g1, g2, g3, g4, g5, g6, g7, g8, g9, g10, g11, g12⟩ := after_wait_fields s
  have t10 : ∀ t, qfile (after_wait s) t = qfile s t := fun t => qfile_congr _ _ t g9 g10
  have t11 : ∀ t, qoff (after_wait s) t = qoff s t := fun t => qoff_congr _ _ t g11 g12
  obtain ⟨j, hj, hD, hO⟩ := ha.feed.data
  have hoth := ha.feed.other heq
  refine ⟨⟨?_, ?_, ?_, ?_, ?_, ?_, ?_, ?_, ⟨0, Nat.zero_le _, ?_, ?_⟩, ?_⟩, ?_⟩
  · rw [g3]; exact ha.feed.mode
  · rw [g1]; exact ha.feed.rt
  · rw [g2]
    split
    · rcases ha.feed.wt with h | h <;> rw [h] <;> simp
    · exact ha.feed.wt
  · rw [g7]; exact ha.feed.env
  · rw [g6]; exact ha.feed.iov
  · rw [g1, t11]; exact ha.feed.off
  · rw [g1, t11, t10]; exact ha.feed.offle
  · rw [g1, t11, g4]; exact ha.feed.ro
  · rw [g1, t10, hD]; simp [frames]
  · rw [g1, g2, t10]
    split
    · rw [← heq]
      split
      · rfl
      · exact hoth
    · simp [heq, frames]
  · intro _
    rw [g1, t10]; exact hoth
  · rw [g6]; exact ha.readiov

/-! ## The consumer invariant: one call of `dmq_receive` -/

theorem readlen_zero (BUFSIZ : Nat) (s : session) (hlen : s.st.readiov.len = (BUFSIZ : Nat))
    (hB : 0 < BUFSIZ) (h : readlen s = 0) :
    (qfile s s.shared.readtarget).length ≤ qoff s s.shared.readtarget := by
  unfold readlen at h
  rw [hlen, Int.toNat_ofNat] at h
  omega

theorem readlen_eof (s : session)
    (h : (qfile s s.shared.readtarget).length ≤ qoff s s.shared.readtarget) :
    readlen s = 0 := by
  unfold readlen
  omega

theorem readlen_pos (BUFSIZ : Nat) (s : session) (hlen : s.st.readiov.len = (BUFSIZ : Nat))
    (hB : 0 < BUFSIZ) (h : qoff s s.shared.readtarget < (qfile s s.shared.readtarget).length) :
    0 < readlen s := by
  unfold readlen
  rw [hlen, Int.toNat_ofNat]
  omega

/-- `receive_refill1` with a record pending: the record is handed out, after the
reader has followed the writer when the read file is exhausted. -/
theorem refill1_record (BUFSIZ fuel : Nat) (s : session) (nowait : Int) (e : Option Int)
    (r : List Byte) (rest : List (List Byte)) (nxt : Nat)
    (ha : Asleep BUFSIZ s (r :: rest) nxt)
    (hd : delim s.shared.mode ∉ r) (hrB : r.length < BUFSIZ) :
    ∃ s' res nxt' q l',
      receive_refill1 BUFSIZ (fuel + 2) s nowait e = ⟨s', .record res, e⟩
      ∧ record_bytes s'.st res = r
      ∧ Consumer BUFSIZ s' rest nxt' q l'
      ∧ s'.shared.position = nxt' % 2 ^ 64
      ∧ (s.shared.readtarget = s.shared.writetarget →
          nxt' = nxt + r.length + 1 ∧ s'.shared.readtarget = s.shared.readtarget
          ∧ s'.shared.writetarget = s.shared.writetarget ∧ s'.q0 = s.q0 ∧ s'.q1 = s.q1) := by
  have hlen : s.st.readiov.len = (BUFSIZ : Nat) := by rw [ha.readiov]
  have hbuf : s.st.readiov.buf = some BUFSIZ := by rw [ha.readiov]
  have hB : 0 < BUFSIZ := by omega
  by_cases hr : 0 < readlen s
  · have hread := dmq_read_data (fuel + 1) s nowait e BUFSIZ ha.feed.rt hbuf ha.feed.env hr
    obtain ⟨s', res, q, l', h1, h2, h3, h4, h5, h6, h7, h8⟩ :=
      refill1_data BUFSIZ (fuel + 1) s s nowait e r rest nxt ha hread hr hd hrB
    exact ⟨s', res, _, q, l', h1, h2, h3, h4, fun _ => ⟨rfl, h5, h6, h7, h8⟩⟩
  · have hr0 : readlen s = 0 := by omega
    have hle := readlen_zero BUFSIZ s hlen hB hr0
    have heof := feed_eof s (r :: rest) nxt ha.feed hle
    have hne : s.shared.readtarget ≠ s.shared.writetarget := by
      intro h
      rw [if_pos h] at heof
      simp [frames] at heof
    rw [if_neg hne] at heof
    have hfo := asleep_follow BUFSIZ s (r :: rest) nxt ha hle hne
    obtain ⟨g1, g2, g3, g4, g5, g6, g7, g8, g9, g10, g11⟩ :=
      after_follow_fields s ha.feed.rt ha.feed.wt hne
    have hlen2 : (after_follow s).st.readiov.len = (BUFSIZ : Nat) := by rw [hfo.readiov]
    have hbuf2 : (after_follow s).st.readiov.buf = some BUFSIZ := by rw [hfo.readiov]
    have hr2 : 0 < readlen (after_follow s) := by
      apply readlen_pos BUFSIZ _ hlen2 hB
      rw [g1, g9, g10, heof]
      simp [frames]
    have hread1 := dmq_read_data fuel (after_follow s) nowait e BUFSIZ hfo.feed.rt hbuf2
      hfo.feed.env hr2
    have hread : dmq_read (fuel + 1 + 1) s nowait e
        = ⟨after_read (after_follow s) BUFSIZ, .iovp, e⟩ := by
      rw [dmq_read_follow (fuel + 1) s nowait e BUFSIZ ha.feed.rt ha.feed.wt hbuf ha.feed.env
        hr0 hne, hread1]
    obtain ⟨s', res, q, l', h1, h2, h3, h4, -⟩ :=
      refill1_data BUFSIZ (fuel + 1) (after_follow s) s nowait e r rest 0 hfo hread hr2
        (by rw [g3]; exact hd) hrB
    exact ⟨s', res, _, q, l', h1, h2, h3, h4, fun h => absurd h hne⟩

/-- `receive_refill1` of a blocking call with nothing pending: the call sleeps. -/
theorem refill1_sleep (BUFSIZ fuel : Nat) (s : session) (e : Option Int) (nxt : Nat)
    (ha : Asleep BUFSIZ s [] nxt) :
    ∃ s' nxt',
      receive_refill1 BUFSIZ (fuel + 2) s 0 e = ⟨s', .sleeping 1, e⟩
      ∧ Asleep BUFSIZ s' [] nxt' := by
  have hbuf : s.st.readiov.buf = some BUFSIZ := by rw [ha.readiov]
  have hle : (qfile s s.shared.readtarget).length ≤ qoff s s.shared.readtarget := by
    obtain ⟨j, -, hD, -⟩ := ha.feed.data
    have h1 := congrArg List.length hD
    have := ha.feed.off
    simp [frames] at h1
    omega
  have hr0 := readlen_eof s hle
  by_cases heq : s.shared.readtarget = s.shared.writetarget
  · have hread := dmq_read_wait (fuel + 1) s 0 e BUFSIZ ha.feed.rt hbuf ha.feed.env hr0 heq
    simp only [ne_eq, not_true_eq_false, if_false] at hread
    refine ⟨after_wait s, nxt, ?_, asleep_wait BUFSIZ s nxt ha heq⟩
    unfold receive_refill1
    simp only [hread]
  · have heof := feed_eof s [] nxt ha.feed hle
    rw [if_neg heq] at heof
    have hfo := asleep_follow BUFSIZ s [] nxt ha hle heq
    obtain ⟨g1, g2, g3, g4, g5, g6, g7, g8, g9, g10, g11⟩ :=
      after_follow_fields s ha.feed.rt ha.feed.wt heq
    have hbuf2 : (after_follow s).st.readiov.buf = some BUFSIZ := by rw [hfo.readiov]
    have hle2 : (qfile (after_follow s) (after_follow s).shared.readtarget).length
        ≤ qoff (after_follow s) (after_follow s).shared.readtarget := by
      rw [g1, g9, g10, heof]
      simp [frames]
    have hr2 := readlen_eof _ hle2
    have hread1 := dmq_read_wait fuel (after_follow s) 0 e BUFSIZ hfo.feed.rt hbuf2
      hfo.feed.env hr2 (g1.trans g2.symm)
    simp only [ne_eq, not_true_eq_false, if_false] at hread1
    have hread : dmq_read (fuel + 1 + 1) s 0 e = ⟨after_wait (after_follow s), .sleeping, e⟩ := by
      rw [dmq_read_follow (fuel + 1) s 0 e BUFSIZ ha.feed.rt ha.feed.wt hbuf ha.feed.env
        hr0 heq, hread1]
    refine ⟨after_wait (after_follow s), 0, ?_,
      asleep_wait BUFSIZ _ 0 hfo (g1.trans g2.symm)⟩
    unfold receive_refill1
    simp only [hread]

/-- The consumer invariant does not read the direction. -/
theorem consumer_commit (BUFSIZ : Nat) (s : session) (pend : List (List Byte)) (nxt p l : Nat)
    (d : Int) (hc : Consumer BUFSIZ s pend nxt p l) : Consumer BUFSIZ (commit s d) pend nxt p l := by
  unfold commit
  split
  · exact ⟨⟨hc.feed.mode, hc.feed.rt, hc.feed.wt, hc.feed.env, hc.feed.iov, hc.feed.off,
      hc.feed.offle, hc.feed.ro, hc.feed.data, hc.feed.other⟩, hc.pos, hc.len, hc.ple, hc.lle,
      hc.buf, hc.content, hc.whole⟩
  · exact hc

/-- A consumer that has used up its buffer, once `readiov` is set up for a refill. -/
theorem asleep_arm (BUFSIZ : Nat) (s : session) (pend : List (List Byte)) (nxt p : Nat)
    (hc : Consumer BUFSIZ s pend nxt p p) : Asleep BUFSIZ (arm BUFSIZ s) pend nxt := by
  have hoff := hc.feed.off
  rw [Nat.sub_self] at hoff
  exact ⟨⟨hc.feed.mode, hc.feed.rt, hc.feed.wt, hc.feed.env, hc.feed.iov, hoff,
      hc.feed.offle, hc.feed.ro, hc.feed.data, hc.feed.other⟩, rfl⟩

/-- One `dmq_receive` with a record pending hands out that record. -/
theorem receive_body_record (BUFSIZ fuel : Nat) (s : session) (nowait : Int) (e : Option Int)
    (r : List Byte) (rest : List (List Byte)) (nxt p l : Nat)
    (hc : Consumer BUFSIZ s (r :: rest) nxt p l) (hdir : s.direction ≠ 1)
    (hd : delim s.shared.mode ∉ r) (hrB : r.length < BUFSIZ) :
    ∃ s' res nxt' q l',
      dmq_receive_body BUFSIZ (fuel + 2) s nowait e = ⟨s', .record res, e⟩
      ∧ record_bytes s'.st res = r
      ∧ Consumer BUFSIZ s' rest nxt' q l'
      ∧ s'.shared.position = nxt' % 2 ^ 64
      ∧ (s.shared.readtarget = s.shared.writetarget →
          nxt' = nxt + r.length + 1 ∧ s'.shared.readtarget = s.shared.readtarget
          ∧ s'.shared.writetarget = s.shared.writetarget ∧ s'.q0 = s.q0 ∧ s'.q1 = s.q1) := by
  have hc2 := consumer_commit BUFSIZ s (r :: rest) nxt p l 2 hc
  have hiov : ¬ ((commit s 2).st.iov = false) := by rw [hc2.feed.iov]; simp
  unfold dmq_receive_body
  rw [if_neg hdir, if_neg hiov]
  by_cases hpl : p = l
  · have hposlen : (commit s 2).st.pos = (commit s 2).st.readiov.len := by
      rw [hc2.pos, hc2.len, hpl]
    rw [if_pos hposlen]
    rw [← hpl] at hc2
    have ha := asleep_arm BUFSIZ (commit s 2) (r :: rest) nxt p hc2
    obtain ⟨s', res, nxt', q, l', h1, h2, h3, h4, h5⟩ :=
      refill1_record BUFSIZ fuel (arm BUFSIZ (commit s 2)) nowait e r rest nxt ha
        (by rw [show (arm BUFSIZ (commit s 2)).shared = s.shared from commit_shared s 2]; exact hd)
        hrB
    refine ⟨s', res, nxt', q, l', h1, h2, h3, h4, ?_⟩
    rw [show (arm BUFSIZ (commit s 2)).shared = s.shared from commit_shared s 2,
      show (arm BUFSIZ (commit s 2)).q0 = s.q0 from commit_q0 s 2,
      show (arm BUFSIZ (commit s 2)).q1 = s.q1 from commit_q1 s 2] at h5
    exact h5
  · have hne : ¬ ((commit s 2).st.pos = (commit s 2).st.readiov.len) := by
      rw [hc2.pos, hc2.len]
      intro h
      exact hpl (by exact_mod_cast h)
    rw [if_neg hne]
    have hple := hc.ple
    obtain ⟨s', res, q, l', h1, h2, h3, h4, h5, h6, h7, h8, -⟩ :=
      receive_find_record BUFSIZ (fuel + 1) (commit s 2) nowait e r rest nxt p l hc2 (by omega)
        (by rw [commit_shared]; exact hd) hrB
    rw [commit_shared] at h5 h6
    rw [commit_q0] at h7
    rw [commit_q1] at h8
    exact ⟨s', res, _, q, l', h1, h2, h3, h4, fun _ => ⟨rfl, h5, h6, h7, h8⟩⟩

/-- One blocking `dmq_receive` with nothing pending goes to sleep. -/
theorem receive_body_sleep (BUFSIZ fuel : Nat) (s : session) (e : Option Int)
    (nxt p l : Nat) (hc : Consumer BUFSIZ s [] nxt p l) (hdir : s.direction ≠ 1) :
    ∃ s' nxt',
      dmq_receive_body BUFSIZ (fuel + 2) s 0 e = ⟨s', .sleeping 1, e⟩
      ∧ Asleep BUFSIZ s' [] nxt' := by
  have hc2 := consumer_commit BUFSIZ s [] nxt p l 2 hc
  have hiov : ¬ ((commit s 2).st.iov = false) := by rw [hc2.feed.iov]; simp
  have hpl : p = l := by
    obtain ⟨j, -, hD, -⟩ := hc.feed.data
    have h1 := congrArg List.length hD
    have := hc.feed.off
    have := hc.feed.offle
    have := hc.ple
    simp [frames] at h1
    omega
  unfold dmq_receive_body
  rw [if_neg hdir, if_neg hiov]
  have hposlen : (commit s 2).st.pos = (commit s 2).st.readiov.len := by
    rw [hc2.pos, hc2.len, hpl]
  rw [if_pos hposlen]
  rw [← hpl] at hc2
  exact refill1_sleep BUFSIZ fuel _ e nxt (asleep_arm BUFSIZ (commit s 2) [] nxt p hc2)

/-! ## The consumer invariant under a send -/

theorem one_sub_target (a b : Int) (ha : a = 0 ∨ a = 1) (hb : b = 0 ∨ b = 1) (h : a ≠ b) :
    1 - b = a := by
  omega

/-- The feed after the producer has appended the record `r` to the write file. -/
theorem feed_send (s S : session) (pend : List (List Byte)) (nxt n : Nat) (r : List Byte)
    (hf : Feed s pend nxt n)
    (ts : S.shared = s.shared) (tst : S.st = s.st) (tenv : S.env = s.env)
    (tf0 : S.qfd0 = s.qfd0) (tf1 : S.qfd1 = s.qfd1)
    (hw : qfile S s.shared.writetarget
      = qfile s s.shared.writetarget ++ (r ++ [delim s.shared.mode]))
    (ho : qfile S (1 - s.shared.writetarget) = qfile s (1 - s.shared.writetarget)) :
    Feed S (pend ++ [r]) nxt n
      ∧ ∃ X, qfile S s.shared.readtarget = qfile s s.shared.readtarget ++ X := by
  have tq : ∀ t, qoff S t = qoff s t := fun t => qoff_congr _ _ t tf0 tf1
  obtain ⟨j, hj, hD, hO⟩ := hf.data
  have hfr : frames s.shared.mode [r] = r ++ [delim s.shared.mode] := by simp [frames]
  have hoff := hf.off
  have hoffle := hf.offle
  by_cases heq : s.shared.readtarget = s.shared.writetarget
  · rw [if_pos heq] at hO
    have hdj : pend.drop j = [] := (frames_eq_nil _ _).mp hO.symm
    have hjl : pend.length ≤ j := List.drop_eq_nil_iff.mp hdj
    have htk : pend.take j = pend := List.take_of_length_le hjl
    rw [htk] at hD
    have hw2 : qfile S s.shared.readtarget
        = qfile s s.shared.readtarget ++ (r ++ [delim s.shared.mode]) := by
      rw [heq]; exact hw
    refine ⟨⟨by rw [ts]; exact hf.mode, by rw [ts]; exact hf.rt, by rw [ts]; exact hf.wt,
      by rw [tenv]; exact hf.env, by rw [tst]; exact hf.iov, ?_, ?_, ?_,
      ⟨pend.length + 1, by simp, ?_, ?_⟩, ?_⟩, ⟨_, hw2⟩⟩
    · rw [ts, tq]; exact hf.off
    · rw [ts, tq, hw2, List.length_append]; omega
    · rw [ts, tq]; exact hf.ro
    · rw [ts, hw2, List.drop_append_of_le_length (by omega), hD,
        List.take_of_length_le (by simp), frames_append, hfr]
    · rw [ts, if_pos heq, List.drop_of_length_le (by simp)]; rfl
    · intro _
      rw [ts, heq, ho, ← heq]; exact hf.other heq
  · have hone := one_sub_target _ _ hf.rt hf.wt heq
    have hr2 : qfile S s.shared.readtarget = qfile s s.shared.readtarget := by
      rw [← hone]; exact ho
    refine ⟨⟨by rw [ts]; exact hf.mode, by rw [ts]; exact hf.rt, by rw [ts]; exact hf.wt,
      by rw [tenv]; exact hf.env, by rw [tst]; exact hf.iov, ?_, ?_, ?_,
      ⟨j, by rw [List.length_append]; omega, ?_, ?_⟩, ?_⟩, ⟨[], by rw [hr2, List.append_nil]⟩⟩
    · rw [ts, tq]; exact hf.off
    · rw [ts, tq, hr2]; exact hf.offle
    · rw [ts, tq]; exact hf.ro
    · rw [ts, hr2, List.take_append_of_le_length hj]; exact hD
    · rw [if_neg heq] at hO
      rw [ts, if_neg heq, hw, List.drop_append_of_le_length hj, frames_append, hfr, ← hO]
    · intro h
      rw [ts] at h; exact absurd h heq

theorem consumer_send (BUFSIZ : Nat) (s S : session) (pend : List (List Byte)) (nxt p l : Nat)
    (r : List Byte) (hc : Consumer BUFSIZ s pend nxt p l)
    (ts : S.shared = s.shared) (tst : S.st = s.st) (tenv : S.env = s.env)
    (tf0 : S.qfd0 = s.qfd0) (tf1 : S.qfd1 = s.qfd1)
    (hw : qfile S s.shared.writetarget
      = qfile s s.shared.writetarget ++ (r ++ [delim s.shared.mode]))
    (ho : qfile S (1 - s.shared.writetarget) = qfile s (1 - s.shared.writetarget)) :
    Consumer BUFSIZ S (pend ++ [r]) nxt p l := by
  obtain ⟨hf, X, hX⟩ := feed_send s S pend nxt (l - p) r hc.feed ts tst tenv tf0 tf1 hw ho
  have hoff := hc.feed.off
  have hoffle := hc.feed.offle
  have htake : ((qfile S s.shared.readtarget).drop nxt).take (l - p)
      = ((qfile s s.shared.readtarget).drop nxt).take (l - p) := by
    rw [hX, List.drop_append_of_le_length (by omega),
      List.take_append_of_le_length (by rw [List.length_drop]; omega)]
  refine ⟨hf, by rw [tst]; exact hc.pos, by rw [tst]; exact hc.len, hc.ple, hc.lle,
    fun h => by rw [tst]; exact hc.buf h, ?_, ?_⟩
  · rw [ts, tst, htake]; exact hc.content
  · rcases hc.whole with h | ⟨k, hk, h⟩
    · exact Or.inl h
    · right
      refine ⟨k, by rw [List.length_append]; omega, ?_⟩
      rw [ts, htake, List.take_append_of_le_length hk]; exact h

theorem asleep_send (BUFSIZ : Nat) (s S : session) (pend : List (List Byte)) (nxt : Nat)
    (r : List Byte) (ha : Asleep BUFSIZ s pend nxt)
    (ts : S.shared = s.shared) (tst : S.st = s.st) (tenv : S.env = s.env)
    (tf0 : S.qfd0 = s.qfd0) (tf1 : S.qfd1 = s.qfd1)
    (hw : qfile S s.shared.writetarget
      = qfile s s.shared.writetarget ++ (r ++ [delim s.shared.mode]))
    (ho : qfile S (1 - s.shared.writetarget) = qfile s (1 - s.shared.writetarget)) :
    Asleep BUFSIZ S (pend ++ [r]) nxt :=
  ⟨(feed_send s S pend nxt 0 r ha.feed ts tst tenv tf0 tf1 hw ho).1, by rw [tst]; exact ha.readiov⟩

/-! ## Descriptors of one process -/

theorem attach_detach (w : World) (sd : Nat) (B : String) (s : session) :
    attach (detach w sd B s) sd B = s := by
  simp [attach, detach]

theorem check_sdesc_bound (w : World) (c : Nat) (B : String) (hc : c < 20)
    (hB : (w.sdarray c).sharedstate = some B) : CHECK_SDESC w (c : Int) = false := by
  simp [CHECK_SDESC, hB]
  omega

/-- The bytes `dmq_send` hands to `writev` in a delimiter mode. -/
theorem send_frame_delim (m : Int) (r : List Byte) (hm : m = MODE_NULLS ∨ m = MODE_NEWLINES)
    (hr : r.length ≤ 65535) :
    (send_frame m r r.length).1.flatten = r ++ [delim m] := by
  have h1 := ushort_of_length r hr
  rcases hm with h | h <;> subst h <;>
    simp [send_frame, MODE_NULLS, MODE_NEWLINES, delim, h1]

/-- What a consumer descriptor of the same process sees after a `dmq_send`. -/
theorem dmq_send_view (w : World) (a c : Nat) (B : String) (data : List Byte) (slen : Int)
    (hac : a ≠ c) (hp : Producer w a B)
    (hwt : (w.fs B).shared.writetarget = 0 ∨ (w.fs B).shared.writetarget = 1) :
    (attach (dmq_send w a data slen).w c B).shared = (attach w c B).shared
    ∧ (attach (dmq_send w a data slen).w c B).st = (attach w c B).st
    ∧ (attach (dmq_send w a data slen).w c B).env = (attach w c B).env
    ∧ (attach (dmq_send w a data slen).w c B).qfd0 = (attach w c B).qfd0
    ∧ (attach (dmq_send w a data slen).w c B).qfd1 = (attach w c B).qfd1
    ∧ qfile (attach (dmq_send w a data slen).w c B) (w.fs B).shared.writetarget
        = qfile (attach w c B) (w.fs B).shared.writetarget
            ++ (send_frame (w.fs B).shared.mode data slen).1.flatten
    ∧ qfile (attach (dmq_send w a data slen).w c B) (1 - (w.fs B).shared.writetarget)
        = qfile (attach w c B) (1 - (w.fs B).shared.writetarget)
    ∧ (dmq_send w a data slen).w.sdarray c = w.sdarray c
    ∧ Producer (dmq_send w a data slen).w a B := by
  have hchk := check_sdesc_bound w a B hp.slot hp.bound
  have hB : (w.sdarray ((a : Int)).toNat).sharedstate = some B := by
    rw [Int.toNat_ofNat]; exact hp.bound
  have hdirA : (attach w ((a : Int)).toNat B).direction ≠ 2 := by
    rw [Int.toNat_ofNat]; exact hp.dir
  obtain ⟨h1, h2, h3, h4, h5⟩ := send_body_full (attach w ((a : Int)).toNat B) data slen
    hdirA hp.full hwt
  have hdir := send_body_direction (attach w ((a : Int)).toNat B) data slen
  rw [dmq_send_bound w a B data slen hchk hB]
  rw [Int.toNat_ofNat] at h1 h2 h3 h4 h5 hdir ⊢
  have hca : c ≠ a := fun h => hac h.symm
  refine ⟨?_, ?_, ?_, ?_, ?_, ?_, ?_, ?_, ⟨hp.slot, ?_, ?_, ?_⟩⟩
  · simpa [detach, attach] using h1
  · simpa [detach, attach] using h2
  · simpa [detach, attach] using h3
  · simp [detach, attach, Function.update_noteq hca]
  · simp [detach, attach, Function.update_noteq hca]
  · simpa [detach, attach, qfile] using h4
  · simpa [detach, attach, qfile] using h5
  · simp [detach, Function.update_noteq hca]
  · simp [detach]
  · simp only [detach, Function.update_same]
    rw [hdir]
    have := hp.dir
    simp only [attach]
    split <;> omega
  · simpa [detach, attach] using (congrArg sysenv.writev h3).trans hp.full

/-! ## Producer and consumer descriptors of one process -/

theorem receive_body_env_mode (BUFSIZ fuel : Nat) (s : session) (nowait : Int)
    (e : Option Int) :
    (dmq_receive_body BUFSIZ fuel s nowait e).s.env = s.env
    ∧ (dmq_receive_body BUFSIZ fuel s nowait e).s.shared.mode = s.shared.mode := by
  unfold dmq_receive_body
  split
  · split <;> exact ⟨rfl, rfl⟩
  · split
    · exact ⟨commit_env s 2, by rw [commit_shared]⟩
    · split
      · have h := receive_refill1_keeps BUFSIZ fuel (arm BUFSIZ (commit s 2)) nowait e
        exact ⟨h.2.1.trans (commit_env s 2),
          h.2.2.1.trans (by show (commit s 2).shared.mode = _; rw [commit_shared])⟩
      · have h := receive_find_keeps BUFSIZ fuel (commit s 2) nowait e
        exact ⟨h.2.1.trans (commit_env s 2), h.2.2.1.trans (by rw [commit_shared])⟩

theorem producer_of_eq (w w2 : World) (a : Nat) (B : String) (hp : Producer w a B)
    (hsd : w2.sdarray a = w.sdarray a) (henv : w2.env = w.env) : Producer w2 a B :=
  ⟨hp.slot, by rw [hsd]; exact hp.bound, by rw [hsd]; exact hp.dir, by rw [henv]; exact hp.full⟩

/-- A send by another descriptor of the process, seen by an idle consumer. -/
theorem idle_send (BUFSIZ : Nat) (w : World) (a c : Nat) (B : String) (r : List Byte)
    (pend : List (List Byte)) (nxt : Nat) (hac : a ≠ c) (hp : Producer w a B)
    (hi : Idle BUFSIZ w c B pend nxt) (hr : r.length ≤ 65535) :
    Producer (dmq_send w a r r.length).w a B
    ∧ Idle BUFSIZ (dmq_send w a r r.length).w c B (pend ++ [r]) nxt
    ∧ ((dmq_send w a r r.length).w.fs B).shared = (w.fs B).shared := by
  obtain ⟨p, l, hc⟩ := hi.cons
  have hwt : (w.fs B).shared.writetarget = 0 ∨ (w.fs B).shared.writetarget = 1 := hc.feed.wt
  have hm : (w.fs B).shared.mode = MODE_NULLS ∨ (w.fs B).shared.mode = MODE_NEWLINES :=
    hc.feed.mode
  obtain ⟨v1, v2, v3, v4, v5, v6, v7, v8, v9⟩ := dmq_send_view w a c B r r.length hac hp hwt
  rw [send_frame_delim _ r hm hr] at v6
  exact ⟨v9, ⟨hi.slot, by rw [v8]; exact hi.bound, by rw [v8]; exact hi.dir,
    ⟨p, l, consumer_send BUFSIZ _ _ pend nxt p l r hc v1 v2 v3 v4 v5 v6 v7⟩⟩, v1⟩

/-- A send by another descriptor of the process, seen by a sleeping consumer. -/
theorem napping_send (BUFSIZ : Nat) (w : World) (a c : Nat) (B : String) (r : List Byte)
    (pend : List (List Byte)) (nxt : Nat) (hac : a ≠ c) (hp : Producer w a B)
    (hi : Napping BUFSIZ w c B pend nxt) (hr : r.length ≤ 65535) :
    Producer (dmq_send w a r r.length).w a B
    ∧ Napping BUFSIZ (dmq_send w a r r.length).w c B (pend ++ [r]) nxt
    ∧ ((dmq_send w a r r.length).w.fs B).shared = (w.fs B).shared := by
  have hwt : (w.fs B).shared.writetarget = 0 ∨ (w.fs B).shared.writetarget = 1 :=
    hi.nap.feed.wt
  have hm : (w.fs B).shared.mode = MODE_NULLS ∨ (w.fs B).shared.mode = MODE_NEWLINES :=
    hi.nap.feed.mode
  obtain ⟨v1, v2, v3, v4, v5, v6, v7, v8, v9⟩ := dmq_send_view w a c B r r.length hac hp hwt
  rw [send_frame_delim _ r hm hr] at v6
  exact ⟨v9, ⟨hi.slot, by rw [v8]; exact hi.bound, by rw [v8]; exact hi.dir,
    asleep_send BUFSIZ _ _ pend nxt r hi.nap v1 v2 v3 v4 v5 v6 v7⟩, v1⟩

/-- The process after a call on descriptor `c` that ends in the session `s2`. -/
theorem detach_facts (w : World) (c : Nat) (B : String) (s2 : session) :
    attach (detach w c B s2) c B = s2
    ∧ ((detach w c B s2).sdarray c).sharedstate = some B
    ∧ ((detach w c B s2).sdarray c).direction = s2.direction
    ∧ (detach w c B s2).env = s2.env
    ∧ (detach w c B s2).st = s2.st
    ∧ ((detach w c B s2).fs B).shared = s2.shared
    ∧ ((detach w c B s2).fs B).q0 = s2.q0
    ∧ ((detach w c B s2).fs B).q1 = s2.q1
    ∧ (∀ a, a ≠ c → (detach w c B s2).sdarray a = w.sdarray a) := by
  refine ⟨attach_detach w c B s2, ?_, ?_, rfl, rfl, ?_, ?_, ?_, ?_⟩
  · simp [detach]
  · simp [detach]
  · simp [detach]
  · simp [detach]
  · simp [detach]
  · intro a ha
    simp [detach, Function.update_noteq ha]

/-- A `dmq_receive` by an idle consumer with a record pending. -/
theorem idle_receive_record (BUFSIZ fuel : Nat) (w : World) (c : Nat) (B : String)
    (nowait : Int) (e : Option Int) (r : List Byte) (rest : List (List Byte)) (nxt : Nat)
    (hi : Idle BUFSIZ w c B (r :: rest) nxt)
    (hd : delim (w.fs B).shared.mode ∉ r) (hrB : r.length < BUFSIZ) :
    ∃ w2 res nxt2,
      dmq_receive BUFSIZ (fuel + 2) w c nowait e = ⟨w2, .record res, e⟩
      ∧ record_bytes w2.st res = r
      ∧ Idle BUFSIZ w2 c B rest nxt2
      ∧ (w2.fs B).shared.position = nxt2 % 2 ^ 64
      ∧ w2.env = w.env
      ∧ (w2.fs B).shared.mode = (w.fs B).shared.mode
      ∧ (∀ a, a ≠ c → w2.sdarray a = w.sdarray a)
      ∧ ((w.fs B).shared.readtarget = (w.fs B).shared.writetarget →
          nxt2 = nxt + r.length + 1
          ∧ (w2.fs B).shared.readtarget = (w.fs B).shared.readtarget
          ∧ (w2.fs B).shared.writetarget = (w.fs B).shared.writetarget
          ∧ (w2.fs B).q0 = (w.fs B).q0 ∧ (w2.fs B).q1 = (w.fs B).q1) := by
  obtain ⟨p, l, hc⟩ := hi.cons
  have hchk := check_sdesc_bound w c B hi.slot hi.bound
  have hB : (w.sdarray ((c : Int)).toNat).sharedstate = some B := by
    rw [Int.toNat_ofNat]; exact hi.bound
  have hbound := dmq_receive_bound BUFSIZ (fuel + 2) w c B nowait e hchk hB
  rw [Int.toNat_ofNat] at hbound
  obtain ⟨s2, res, nxt2, q, l2, h1, h2, h3, h4, h5⟩ :=
    receive_body_record BUFSIZ fuel (attach w c B) nowait e r rest nxt p l hc hi.dir hd hrB
  have hdir := receive_body_direction BUFSIZ (fuel + 2) (attach w c B) nowait e
  obtain ⟨henv, hmode⟩ := receive_body_env_mode BUFSIZ (fuel + 2) (attach w c B) nowait e
  rw [h1] at hbound hdir henv hmode
  obtain ⟨d1, d2, d3, d4, d5, d6, d7, d8, d9⟩ := detach_facts w c B s2
  refine ⟨detach w c B s2, res, nxt2, hbound, by rw [d5]; exact h2,
    ⟨hi.slot, d2, ?_, ⟨q, l2, by rw [d1]; exact h3⟩⟩, by rw [d6]; exact h4,
    by rw [d4]; exact henv, by rw [d6]; exact hmode, d9, ?_⟩
  · rw [d3]
    have := hi.dir
    show s2.direction ≠ 1
    rw [hdir]
    show (if (w.sdarray c).direction = 0 then (2 : Int) else (w.sdarray c).direction) ≠ 1
    split <;> omega
  · rw [d6, d7, d8]
    exact h5

/-- A blocking `dmq_receive` by an idle consumer with nothing pending. -/
theorem idle_receive_sleep (BUFSIZ fuel : Nat) (w : World) (c : Nat) (B : String)
    (e : Option Int) (nxt : Nat) (hi : Idle BUFSIZ w c B [] nxt) :
    ∃ w2 nxt2,
      dmq_receive BUFSIZ (fuel + 2) w c 0 e = ⟨w2, .sleeping 1, e⟩
      ∧ Napping BUFSIZ w2 c B [] nxt2
      ∧ w2.env = w.env
      ∧ (w2.fs B).shared.mode = (w.fs B).shared.mode
      ∧ (∀ a, a ≠ c → w2.sdarray a = w.sdarray a) := by
  obtain ⟨p, l, hc⟩ := hi.cons
  have hchk := check_sdesc_bound w c B hi.slot hi.bound
  have hB : (w.sdarray ((c : Int)).toNat).sharedstate = some B := by
    rw [Int.toNat_ofNat]; exact hi.bound
  have hbound := dmq_receive_bound BUFSIZ (fuel + 2) w c B 0 e hchk hB
  rw [Int.toNat_ofNat] at hbound
  obtain ⟨s2, nxt2, h1, h3⟩ :=
    receive_body_sleep BUFSIZ fuel (attach w c B) e nxt p l hc hi.dir
  have hdir := receive_body_direction BUFSIZ (fuel + 2) (attach w c B) 0 e
  obtain ⟨henv, hmode⟩ := receive_body_env_mode BUFSIZ (fuel + 2) (attach w c B) 0 e
  rw [h1] at hbound hdir henv hmode
  obtain ⟨d1, d2, d3, d4, d5, d6, d7, d8, d9⟩ := detach_facts w c B s2
  refine ⟨detach w c B s2, nxt2, hbound,
    ⟨hi.slot, d2, ?_, by rw [d1]; exact h3⟩, by rw [d4]; exact henv,
    by rw [d6]; exact hmode, d9⟩
  rw [d3]
  have := hi.dir
  show s2.direction ≠ 1
  rw [hdir]
  show (if (w.sdarray c).direction = 0 then (2 : Int) else (w.sdarray c).direction) ≠ 1
  split <;> omega

theorem dmq_receive_wake_bound (BUFSIZ fuel : Nat) (w : World) (c : Nat) (B : String)
    (nowait : Int) (e : Option Int) (hB : (w.sdarray c).sharedstate = some B) :
    dmq_receive_wake BUFSIZ fuel 1 w c nowait e =
      ⟨detach w c B (receive_refill1 BUFSIZ fuel (attach w c B) nowait e).s,
       (receive_refill1 BUFSIZ fuel (attach w c B) nowait e).ret,
       (receive_refill1 BUFSIZ fuel (attach w c B) nowait e).err⟩ := by
  simp [dmq_receive_wake, dmq_receive_resume, hB]

/-- The sleeping `dmq_receive` is resumed with a record pending. -/
theorem napping_wake_record (BUFSIZ fuel : Nat) (w : World) (c : Nat) (B : String)
    (nowait : Int) (e : Option Int) (r : List Byte) (rest : List (List Byte)) (nxt : Nat)
    (hi : Napping BUFSIZ w c B (r :: rest) nxt)
    (hd : delim (w.fs B).shared.mode ∉ r) (hrB : r.length < BUFSIZ) :
    ∃ w2 res nxt2,
      dmq_receive_wake BUFSIZ (fuel + 2) 1 w c nowait e = ⟨w2, .record res, e⟩
      ∧ record_bytes w2.st res = r
      ∧ Idle BUFSIZ w2 c B rest nxt2
      ∧ w2.env = w.env
      ∧ (w2.fs B).shared.mode = (w.fs B).shared.mode
      ∧ (∀ a, a ≠ c → w2.sdarray a = w.sdarray a) := by
  have hbound := dmq_receive_wake_bound BUFSIZ (fuel + 2) w c B nowait e hi.bound
  obtain ⟨s2, res, nxt2, q, l2, h1, h2, h3, -, -⟩ :=
    refill1_record BUFSIZ fuel (attach w c B) nowait e r rest nxt hi.nap hd hrB
  have hk := receive_refill1_keeps BUFSIZ (fuel + 2) (attach w c B) nowait e
  rw [h1] at hbound hk
  obtain ⟨d1, d2, d3, d4, d5, d6, d7, d8, d9⟩ := detach_facts w c B s2
  refine ⟨detach w c B s2, res, nxt2, hbound, by rw [d5]; exact h2,
    ⟨hi.slot, d2, ?_, ⟨q, l2, by rw [d1]; exact h3⟩⟩, by rw [d4]; exact hk.2.1,
    by rw [d6]; exact hk.2.2.1, d9⟩
  rw [d3]
  show s2.direction ≠ 1
  rw [hk.1]
  exact hi.dir

/-- The sleeping blocking `dmq_receive` is resumed with nothing pending. -/
theorem napping_wake_sleep (BUFSIZ fuel : Nat) (w : World) (c : Nat) (B : String)
    (e : Option Int) (nxt : Nat) (hi : Napping BUFSIZ w c B [] nxt) :
    ∃ w2 nxt2,
      dmq_receive_wake BUFSIZ (fuel + 2) 1 w c 0 e = ⟨w2, .sleeping 1, e⟩
      ∧ Napping BUFSIZ w2 c B [] nxt2
      ∧ w2.env = w.env
      ∧ (w2.fs B).shared.mode = (w.fs B).shared.mode
      ∧ (∀ a, a ≠ c → w2.sdarray a = w.sdarray a) := by
  have hbound := dmq_receive_wake_bound BUFSIZ (fuel + 2) w c B 0 e hi.bound
  obtain ⟨s2, nxt2, h1, h3⟩ := refill1_sleep BUFSIZ fuel (attach w c B) e nxt hi.nap
  have hk := receive_refill1_keeps BUFSIZ (fuel + 2) (attach w c B) 0 e
  rw [h1] at hbound hk
  obtain ⟨d1, d2, d3, d4, d5, d6, d7, d8, d9⟩ := detach_facts w c B s2
  refine ⟨detach w c B s2, nxt2, hbound,
    ⟨hi.slot, d2, ?_, by rw [d1]; exact h3⟩, by rw [d4]; exact hk.2.1,
    by rw [d6]; exact hk.2.2.1, d9⟩
  rw [d3]
  show s2.direction ≠ 1
  rw [hk.1]
  exact hi.dir

/-! ## A fresh queue, and a consumer that starts over -/

theorem newheader_mode (B : String) (m : Int) (hm : m = MODE_NULLS ∨ m = MODE_NEWLINES) :
    (newheader B m).mode = m := by
  rcases hm with h | h <;> subst h <;> simp [newheader, MODE_NULLS, MODE_NEWLINES]

theorem frames_length (m : Int) (l : List (List Byte)) :
    (frames m l).length = (l.map (fun r => r.length + 1)).sum := by
  induction l with
  | nil => rfl
  | cons r l ih => simp [frames, ih]; omega

theorem frames_take_le (m : Int) (l : List (List Byte)) (k : Nat) :
    (frames m (l.take k)).length ≤ (frames m l).length := by
  have := congrArg List.length (frames_take_drop m k l)
  rw [List.length_append] at this
  omega

theorem detach_mapexists (w : World) (sd : Nat) (B0 B : String) (s : session) :
    ((detach w sd B0 s).fs B).mapexists = (w.fs B).mapexists := by
  by_cases h : B = B0
  · subst h; simp [detach]
  · simp [detach, Function.update_noteq h]

theorem dmq_send_mapexists (w : World) (sdesc : Int) (data : List Byte) (slen : Int)
    (B : String) : ((dmq_send w sdesc data slen).w.fs B).mapexists = (w.fs B).mapexists := by
  unfold dmq_send
  split
  · split <;> rfl
  · exact detach_mapexists _ _ _ _ _

theorem dmq_receive_mapexists (BUFSIZ fuel : Nat) (w : World) (sdesc nowait : Int)
    (e : Option Int) (B : String) :
    ((dmq_receive BUFSIZ fuel w sdesc nowait e).w.fs B).mapexists = (w.fs B).mapexists := by
  unfold dmq_receive
  split
  · split <;> rfl
  · exact detach_mapexists _ _ _ _ _

/-- The two descriptors of a fresh queue in a delimiter mode. -/
theorem fresh_pair_idle (BUFSIZ : Nat) (B : String) (m : Int)
    (hm : m = MODE_NULLS ∨ m = MODE_NEWLINES) :
    Producer (fresh_pair B m) 0 B ∧ Idle BUFSIZ (fresh_pair B m) 1 B [] 0
    ∧ ((fresh_pair B m).fs B).shared = newheader B m
    ∧ ((fresh_pair B m).fs B).mapexists = true := by
  have hmode := newheader_mode B m hm
  refine ⟨⟨by decide, by simp, by simp, by simp [nofault]⟩,
    ⟨by decide, by simp, by simp, 0, 0, ?_⟩, by simp, by simp⟩
  have hat : attach (fresh_pair B m) 1 B
      = { shared := newheader B m, q0 := [], q1 := [], qfd0 := 0, qfd1 := 0, direction := 0,
          st := statics0, dmq_errmsg := some "", env := nofault } := by
    simp [attach]
  rw [hat]
  refine ⟨⟨?_, Or.inl rfl, Or.inl rfl, rfl, rfl, rfl, Nat.zero_le _, rfl,
    ⟨0, Nat.zero_le _, rfl, rfl⟩, fun _ => rfl⟩, rfl, rfl, le_refl _, Nat.zero_le _,
    fun h => absurd h (lt_irrefl _), rfl, Or.inr ⟨0, Nat.zero_le _, rfl⟩⟩
  show (newheader B m).mode = MODE_NULLS ∨ (newheader B m).mode = MODE_NEWLINES
  rw [hmode]; exact hm

/-- The queue after the producer has sent the records `rs`. -/
theorem send_all_idle (BUFSIZ : Nat) (B : String) :
    ∀ (rs : List (List Byte)) (w : World) (pend : List (List Byte)) (nxt : Nat),
      Producer w 0 B → Idle BUFSIZ w 1 B pend nxt → (∀ r ∈ rs, r.length ≤ 65535) →
      Producer (send_all w 0 rs) 0 B ∧ Idle BUFSIZ (send_all w 0 rs) 1 B (pend ++ rs) nxt
      ∧ ((send_all w 0 rs).fs B).shared = (w.fs B).shared
      ∧ ((send_all w 0 rs).fs B).mapexists = (w.fs B).mapexists := by
  intro rs
  induction rs with
  | nil =>
    intro w pend nxt hp hi _
    rw [List.append_nil]
    exact ⟨hp, hi, rfl, rfl⟩
  | cons r rs ih =>
    intro w pend nxt hp hi hrs
    obtain ⟨h1, h2, h3⟩ := idle_send BUFSIZ w 0 1 B r pend nxt (by decide) hp hi
      (hrs r (List.mem_cons_self _ _))
    obtain ⟨k1, k2, k3, k4⟩ := ih (dmq_send w 0 r r.length).w (pend ++ [r]) nxt h1 h2
      (fun x hx => hrs x (List.mem_cons_of_mem _ hx))
    rw [List.append_assoc] at k2
    exact ⟨k1, k2, k3.trans h3, k4.trans (dmq_send_mapexists w 0 r r.length B)⟩

/-- With the whole queue in one file, `k` calls of `dmq_receive` hand out the first
`k` pending records. -/
theorem receive_all_take (BUFSIZ fuel : Nat) (B : String) (nowait : Int) :
    ∀ (k : Nat) (w : World) (rs : List (List Byte)) (nxt : Nat) (e : Option Int),
      Idle BUFSIZ w 1 B rs nxt →
      (w.fs B).shared.readtarget = (w.fs B).shared.writetarget →
      (w.fs B).shared.position = nxt % 2 ^ 64 →
      k ≤ rs.length →
      (∀ r ∈ rs, delim (w.fs B).shared.mode ∉ r ∧ r.length < BUFSIZ) →
      ∃ wk, receive_all BUFSIZ (fuel + 2) 1 nowait k w e = some (rs.take k, wk)
        ∧ Idle BUFSIZ wk 1 B (rs.drop k)
            (nxt + (frames (w.fs B).shared.mode (rs.take k)).length)
        ∧ (wk.fs B).shared.position
            = (nxt + (frames (w.fs B).shared.mode (rs.take k)).length) % 2 ^ 64
        ∧ (wk.fs B).shared.mode = (w.fs B).shared.mode
        ∧ (wk.fs B).shared.readtarget = (w.fs B).shared.readtarget
        ∧ (wk.fs B).shared.writetarget = (w.fs B).shared.writetarget
        ∧ (wk.fs B).q0 = (w.fs B).q0 ∧ (wk.fs B).q1 = (w.fs B).q1
        ∧ (wk.fs B).mapexists = (w.fs B).mapexists := by
  intro k
  induction k with
  | zero =>
    intro w rs nxt e hi _ hpos _ _
    exact ⟨w, rfl, by simpa [frames] using hi, by simpa [frames] using hpos, rfl, rfl, rfl,
      rfl, rfl, rfl⟩
  | succ k ih =>
    intro w rs nxt e hi heq hpos hk hrs
    cases rs with
    | nil => simp at hk
    | cons r rest =>
      obtain ⟨hd, hrB⟩ := hrs r (List.mem_cons_self _ _)
      obtain ⟨w2, res, nxt2, h1, h2, h3, h4, h5, h6, h7, h8⟩ :=
        idle_receive_record BUFSIZ fuel w 1 B nowait e r rest nxt hi hd hrB
      obtain ⟨n1, n2, n3, n4, n5⟩ := h8 heq
      have h1' : dmq_receive BUFSIZ (fuel + 2) w 1 nowait e = ⟨w2, .record res, e⟩ := h1
      have hmap : (w2.fs B).mapexists = (w.fs B).mapexists := by
        have := dmq_receive_mapexists BUFSIZ (fuel + 2) w 1 nowait e B
        rw [h1'] at this
        exact this
      subst n1
      obtain ⟨wk, j1, j2, j3, j4, j5, j6, j7, j8, j9⟩ := ih w2 rest (nxt + r.length + 1) e h3
        (by rw [n2, n3]; exact heq) h4 (by simpa using hk)
        (fun x hx => by rw [h6]; exact hrs x (List.mem_cons_of_mem _ hx))
      rw [h6] at j2 j3
      have hlen : nxt + r.length + 1 + (frames (w.fs B).shared.mode (List.take k rest)).length
          = nxt + (frames (w.fs B).shared.mode (List.take (k + 1) (r :: rest))).length := by
        simp [frames]; omega
      rw [hlen] at j2 j3
      refine ⟨wk, ?_, by simpa using j2, j3, j4.trans h6, j5.trans n2, j6.trans n3,
        j7.trans n4, j8.trans n5, j9.trans hmap⟩
      simp only [receive_all, h1', j1, Option.map_some', h2, List.take_succ_cons]

/-- A new process that attaches to the queue an idle consumer leaves behind. -/
theorem idle_respawn (BUFSIZ : Nat) (w : World) (c : Nat) (B : String) (m2 : Int)
    (pend : List (List Byte)) (nxt : Nat)
    (hi : Idle BUFSIZ w c B pend nxt) (hmap : (w.fs B).mapexists = true)
    (hpos : (w.fs B).shared.position = nxt) :
    (dmq_init (spawn w) B m2).ret = .ret 0
    ∧ Idle BUFSIZ (dmq_init (spawn w) B m2).w 0 B pend nxt
    ∧ ((dmq_init (spawn w) B m2).w.fs B).shared.mode = (w.fs B).shared.mode := by
  obtain ⟨p, l, hc⟩ := hi.cons
  have hrt : (w.fs B).shared.readtarget = 0 ∨ (w.fs B).shared.readtarget = 1 := hc.feed.rt
  have hfree : freeslot (alloc_errmsg (spawn w)) = 0 := rfl
  have hq : open_queue ((alloc_errmsg (spawn w)).fs B) B m2 = w.fs B := by
    show open_queue (w.fs B) B m2 = _
    unfold open_queue
    rw [if_pos hmap]
  have hinit : dmq_init (spawn w) B m2
      = ⟨bind_slot (alloc_errmsg (spawn w)) B (w.fs B) 0, .ret 0⟩ := by
    unfold dmq_init
    dsimp only
    rw [hfree, hq, if_neg (by decide), if_neg (not_not.mpr hrt)]
    rfl
  rw [hinit]
  have hqoff : qoff (attach (bind_slot (alloc_errmsg (spawn w)) B (w.fs B) 0) 0 B)
      (w.fs B).shared.readtarget = (w.fs B).shared.position := by
    simp only [qoff, attach, bind_slot, Function.update_same]
    split_ifs <;> rfl
  have hoff := hc.feed.off
  have hoffle := hc.feed.offle
  have hfeed : Feed (attach (bind_slot (alloc_errmsg (spawn w)) B (w.fs B) 0) 0 B) pend nxt 0 := by
    refine feed_of_fields (attach w c B) _ pend nxt (l - p) 0 hc.feed ?_ ?_ ?_ ?_ ?_ ?_ ?_ ?_ ?_ ?_
    · simp [attach, bind_slot]
    · simp [attach, bind_slot]
    · simp [attach, bind_slot]
    · simp [attach, bind_slot, alloc_errmsg, spawn, boot]
    · simp [attach, bind_slot, alloc_errmsg, spawn, boot, statics0]
    · simp [attach, bind_slot]
    · simp [attach, bind_slot]
    · show nxt + 0 = qoff _ (w.fs B).shared.readtarget
      rw [hqoff, hpos]; rfl
    · show qoff _ (w.fs B).shared.readtarget ≤ _
      rw [hqoff, hpos]; omega
    · show _ = qoff _ (w.fs B).shared.readtarget
      rw [hqoff]
      simp [attach, bind_slot]
  refine ⟨rfl, ⟨by decide, by simp [bind_slot], by simp [bind_slot], 0, 0, ?_⟩,
    by simp [bind_slot]⟩
  refine ⟨hfeed, ?_, ?_, le_refl _, Nat.zero_le _, fun h => absurd h (lt_irrefl _), ?_,
    Or.inr ⟨0, Nat.zero_le _, ?_⟩⟩
  · simp [attach, bind_slot, alloc_errmsg, spawn, boot, statics0]
  · simp [attach, bind_slot, alloc_errmsg, spawn, boot, statics0]
  · simp [slice]
  · simp [frames]

/-! ## Round trip and durable position in the delimiter modes -/

/-- C1: in Nulls and Newlines mode, when a producer descriptor sends the records
`rs` (each free of the delimiter byte and shorter than `BUFSIZ`) on a fresh queue
and the consumer descriptor then calls `dmq_receive` once per record, the i-th call
hands out a record whose bytes are exactly the i-th record sent, whatever the
number of refills and wherever the refill boundaries fall. -/
theorem delimiter_round_trip (BUFSIZ fuel : Nat) (B : String) (m nowait : Int)
    (errorp : Option Int) (rs : List (List Byte))
    (hm : m = MODE_NULLS ∨ m = MODE_NEWLINES) (hB : BUFSIZ ≤ 65535)
    (hrs : ∀ r ∈ rs, delim m ∉ r ∧ r.length < BUFSIZ) :
    (receive_all BUFSIZ (fuel + 2) 1 nowait rs.length (send_all (fresh_pair B m) 0 rs)
      errorp).map Prod.fst = some rs := by
  obtain ⟨hp, hi, hsh, -⟩ := fresh_pair_idle BUFSIZ B m hm
  obtain ⟨-, s2, s3, -⟩ := send_all_idle BUFSIZ B rs _ [] 0 hp hi
    (fun r hr => by have := (hrs r hr).2; omega)
  rw [List.nil_append] at s2
  have hmode : ((send_all (fresh_pair B m) 0 rs).fs B).shared.mode = m := by
    rw [s3, hsh]; exact newheader_mode B m hm
  obtain ⟨wk, j1, -⟩ := receive_all_take BUFSIZ fuel B nowait rs.length _ rs 0 errorp s2
    (by rw [s3, hsh]; rfl) (by rw [s3, hsh]; rfl) (le_refl _) (by rw [hmode]; exact hrs)
  rw [j1, List.take_length]
  rfl

theorem delimiter_round_trip_witness :
    (∀ r ∈ [[1, 2, 3], [4, 5], [6]], delim MODE_NEWLINES ∉ r ∧ r.length < 4)
    ∧ (receive_all 4 2 1 0 3 (send_all (fresh_pair "q" MODE_NEWLINES) 0 [[1, 2, 3], [4, 5], [6]])
        none).map Prod.fst = some [[1, 2, 3], [4, 5], [6]] :=
  ⟨by decide, delimiter_round_trip 4 0 "q" MODE_NEWLINES 0 none [[1, 2, 3], [4, 5], [6]]
    (Or.inr rfl) (by decide) (by decide)⟩

/-- A run without a late attach: in Nulls and Newlines mode, after a producer has
sent `rs` on a fresh queue (so that the read-target file holds the framing of `rs`)
and a consumer has then received the first `k < rs.length` records with no
`dmq_init` in between, the header's `position` is the sum of
`len r + 1` over the records received, and a new process that attaches with
`dmq_init` and calls `dmq_receive` is handed record number `k` (counting from 0)
as its first record. -/
theorem position_durable (BUFSIZ fuel : Nat) (B : String) (m m2 nowait nowait2 : Int)
    (e e2 : Option Int) (rs : List (List Byte)) (k : Nat)
    (hm : m = MODE_NULLS ∨ m = MODE_NEWLINES) (hB : BUFSIZ ≤ 65535)
    (hrs : ∀ r ∈ rs, delim m ∉ r ∧ r.length < BUFSIZ)
    (hk : k < rs.length) (hsz : (frames m rs).length < 2 ^ 64) :
    ∃ wk, receive_all BUFSIZ (fuel + 2) 1 nowait k (send_all (fresh_pair B m) 0 rs) e
        = some (rs.take k, wk)
      ∧ wfile (wk.fs B) (wk.fs B).shared.readtarget = frames m rs
      ∧ (wk.fs B).shared.position = ((rs.take k).map (fun r => r.length + 1)).sum
      ∧ (dmq_init (spawn wk) B m2).ret = .ret 0
      ∧ ∃ w3 res, dmq_receive BUFSIZ (fuel + 2) (dmq_init (spawn wk) B m2).w 0 nowait2 e2
            = ⟨w3, .record res, e2⟩
          ∧ rs[k]? = some (record_bytes w3.st res) := by
  obtain ⟨hp, hi, hsh, hmap⟩ := fresh_pair_idle BUFSIZ B m hm
  obtain ⟨-, s2, s3, s4⟩ := send_all_idle BUFSIZ B rs _ [] 0 hp hi
    (fun r hr => by have := (hrs r hr).2; omega)
  rw [List.nil_append] at s2
  have hmode : ((send_all (fresh_pair B m) 0 rs).fs B).shared.mode = m := by
    rw [s3, hsh]; exact newheader_mode B m hm
  have heq : ((send_all (fresh_pair B m) 0 rs).fs B).shared.readtarget
      = ((send_all (fresh_pair B m) 0 rs).fs B).shared.writetarget := by rw [s3, hsh]; rfl
  -- the read-target file holds the framing of `rs`
  have hfile : wfile ((send_all (fresh_pair B m) 0 rs).fs B)
      ((send_all (fresh_pair B m) 0 rs).fs B).shared.readtarget = frames m rs := by
    obtain ⟨p, l, hc⟩ := s2.cons
    obtain ⟨j, hj, hD, hO⟩ := hc.feed.data
    have heq2 : (attach (send_all (fresh_pair B m) 0 rs) 1 B).shared.readtarget
        = (attach (send_all (fresh_pair B m) 0 rs) 1 B).shared.writetarget := heq
    rw [if_pos heq2] at hO
    have h1 := (frames_eq_nil _ _).mp hO.symm
    have h2 := List.take_append_drop j rs
    rw [h1, List.append_nil] at h2
    rw [h2, List.drop_zero] at hD
    have hD2 : wfile ((send_all (fresh_pair B m) 0 rs).fs B)
        ((send_all (fresh_pair B m) 0 rs).fs B).shared.readtarget
        = frames ((send_all (fresh_pair B m) 0 rs).fs B).shared.mode rs := hD
    rw [hmode] at hD2
    exact hD2
  obtain ⟨wk, j1, j2, j3, j4, j5, j6, j7, j8, j9⟩ :=
    receive_all_take BUFSIZ fuel B nowait k _ rs 0 e s2 heq (by rw [s3, hsh]; rfl)
      (le_of_lt hk) (by rw [hmode]; exact hrs)
  rw [hmode, Nat.zero_add] at j2 j3
  have hle := frames_take_le m rs k
  rw [Nat.mod_eq_of_lt (by omega)] at j3
  obtain ⟨i1, i2, i3⟩ := idle_respawn BUFSIZ wk 1 B m2 _ _ j2 (by rw [j9, s4]; exact hmap) j3
  have hdrop : rs.drop k = rs[k] :: rs.drop (k + 1) := List.drop_eq_getElem_cons hk
  rw [hdrop] at i2
  have hmem : rs[k] ∈ rs := List.getElem_mem _
  obtain ⟨hd, hrB⟩ := hrs _ hmem
  obtain ⟨w3, res, nxt3, r1, r2, -⟩ := idle_receive_record BUFSIZ fuel _ 0 B nowait2 e2 rs[k]
    (rs.drop (k + 1)) _ i2 (by rw [i3, j4, hmode]; exact hd) hrB
  refine ⟨wk, j1, ?_, ?_, i1, w3, res, r1, ?_⟩
  · unfold wfile at hfile ⊢
    rw [j5, j7, j8]
    exact hfile
  · rw [j3, frames_length]
  · rw [r2]
    exact List.getElem?_eq_getElem hk

theorem position_durable_witness :
    (∀ r ∈ [[97], [98], [99]], delim MODE_NEWLINES ∉ r ∧ r.length < 8192)
    ∧ ∃ wk, receive_all 8192 2 1 0 1 (send_all (fresh_pair "q" MODE_NEWLINES) 0
          [[97], [98], [99]]) none = some (List.take 1 [[97], [98], [99]], wk)
      ∧ wfile (wk.fs "q") (wk.fs "q").shared.readtarget
          = frames MODE_NEWLINES [[97], [98], [99]]
      ∧ (wk.fs "q").shared.position
          = ((List.take 1 [[97], [98], [99]]).map (fun r => r.length + 1)).sum
      ∧ (dmq_init (spawn wk) "q" MODE_NEWLINES).ret = .ret 0
      ∧ ∃ w3 res, dmq_receive 8192 2 (dmq_init (spawn wk) "q" MODE_NEWLINES).w 0 0 none
            = ⟨w3, .record res, none⟩
          ∧ [[97], [98], [99]][1]? = some (record_bytes w3.st res) :=
  ⟨by decide, position_durable 8192 0 "q" MODE_NEWLINES MODE_NEWLINES 0 0 none none
    [[97], [98], [99]] 1 (Or.inr rfl) (by decide) (by decide) (by decide) (by decide)⟩

/-! ## Delivery order in an interleaving of sends and receives -/

theorem sends_cons (mv : move) (ms : List move) : sends (mv :: ms) = sends [mv] ++ sends ms := by
  cases mv <;> rfl

theorem start_in_order (BUFSIZ : Nat) (B : String) : InOrder BUFSIZ B (start B) := by
  obtain ⟨hp, hi, hsh, -⟩ := fresh_pair_idle BUFSIZ B MODE_NEWLINES (Or.inr rfl)
  refine ⟨hp, ?_, rfl, [], 0, rfl, fun r hr => absurd hr (List.not_mem_nil r), fun _ => hi,
    fun site e h => ?_⟩
  · show ((fresh_pair B MODE_NEWLINES).fs B).shared.mode = MODE_NEWLINES
    rw [hsh]; rfl
  · simp [start] at h

/-- One step of an interleaving keeps the records in order. -/
theorem play_in_order (BUFSIZ fuel : Nat) (B : String) (t : interleaving) (mv : move)
    (hB : BUFSIZ ≤ 65535) (ht : InOrder BUFSIZ B t)
    (hmv : ∀ r ∈ sends [mv], 10 ∉ r ∧ r.length < BUFSIZ) :
    InOrder BUFSIZ B (play BUFSIZ (fuel + 2) t mv)
    ∧ (play BUFSIZ (fuel + 2) t mv).sent = t.sent ++ sends [mv] := by
  obtain ⟨pend, nxt, hsent, hpend, hidle, hnap⟩ := ht.feed
  have hmode := ht.mode
  have hdl : delim (t.w.fs B).shared.mode = 10 := by rw [hmode]; rfl
  cases mv with
  | send r =>
    have hr := hmv r (by simp [sends])
    have hr2 : r.length ≤ 65535 := by omega
    have hpend2 : ∀ x ∈ pend ++ [r], 10 ∉ x ∧ x.length < BUFSIZ := by
      intro x hx
      rcases List.mem_append.mp hx with h | h
      · exact hpend x h
      · rw [List.mem_singleton.mp h]; exact hr
    refine ⟨?_, rfl⟩
    cases hs : t.asleep with
    | none =>
      obtain ⟨h1, h2, h3⟩ := idle_send BUFSIZ t.w 0 1 B r pend nxt (by decide) ht.prod
        (hidle hs) hr2
      refine ⟨h1, ?_, ht.ok, pend ++ [r], nxt, ?_, hpend2, fun _ => h2, fun site e h => ?_⟩
      · have h3' : ((dmq_send t.w 0 r r.length).w.fs B).shared = (t.w.fs B).shared := h3
        show ((dmq_send t.w 0 r r.length).w.fs B).shared.mode = _
        rw [h3']; exact hmode
      · show t.sent ++ [r] = t.delivered ++ (pend ++ [r])
        rw [hsent, List.append_assoc]
      · have h' : t.asleep = some (site, e) := h
        rw [hs] at h'
        exact absurd h' (by simp)
    | some se =>
      obtain ⟨site, e⟩ := se
      obtain ⟨hsite, hn⟩ := hnap site e hs
      obtain ⟨h1, h2, h3⟩ := napping_send BUFSIZ t.w 0 1 B r pend nxt (by decide) ht.prod
        hn hr2
      refine ⟨h1, ?_, ht.ok, pend ++ [r], nxt, ?_, hpend2, fun h => ?_, fun site2 e2 h => ?_⟩
      · have h3' : ((dmq_send t.w 0 r r.length).w.fs B).shared = (t.w.fs B).shared := h3
        show ((dmq_send t.w 0 r r.length).w.fs B).shared.mode = _
        rw [h3']; exact hmode
      · show t.sent ++ [r] = t.delivered ++ (pend ++ [r])
        rw [hsent, List.append_assoc]
      · have h' : t.asleep = none := h
        rw [hs] at h'
        exact absurd h' (by simp)
      · have h' : t.asleep = some (site2, e2) := h
        rw [hs] at h'
        simp only [Option.some.injEq, Prod.mk.injEq] at h'
        rw [← h'.1]
        exact ⟨hsite, h2⟩
  | receive e =>
    cases hs : t.asleep with
    | some se =>
      simp only [play, hs, sends, List.append_nil]
      exact ⟨ht, trivial⟩
    | none =>
      have hi := hidle hs
      cases pend with
      | nil =>
        obtain ⟨w2, nxt2, h1, h2, h3, h4, h5⟩ := idle_receive_sleep BUFSIZ fuel t.w 1 B e nxt hi
        have h1' : dmq_receive BUFSIZ (fuel + 2) t.w 1 0 e = ⟨w2, .sleeping 1, e⟩ := h1
        simp only [play, hs, settle, h1', sends, List.append_nil, and_true]
        refine ⟨producer_of_eq t.w w2 0 B ht.prod (h5 0 (by decide)) h3, h4.trans hmode, ht.ok,
          [], nxt2, hsent, hpend, fun h => absurd h (by simp), fun site e2 h => ?_⟩
        simp only [Option.some.injEq, Prod.mk.injEq] at h
        rw [← h.1]
        exact ⟨rfl, h2⟩
      | cons r rest =>
        obtain ⟨hd, hrB⟩ := hpend r (List.mem_cons_self _ _)
        obtain ⟨w2, res, nxt2, h1, h2, h3, -, h5, h6, h7, -⟩ :=
          idle_receive_record BUFSIZ fuel t.w 1 B 0 e r rest nxt hi (by rw [hdl]; exact hd) hrB
        have h1' : dmq_receive BUFSIZ (fuel + 2) t.w 1 0 e = ⟨w2, .record res, e⟩ := h1
        simp only [play, hs, settle, h1', sends, List.append_nil, and_true, h2]
        refine ⟨producer_of_eq t.w w2 0 B ht.prod (h7 0 (by decide)) h5, h6.trans hmode, ht.ok,
          rest, nxt2, ?_, fun x hx => hpend x (List.mem_cons_of_mem _ hx), fun _ => h3,
          fun site e2 h => absurd h (by simp)⟩
        show t.sent = (t.delivered ++ [r]) ++ rest
        rw [hsent, List.append_assoc]
        rfl
  | wake =>
    cases hs : t.asleep with
    | none =>
      simp only [play, hs, sends, List.append_nil]
      exact ⟨ht, trivial⟩
    | some se =>
      obtain ⟨site, e⟩ := se
      obtain ⟨hsite, hn⟩ := hnap site e hs
      subst hsite
      cases pend with
      | nil =>
        obtain ⟨w2, nxt2, h1, h2, h3, h4, h5⟩ := napping_wake_sleep BUFSIZ fuel t.w 1 B e nxt hn
        have h1' : dmq_receive_wake BUFSIZ (fuel + 2) 1 t.w 1 0 e = ⟨w2, .sleeping 1, e⟩ := h1
        simp only [play, hs, settle, h1', sends, List.append_nil, and_true]
        refine ⟨producer_of_eq t.w w2 0 B ht.prod (h5 0 (by decide)) h3, h4.trans hmode, ht.ok,
          [], nxt2, hsent, hpend, fun h => absurd h (by simp), fun site e2 h => ?_⟩
        simp only [Option.some.injEq, Prod.mk.injEq] at h
        rw [← h.1]
        exact ⟨rfl, h2⟩
      | cons r rest =>
        obtain ⟨hd, hrB⟩ := hpend r (List.mem_cons_self _ _)
        obtain ⟨w2, res, nxt2, h1, h2, h3, h5, h6, h7⟩ :=
          napping_wake_record BUFSIZ fuel t.w 1 B 0 e r rest nxt hn (by rw [hdl]; exact hd) hrB
        have h1' : dmq_receive_wake BUFSIZ (fuel + 2) 1 t.w 1 0 e = ⟨w2, .record res, e⟩ := h1
        simp only [play, hs, settle, h1', sends, List.append_nil, and_true, h2]
        refine ⟨producer_of_eq t.w w2 0 B ht.prod (h7 0 (by decide)) h5, h6.trans hmode, ht.ok,
          rest, nxt2, ?_, fun x hx => hpend x (List.mem_cons_of_mem _ hx), fun _ => h3,
          fun site e2 h => absurd h (by simp)⟩
        show t.sent = (t.delivered ++ [r]) ++ rest
        rw [hsent, List.append_assoc]
        rfl

/-- The next move of the consumer hands out the first record still pending. -/
theorem play_progress (BUFSIZ fuel : Nat) (B : String) (t : interleaving) (e : Option Int)
    (r : List Byte) (rest : List (List Byte)) (ht : InOrder BUFSIZ B t)
    (hs : t.sent = t.delivered ++ r :: rest) :
    (play BUFSIZ (fuel + 2) t (if t.asleep = none then .receive e else .wake)).delivered
      = t.delivered ++ [r] := by
  obtain ⟨pend, nxt, hsent, hpend, hidle, hnap⟩ := ht.feed
  have hdl : delim (t.w.fs B).shared.mode = 10 := by rw [ht.mode]; rfl
  have hp : pend = r :: rest := List.append_cancel_left (hsent.symm.trans hs)
  subst hp
  obtain ⟨hd, hrB⟩ := hpend r (List.mem_cons_self _ _)
  cases ha : t.asleep with
  | none =>
    obtain ⟨w2, res, nxt2, h1, h2, -⟩ :=
      idle_receive_record BUFSIZ fuel t.w 1 B 0 e r rest nxt (hidle ha) (by rw [hdl]; exact hd) hrB
    have h1' : dmq_receive BUFSIZ (fuel + 2) t.w 1 0 e = ⟨w2, .record res, e⟩ := h1
    simp only [if_true, play, ha, settle, h1', h2]
  | some se =>
    obtain ⟨site, e2⟩ := se
    obtain ⟨hsite, hn⟩ := hnap site e2 ha
    subst hsite
    obtain ⟨w2, res, nxt2, h1, h2, -⟩ :=
      napping_wake_record BUFSIZ fuel t.w 1 B 0 e2 r rest nxt hn (by rw [hdl]; exact hd) hrB
    have h1' : dmq_receive_wake BUFSIZ (fuel + 2) 1 t.w 1 0 e2 = ⟨w2, .record res, e2⟩ := h1
    simp only [reduceCtorEq, if_false, play, ha, settle, h1', h2]

/-- A run of an interleaving keeps the records in order. -/
theorem run_in_order (BUFSIZ fuel : Nat) (B : String) (hB : BUFSIZ ≤ 65535) :
    ∀ (ms : List move) (t : interleaving), InOrder BUFSIZ B t →
      (∀ r ∈ sends ms, 10 ∉ r ∧ r.length < BUFSIZ) →
      InOrder BUFSIZ B (ms.foldl (play BUFSIZ (fuel + 2)) t)
      ∧ (ms.foldl (play BUFSIZ (fuel + 2)) t).sent = t.sent ++ sends ms := by
  intro ms
  induction ms with
  | nil =>
    intro t ht _
    exact ⟨ht, by simp [sends]⟩
  | cons mv ms ih =>
    intro t ht hrs
    rw [sends_cons] at hrs
    obtain ⟨h1, h2⟩ := play_in_order BUFSIZ fuel B t mv hB ht
      (fun r hr => hrs r (List.mem_append_left _ hr))
    obtain ⟨h3, h4⟩ := ih (play BUFSIZ (fuel + 2) t mv) h1
      (fun r hr => hrs r (List.mem_append_right _ hr))
    refine ⟨h3, ?_⟩
    rw [List.foldl_cons, h4, h2, List.append_assoc]
    congr 1
    exact (sends_cons mv ms).symm

/-- C8: in every interleaving of atomic `dmq_send` steps on the producer descriptor
and blocking `dmq_receive` steps on the consumer descriptor of a fresh Newlines
queue (the sleep in `dmq_read` being a point where sends may occur), with records
free of 0x0A and shorter than `BUFSIZ`, the records handed out so far are a prefix
of the records sent, no `dmq_receive` ends in anything but a record or a sleep, and
the next move of the consumer hands out the first record not yet handed out. -/
theorem delivered_prefix_of_sent (BUFSIZ fuel : Nat) (B : String) (ms : List move)
    (hB : BUFSIZ ≤ 65535) (hrs : ∀ r ∈ sends ms, 10 ∉ r ∧ r.length < BUFSIZ) :
    (ms.foldl (play BUFSIZ (fuel + 2)) (start B)).delivered <+: sends ms
    ∧ (ms.foldl (play BUFSIZ (fuel + 2)) (start B)).sent = sends ms
    ∧ (ms.foldl (play BUFSIZ (fuel + 2)) (start B)).failed = false
    ∧ ∀ (e : Option Int) (r : List Byte) (rest : List (List Byte)),
        sends ms = (ms.foldl (play BUFSIZ (fuel + 2)) (start B)).delivered ++ r :: rest →
        (play BUFSIZ (fuel + 2) (ms.foldl (play BUFSIZ (fuel + 2)) (start B))
          (if (ms.foldl (play BUFSIZ (fuel + 2)) (start B)).asleep = none
            then .receive e else .wake)).delivered
          = (ms.foldl (play BUFSIZ (fuel + 2)) (start B)).delivered ++ [r] := by
  obtain ⟨h1, h2⟩ := run_in_order BUFSIZ fuel B hB ms (start B) (start_in_order BUFSIZ B) hrs
  have h3 : (ms.foldl (play BUFSIZ (fuel + 2)) (start B)).sent = sends ms := by
    rw [h2]; rfl
  obtain ⟨pend, nxt, hsent, -⟩ := h1.feed
  refine ⟨?_, h3, h1.ok, fun e r rest hs => ?_⟩
  · rw [← h3, hsent]
    exact List.prefix_append _ _
  · exact play_progress BUFSIZ fuel B _ e r rest h1 (h3.trans hs)

theorem delivered_prefix_of_sent_witness :
    (∀ r ∈ sends [.receive none, .send [1, 2, 3], .send [4, 5], .wake, .send [6], .receive none,
        .receive none, .receive none, .wake], 10 ∉ r ∧ r.length < 4)
    ∧ ((([.receive none, .send [1, 2, 3], .send [4, 5], .wake, .send [6], .receive none,
        .receive none, .receive none, .wake] : List move).foldl (play 4 2) (start "q")).delivered
      <+: sends [.receive none, .send [1, 2, 3], .send [4, 5], .wake, .send [6], .receive none,
        .receive none, .receive none, .wake]) :=
  ⟨by decide, (delivered_prefix_of_sent 4 0 "q" [.receive none, .send [1, 2, 3], .send [4, 5],
    .wake, .send [6], .receive none, .receive none, .receive none, .wake] (by decide)
    (by decide)).1⟩

/-! ## What `dmq_send` and `dmq_init` leave alone -/

theorem after_write_frame (s : session) (bytes : List Byte) :
    (after_write s bytes).shared = s.shared
    ∧ ((after_write s bytes).q0 ≠ s.q0 → s.shared.writetarget = 0)
    ∧ ((after_write s bytes).q1 ≠ s.q1 → s.shared.writetarget ≠ 0) := by
  unfold after_write
  refine ⟨by simp, ?_, ?_⟩
  · rw [setoff_q0]
    unfold setfile
    split
    · intro _; assumption
    · intro h; exact absurd rfl h
  · rw [setoff_q1]
    unfold setfile
    split
    · intro h; exact absurd rfl h
    · intro _; assumption

/-- The header and the files after the body of `dmq_send`. -/
theorem send_body_frame (s : session) (data : List Byte) (slen : Int) :
    (dmq_send_body s data slen).s.shared = s.shared
    ∧ ((dmq_send_body s data slen).s.q0 ≠ s.q0 → s.shared.writetarget = 0)
    ∧ ((dmq_send_body s data slen).s.q1 ≠ s.q1 → s.shared.writetarget = 1) := by
  have hc : ∀ (x : session), x = s ∨ x = set_errmsg s "Send: not after receive"
      ∨ x = commit s 1 ∨ x = set_errmsg (commit s 1) "Send: write error" →
      x.shared = s.shared ∧ (x.q0 ≠ s.q0 → s.shared.writetarget = 0)
        ∧ (x.q1 ≠ s.q1 → s.shared.writetarget = 1) := by
    intro x hx
    rcases hx with h | h | h | h <;> subst h
    · exact ⟨rfl, fun h => absurd rfl h, fun h => absurd rfl h⟩
    · exact ⟨rfl, fun h => absurd rfl h, fun h => absurd rfl h⟩
    · exact ⟨commit_shared s 1, fun h => absurd (commit_q0 s 1) h,
        fun h => absurd (commit_q1 s 1) h⟩
    · exact ⟨commit_shared s 1, fun h => absurd (commit_q0 s 1) h,
        fun h => absurd (commit_q1 s 1) h⟩
  have hw : ∀ (bytes : List Byte) (x : session),
      (s.shared.writetarget = 0 ∨ s.shared.writetarget = 1) →
      (x = after_write (commit s 1) bytes
        ∨ x = set_errmsg (after_write (commit s 1) bytes) "Send: short write") →
      x.shared = s.shared ∧ (x.q0 ≠ s.q0 → s.shared.writetarget = 0)
        ∧ (x.q1 ≠ s.q1 → s.shared.writetarget = 1) := by
    intro bytes x hwt hx
    obtain ⟨a1, a2, a3⟩ := after_write_frame (commit s 1) bytes
    rw [commit_shared] at a1 a2 a3
    rw [commit_q0] at a2
    rw [commit_q1] at a3
    have a3' : (after_write (commit s 1) bytes).q1 ≠ s.q1 → s.shared.writetarget = 1 := by
      intro h
      have := a3 h
      omega
    rcases hx with h | h <;> subst h
    · exact ⟨a1, a2, a3'⟩
    · exact ⟨a1, a2, a3'⟩
  unfold dmq_send_body
  split
  · split
    · exact hc _ (Or.inr (Or.inl rfl))
    · exact hc _ (Or.inl rfl)
  · dsimp only
    split
    · exact hc _ (Or.inr (Or.inr (Or.inl rfl)))
    · rename_i hwt
      have hwt2 : s.shared.writetarget = 0 ∨ s.shared.writetarget = 1 := by
        rw [commit_shared] at hwt
        exact not_not.mp hwt
      split
      · split
        · exact hc _ (Or.inr (Or.inr (Or.inr rfl)))
        · exact hc _ (Or.inr (Or.inr (Or.inl rfl)))
      · split
        · split
          · exact hw _ _ hwt2 (Or.inr rfl)
          · exact hw _ _ hwt2 (Or.inl rfl)
        · exact hw _ _ hwt2 (Or.inl rfl)

/-- C14: for every handle, payload and length, whether `dmq_send` returns a count
or -1 (that is, whenever its behaviour is defined), the header of every queue is
the same after the call as before it (read target, write target, write delay, mode,
read offset, position and the three paths), and a queue file is changed only if it
belongs to the queue the handle is bound to and is the file indexed by the
header's write target. -/
theorem dmq_send_keeps_header (w : World) (sdesc : Int) (data : List Byte) (slen : Int)
    (B : String) (_hdef : (dmq_send w sdesc data slen).ret ≠ .undefined) :
    ((dmq_send w sdesc data slen).w.fs B).shared = (w.fs B).shared
    ∧ (((dmq_send w sdesc data slen).w.fs B).q0 ≠ (w.fs B).q0 →
        CHECK_SDESC w sdesc = false ∧ (w.sdarray sdesc.toNat).sharedstate = some B
        ∧ (w.fs B).shared.writetarget = 0)
    ∧ (((dmq_send w sdesc data slen).w.fs B).q1 ≠ (w.fs B).q1 →
        CHECK_SDESC w sdesc = false ∧ (w.sdarray sdesc.toNat).sharedstate = some B
        ∧ (w.fs B).shared.writetarget = 1) := by
  unfold dmq_send
  split
  · split
    · exact ⟨rfl, fun h => absurd rfl h, fun h => absurd rfl h⟩
    · exact ⟨rfl, fun h => absurd rfl h, fun h => absurd rfl h⟩
  · rename_i B0 hB0
    have hchk : CHECK_SDESC w sdesc = false ∧ (w.sdarray sdesc.toNat).sharedstate = some B0 := by
      split at hB0
      · simp at hB0
      · rename_i hc
        exact ⟨by simpa using hc, hB0⟩
    obtain ⟨f1, f2, f3⟩ := send_body_frame (attach w sdesc.toNat B0) data slen
    by_cases hb : B = B0
    · subst hb
      have hfs : (detach w sdesc.toNat B (dmq_send_body (attach w sdesc.toNat B) data slen).s).fs B
          = { mapexists := (w.fs B).mapexists,
              shared := (dmq_send_body (attach w sdesc.toNat B) data slen).s.shared,
              q0 := (dmq_send_body (attach w sdesc.toNat B) data slen).s.q0,
              q1 := (dmq_send_body (attach w sdesc.toNat B) data slen).s.q1 } := by
        simp [detach]
      dsimp only
      rw [hfs]
      exact ⟨f1, fun h => ⟨hchk.1, hchk.2, f2 h⟩, fun h => ⟨hchk.1, hchk.2, f3 h⟩⟩
    · have hfs : (detach w sdesc.toNat B0 (dmq_send_body (attach w sdesc.toNat B0) data slen).s).fs B
          = w.fs B := by
        simp [detach, Function.update_noteq hb]
      dsimp only
      rw [hfs]
      exact ⟨rfl, fun h => absurd rfl h, fun h => absurd rfl h⟩

theorem dmq_send_keeps_header_witness :
    (dmq_send (fresh_pair "q" MODE_NEWLINES) 0 [104, 105] 2).ret ≠ .undefined
    ∧ ((dmq_send (fresh_pair "q" MODE_NEWLINES) 0 [104, 105] 2).w.fs "q").shared
        = ((fresh_pair "q" MODE_NEWLINES).fs "q").shared :=
  ⟨by decide, (dmq_send_keeps_header (fresh_pair "q" MODE_NEWLINES) 0 [104, 105] 2 "q"
    (by decide)).1⟩

/-- C15: when the map file of the queue exists, `dmq_init` with any mode argument
leaves the read target, the write target, the write delay, the mode, the position
and the three paths of the header unchanged, whatever it returns, and a `dmq_init`
that returns a handle sets the read offset to the position. -/
theorem dmq_init_existing_queue (w : World) (B : String) (m : Int)
    (hmap : (w.fs B).mapexists = true) (_hdef : (dmq_init w B m).ret ≠ .undefined) :
    ((dmq_init w B m).w.fs B).shared.readtarget = (w.fs B).shared.readtarget
    ∧ ((dmq_init w B m).w.fs B).shared.writetarget = (w.fs B).shared.writetarget
    ∧ ((dmq_init w B m).w.fs B).shared.writedelay = (w.fs B).shared.writedelay
    ∧ ((dmq_init w B m).w.fs B).shared.mode = (w.fs B).shared.mode
    ∧ ((dmq_init w B m).w.fs B).shared.position = (w.fs B).shared.position
    ∧ ((dmq_init w B m).w.fs B).shared.qfile0 = (w.fs B).shared.qfile0
    ∧ ((dmq_init w B m).w.fs B).shared.qfile1 = (w.fs B).shared.qfile1
    ∧ ((dmq_init w B m).w.fs B).shared.qfile2 = (w.fs B).shared.qfile2
    ∧ (∀ k : Int, (dmq_init w B m).ret = .ret k → 0 ≤ k →
        ((dmq_init w B m).w.fs B).shared.readoffset = (w.fs B).shared.position) := by
  have hfs : (alloc_errmsg w).fs = w.fs := by
    unfold alloc_errmsg; split <;> rfl
  have hq : open_queue ((alloc_errmsg w).fs B) B m = w.fs B := by
    rw [hfs]; unfold open_queue; rw [if_pos hmap]
  have hsame : ∀ q : qstore, q = w.fs B →
      q.shared.readtarget = (w.fs B).shared.readtarget
      ∧ q.shared.writetarget = (w.fs B).shared.writetarget
      ∧ q.shared.writedelay = (w.fs B).shared.writedelay
      ∧ q.shared.mode = (w.fs B).shared.mode
      ∧ q.shared.position = (w.fs B).shared.position
      ∧ q.shared.qfile0 = (w.fs B).shared.qfile0
      ∧ q.shared.qfile1 = (w.fs B).shared.qfile1
      ∧ q.shared.qfile2 = (w.fs B).shared.qfile2 := by
    intro q h
    rw [h]
    exact ⟨rfl, rfl, rfl, rfl, rfl, rfl, rfl, rfl⟩
  unfold dmq_init
  dsimp only
  rw [hq]
  split
  · obtain ⟨h1, h2, h3, h4, h5, h6, h7, h8⟩ := hsame ((alloc_errmsg w).fs B) (congrFun hfs B)
    refine ⟨h1, h2, h3, h4, h5, h6, h7, h8, fun k hk h0 => ?_⟩
    simp only [sendret.ret.injEq] at hk
    omega
  · split
    · obtain ⟨h1, h2, h3, h4, h5, h6, h7, h8⟩ := hsame ((alloc_errmsg w).fs B) (congrFun hfs B)
      refine ⟨h1, h2, h3, h4, h5, h6, h7, h8, fun k hk _ => ?_⟩
      simp at hk
    · have hfs2 : (bind_slot (alloc_errmsg w) B (w.fs B) (freeslot (alloc_errmsg w))).fs B
          = { w.fs B with shared :=
                { (w.fs B).shared with readoffset := (w.fs B).shared.position } } := by
        simp [bind_slot]
      rw [hfs2]
      exact ⟨rfl, rfl, rfl, rfl, rfl, rfl, rfl, rfl, fun _ _ _ => rfl⟩

theorem dmq_init_existing_queue_witness :
    ((fresh_pair "q" MODE_NEWLINES).fs "q").mapexists = true
    ∧ ((dmq_init (fresh_pair "q" MODE_NEWLINES) "q" MODE_FRAMES).w.fs "q").shared.mode
        = MODE_NEWLINES :=
  ⟨by decide, ((dmq_init_existing_queue (fresh_pair "q" MODE_NEWLINES) "q" MODE_FRAMES
    (by decide) (by decide)).2.2.2.1).trans (by decide)⟩

/-! ## The descriptor table -/

/-- The first index below `n` that satisfies `p`. -/
theorem find_range (p : Nat → Bool) (n : Nat) :
    (∀ i, (List.range n).find? p = some i → i < n ∧ p i = true ∧ ∀ j, j < i → p j = false)
    ∧ ((List.range n).find? p = none → ∀ j, j < n → p j = false) := by
  induction n with
  | zero =>
    refine ⟨fun i h => ?_, fun _ j hj => absurd hj (Nat.not_lt_zero j)⟩
    simp at h
  | succ n ih =>
    rw [List.range_succ, List.find?_append]
    cases hf : (List.range n).find? p with
    | some k =>
      obtain ⟨h1, h2, h3⟩ := ih.1 k hf
      refine ⟨fun i h => ?_, fun h => ?_⟩
      · have h' : k = i := by simpa [Option.or] using h
        subst h'
        exact ⟨by omega, h2, h3⟩
      · simp at h
    | none =>
      have h0 := ih.2 hf
      refine ⟨fun i h => ?_, fun h j hj => ?_⟩
      · by_cases hp : p n = true
        · have h' : n = i := by simpa [Option.or, List.find?, hp] using h
          subst h'
          exact ⟨by omega, hp, h0⟩
        · simp [Option.or, List.find?, hp] at h
      · by_cases hp : p n = true
        · simp [Option.or, List.find?, hp] at h
        · by_cases hjn : j < n
          · exact h0 j hjn
          · have : j = n := by omega
            subst this
            simpa using hp

/-- The slot `freeslot` finds is the smallest unbound one; it is 20 when none is. -/
theorem freeslot_least (w : World) :
    (freeslot w < 20 → (w.sdarray (freeslot w)).sharedstate = none
      ∧ ∀ j, j < freeslot w → (w.sdarray j).sharedstate ≠ none)
    ∧ (freeslot w ≤ 20)
    ∧ ((∀ j, j < 20 → (w.sdarray j).sharedstate ≠ none) → freeslot w = 20)
    ∧ (∀ h, h < 20 → (w.sdarray h).sharedstate = none → freeslot w ≤ h) := by
  obtain ⟨f1, f2⟩ := find_range (fun i => (w.sdarray i).sharedstate.isNone) 20
  unfold freeslot
  cases hf : (List.range 20).find? (fun i => (w.sdarray i).sharedstate.isNone) with
  | some k =>
    obtain ⟨h1, h2, h3⟩ := f1 k hf
    simp only [Option.getD_some]
    refine ⟨fun _ => ⟨by simpa using h2, fun j hj => ?_⟩, by omega, fun hall => ?_, fun h hh hn => ?_⟩
    · have := h3 j hj
      intro hn
      simp [hn] at this
    · have := hall k h1
      simp at h2
      exact absurd h2 this
    · by_contra hlt
      have := h3 h (by omega)
      simp [hn] at this
  | none =>
    have h0 := f2 hf
    simp only [Option.getD_none]
    refine ⟨fun h => absurd h (lt_irrefl _), le_refl _, fun _ => trivial, fun h hh hn => ?_⟩
    have := h0 h hh
    simp [hn] at this

theorem freeslot_congr (w w2 : World) (h : w2.sdarray = w.sdarray) : freeslot w2 = freeslot w := by
  unfold freeslot
  rw [h]

theorem alloc_errmsg_sdarray (w : World) : (alloc_errmsg w).sdarray = w.sdarray := by
  unfold alloc_errmsg; split <;> rfl

/-- A `dmq_init` that finds a free slot and has defined behaviour. -/
theorem dmq_init_binds (w : World) (B : String) (m : Int) (hfree : freeslot w < 20)
    (hdef : (dmq_init w B m).ret ≠ .undefined) :
    (dmq_init w B m).ret = .ret (freeslot w)
    ∧ ((dmq_init w B m).w.sdarray (freeslot w)).sharedstate = some B
    ∧ ((dmq_init w B m).w.sdarray (freeslot w)).direction = 0
    ∧ ∀ i, i ≠ freeslot w → (dmq_init w B m).w.sdarray i = w.sdarray i := by
  have hsd := alloc_errmsg_sdarray w
  have hfs := freeslot_congr w (alloc_errmsg w) hsd
  unfold dmq_init at hdef ⊢
  dsimp only at hdef ⊢
  rw [hfs] at hdef ⊢
  rw [if_neg (by omega)] at hdef ⊢
  split
  · rename_i hu
    rw [if_pos hu] at hdef
    exact absurd rfl hdef
  · refine ⟨rfl, by simp [bind_slot], by simp [bind_slot], fun i hi => ?_⟩
    simp only [bind_slot, Function.update_noteq hi]
    rw [hsd]

/-- A `dmq_init` with every slot bound. -/
theorem dmq_init_full (w : World) (B : String) (m : Int)
    (hfull : ∀ j, j < 20 → (w.sdarray j).sharedstate ≠ none) :
    (dmq_init w B m).ret = .ret (-1) ∧ (dmq_init w B m).w.sdarray = w.sdarray := by
  have hsd := alloc_errmsg_sdarray w
  have hfs := freeslot_congr w (alloc_errmsg w) hsd
  have h20 := (freeslot_least w).2.2.1 hfull
  unfold dmq_init
  dsimp only
  rw [hfs, h20, if_pos (le_refl _)]
  exact ⟨rfl, hsd⟩

/-- C17: `dmq_init` returns the smallest index below 20 whose slot is unbound,
binds that slot with the direction uncommitted and leaves every other slot
unchanged; with all 20 slots bound it returns -1 and changes no slot; after
`dmq_free` on a bound handle the slot is unbound and no other slot has changed, so
that `dmq_send` and `dmq_receive` reject the handle as invalid, and a later
`dmq_init` returns the handle again when the slots below it are bound. -/
theorem descriptor_table (BUFSIZ fuel : Nat) (w : World) (B : String) (m h : Int)
    (data : List Byte) (slen nowait : Int) (e : Option Int) :
    (freeslot w < 20 → (dmq_init w B m).ret ≠ .undefined →
      (dmq_init w B m).ret = .ret (freeslot w)
      ∧ (w.sdarray (freeslot w)).sharedstate = none
      ∧ (∀ j, j < freeslot w → (w.sdarray j).sharedstate ≠ none)
      ∧ ((dmq_init w B m).w.sdarray (freeslot w)).sharedstate = some B
      ∧ ((dmq_init w B m).w.sdarray (freeslot w)).direction = 0
      ∧ ∀ i, i ≠ freeslot w → (dmq_init w B m).w.sdarray i = w.sdarray i)
    ∧ ((∀ j, j < 20 → (w.sdarray j).sharedstate ≠ none) →
      (dmq_init w B m).ret = .ret (-1) ∧ (dmq_init w B m).w.sdarray = w.sdarray)
    ∧ (CHECK_SDESC w h = false →
      ((dmq_free w h).w.sdarray h.toNat).sharedstate = none
      ∧ (∀ i, i ≠ h.toNat → (dmq_free w h).w.sdarray i = w.sdarray i)
      ∧ CHECK_SDESC (dmq_free w h).w h = true
      ∧ (w.dmq_errmsg ≠ none →
          (dmq_send (dmq_free w h).w h data slen).ret = .ret (-1)
          ∧ (dmq_receive BUFSIZ fuel (dmq_free w h).w h nowait e).ret = .null)
      ∧ ((∀ j, j < h.toNat → (w.sdarray j).sharedstate ≠ none) →
          (dmq_init (dmq_free w h).w B m).ret ≠ .undefined →
          (dmq_init (dmq_free w h).w B m).ret = .ret h)) := by
  refine ⟨fun hfree hdef => ?_, dmq_init_full w B m, fun hchk => ?_⟩
  · obtain ⟨h1, h2, h3, h4⟩ := dmq_init_binds w B m hfree hdef
    obtain ⟨l1, l2⟩ := (freeslot_least w).1 hfree
    exact ⟨h1, l1, l2, h2, h3, h4⟩
  · obtain ⟨c1, c2, c3⟩ := check_sdesc_false w h hchk
    have hsd : (dmq_free w h).w.sdarray = Function.update w.sdarray h.toNat
        ⟨none, (w.sdarray h.toNat).qfd0, (w.sdarray h.toNat).qfd1, 0⟩ := by
      unfold dmq_free
      rw [hchk]
      rfl
    have herrm : (dmq_free w h).w.dmq_errmsg = w.dmq_errmsg := by
      unfold dmq_free
      rw [hchk]
      rfl
    have hslot : ((dmq_free w h).w.sdarray h.toNat).sharedstate = none := by
      rw [hsd]; simp
    have hother : ∀ i, i ≠ h.toNat → (dmq_free w h).w.sdarray i = w.sdarray i := by
      intro i hi
      rw [hsd]
      exact Function.update_noteq hi _ _
    have hchk2 : CHECK_SDESC (dmq_free w h).w h = true := by
      simp [CHECK_SDESC, hslot]
    refine ⟨hslot, hother, hchk2, fun herr => ?_, fun hbelow hdef => ?_⟩
    · rw [← herrm] at herr
      obtain ⟨msg, hmsg⟩ := Option.ne_none_iff_exists'.mp herr
      constructor
      · unfold dmq_send
        rw [hchk2]
        simp [hmsg]
      · unfold dmq_receive
        rw [hchk2]
        simp [hmsg]
    · obtain ⟨l1, l2, l3, l4⟩ := freeslot_least (dmq_free w h).w
      have hle := l4 h.toNat (by omega) hslot
      have hfs : freeslot (dmq_free w h).w = h.toNat := by
        by_contra hne
        have hlt : freeslot (dmq_free w h).w < h.toNat := by omega
        have hn := (l1 (by omega)).1
        rw [hother _ hne] at hn
        exact hbelow _ hlt hn
      have hb := (dmq_init_binds _ B m (by rw [hfs]; omega) hdef).1
      rw [hb, hfs]
      congr 1
      omega

theorem descriptor_table_witness :
    freeslot (fresh_pair "q" MODE_NEWLINES) < 20
    ∧ (dmq_init (fresh_pair "q" MODE_NEWLINES) "q" MODE_NEWLINES).ret = .ret 2 :=
  ⟨by decide, ((descriptor_table 8192 2 (fresh_pair "q" MODE_NEWLINES) "q" MODE_NEWLINES 0 [] 0 0
    none).1 (by decide) (by decide)).1.trans (by decide)⟩

/-! ## The step of `dmq_read` at end of file -/

/-- C19: when the `read` in `dmq_read` returns 0 bytes, exactly one of three steps
is taken. (A) With `readtarget != writetarget` the old read file is truncated to
length 0, `readtarget` becomes `writetarget`, the new read file is at offset 0,
`readoffset` and `position` become 0, nothing else changes, and the read is tried
again. (B) With `readtarget == writetarget` and `readoffset > 100` the write target
becomes `1 - writetarget`, nothing else changes, and the consumer waits. (C) With
`readtarget == writetarget` and `readoffset <= 100` nothing changes and the
consumer waits. To wait is to return NULL with the flag 0 when `nowait != 0`, and to
sleep before the read is tried again otherwise. -/
theorem dmq_read_at_eof (fuel : Nat) (s : session) (nowait v : Int) (e : Option Int) (b : Nat)
    (hrt : s.shared.readtarget = 0 ∨ s.shared.readtarget = 1)
    (hwt : s.shared.writetarget = 0 ∨ s.shared.writetarget = 1)
    (hbuf : s.st.readiov.buf = some b)
    (henv : s.env.readfail = false)
    (hr : readlen s = 0) :
    (s.shared.readtarget ≠ s.shared.writetarget →
      dmq_read (fuel + 1) s nowait e = dmq_read fuel (after_follow s) nowait e
      ∧ qfile (after_follow s) s.shared.readtarget = []
      ∧ qfile (after_follow s) s.shared.writetarget = qfile s s.shared.writetarget
      ∧ qoff (after_follow s) s.shared.writetarget = 0
      ∧ (after_follow s).shared = { s.shared with
          readtarget := s.shared.writetarget, readoffset := 0, position := 0 }
      ∧ (after_follow s).st = s.st)
    ∧ (s.shared.readtarget = s.shared.writetarget →
      (nowait ≠ 0 → dmq_read (fuel + 1) s nowait (some v) = ⟨after_wait s, .null, some 0⟩)
      ∧ (nowait = 0 → dmq_read (fuel + 1) s nowait e = ⟨after_wait s, .sleeping, e⟩)
      ∧ (after_wait s).q0 = s.q0 ∧ (after_wait s).q1 = s.q1
      ∧ (after_wait s).qfd0 = s.qfd0 ∧ (after_wait s).qfd1 = s.qfd1
      ∧ (after_wait s).st = s.st
      ∧ (100 < s.shared.readoffset →
          (after_wait s).shared = { s.shared with writetarget := 1 - s.shared.writetarget })
      ∧ (s.shared.readoffset ≤ 100 → after_wait s = s)) := by
  refine ⟨fun hne => ?_, fun heq => ?_⟩
  · obtain ⟨g1, g2, g3, g4, g5, g6, g7, g8, g9, g10, g11⟩ := after_follow_fields s hrt hwt hne
    exact ⟨dmq_read_follow fuel s nowait e b hrt hwt hbuf henv hr hne, g11, g10, g9, rfl, g6⟩
  · obtain ⟨g1, g2, g3, g4, g5, g6, g7, g8, g9, g10, g11, g12⟩ := after_wait_fields s
    refine ⟨fun hn => ?_, fun hn => ?_, g9, g10, g11, g12, g6, fun h => ?_, fun h => ?_⟩
    · rw [dmq_read_wait fuel s nowait (some v) b hrt hbuf henv hr heq, if_pos hn]
    · rw [dmq_read_wait fuel s nowait e b hrt hbuf henv hr heq, if_neg (not_not.mpr hn)]
    · unfold after_wait
      rw [if_pos h]
    · unfold after_wait
      rw [if_neg (by omega)]

theorem dmq_read_at_eof_witness :
    readlen (attach (fresh_pair "q" MODE_NEWLINES) 1 "q") = 0
    ∧ dmq_read 1 (arm 8192 (attach (fresh_pair "q" MODE_NEWLINES) 1 "q")) 1 (some 5)
        = ⟨after_wait (arm 8192 (attach (fresh_pair "q" MODE_NEWLINES) 1 "q")), .null, some 0⟩ :=
  ⟨by decide, ((dmq_read_at_eof 0 (arm 8192 (attach (fresh_pair "q" MODE_NEWLINES) 1 "q")) 1 5
    none 8192 (by decide) (by decide) rfl (by decide) (by decide)).2 (by decide)).1 (by decide)⟩

/-! ## Lengths beyond 16 bits in Frames mode -/

/-- A Frames-mode `dmq_send` takes the length modulo 65536. -/
theorem send_frames_any_length (w : World) (sdesc : Int) (B : String) (data : List Byte)
    (slen : Int) (L : Nat)
    (hchk : CHECK_SDESC w sdesc = false)
    (hB : (w.sdarray sdesc.toNat).sharedstate = some B)
    (hdir : (w.sdarray sdesc.toNat).direction ≠ 2)
    (hfull : w.env.writev = .full)
    (hwt : (w.fs B).shared.writetarget = 0 ∨ (w.fs B).shared.writetarget = 1)
    (herr : w.dmq_errmsg ≠ none)
    (hm : (w.fs B).shared.mode = MODE_FRAMES)
    (hL : L = (slen % 65536).toNat) (hlen : L ≤ 65533) (hdata : L ≤ data.length) :
    (dmq_send w sdesc data slen).ret = .ret ((L + 2 : Nat) : Int)
    ∧ wfile ((dmq_send w sdesc data slen).w.fs B) (w.fs B).shared.writetarget
        = wfile (w.fs B) (w.fs B).shared.writetarget
            ++ [(L + 2) % 256, (L + 2) / 256] ++ data.take L
    ∧ wfile ((dmq_send w sdesc data slen).w.fs B) (1 - (w.fs B).shared.writetarget)
        = wfile (w.fs B) (1 - (w.fs B).shared.writetarget) := by
  obtain ⟨h1, h2, -⟩ := dmq_send_files w sdesc B data slen hchk hB hdir hfull hwt
  have hr := dmq_send_ret w sdesc B data slen hchk hB hdir hfull hwt herr
  have h3 : (L + 2) % 65536 = L + 2 := by omega
  have hfr : send_frame (w.fs B).shared.mode data slen
      = ([[(L + 2) % 256, (L + 2) / 256], data.take L], L + 2) := by
    simp [send_frame, hm, ← hL, h3, MODE_FRAMES, MODE_NULLS, MODE_NEWLINES]
  rw [hfr] at h1 hr
  refine ⟨?_, ?_, h2⟩
  · rw [hr, if_pos]
    · simp [List.length_take, Nat.min_eq_left hdata]
      omega
    · simp [List.length_take, Nat.min_eq_left hdata]
      omega
  · rw [h1]
    simp

/-- C13, amended: a `dmq_send` on a Frames-mode queue takes the length modulo 65536
(`len = (ushort)slen`) and reports no error for a length above 65535: when the
remainder `L` is at most 65533 and `writev` writes everything, it appends the
two-byte count `L + 2` and the first `L` bytes of the buffer and returns `L + 2`. -/
theorem dmq_send_frames_length_wraps (w : World) (sdesc : Int) (B : String) (data : List Byte)
    (slen : Int)
    (hchk : CHECK_SDESC w sdesc = false)
    (hB : (w.sdarray sdesc.toNat).sharedstate = some B)
    (hdir : (w.sdarray sdesc.toNat).direction ≠ 2)
    (hfull : w.env.writev = .full)
    (hwt : (w.fs B).shared.writetarget = 0 ∨ (w.fs B).shared.writetarget = 1)
    (herr : w.dmq_errmsg ≠ none)
    (hm : (w.fs B).shared.mode = MODE_FRAMES)
    (hbig : 65535 < slen)
    (hlen : (slen % 65536).toNat ≤ 65533) (hdata : slen ≤ data.length) :
    (dmq_send w sdesc data slen).ret = .ret (slen % 65536 + 2)
    ∧ wfile ((dmq_send w sdesc data slen).w.fs B) (w.fs B).shared.writetarget
        = wfile (w.fs B) (w.fs B).shared.writetarget
            ++ [((slen % 65536).toNat + 2) % 256, ((slen % 65536).toNat + 2) / 256]
            ++ data.take (slen % 65536).toNat
    ∧ wfile ((dmq_send w sdesc data slen).w.fs B) (1 - (w.fs B).shared.writetarget)
        = wfile (w.fs B) (1 - (w.fs B).shared.writetarget) := by
  obtain ⟨h1, h2, h3⟩ := send_frames_any_length w sdesc B data slen (slen % 65536).toNat
    hchk hB hdir hfull hwt herr hm rfl hlen (by omega)
  refine ⟨?_, h2, h3⟩
  rw [h1]
  congr 1
  omega

theorem dmq_send_frames_length_wraps_witness :
    (65535 : Int) < 65539
    ∧ (dmq_send (fresh_pair "q" MODE_FRAMES) 0 (List.replicate 65539 65) 65539).ret = .ret 5 :=
  ⟨by decide, (dmq_send_frames_length_wraps (fresh_pair "q" MODE_FRAMES) 0 "q"
    (List.replicate 65539 65) 65539 (by decide) (by decide) (by decide) (by decide) (by decide)
    (by decide) (by decide) (by decide) (by decide)
    (by rw [List.length_replicate]; decide)).1.trans (by decide)⟩

/-- A Frames-mode `dmq_send` of 65536 bytes returns 2, not -1, and appends a frame
that carries the wrapped count and no payload. -/
theorem dmq_send_frames_oversize_accepted :
    (dmq_send (fresh_pair "q" MODE_FRAMES) 0 (List.replicate 65536 65) 65536).ret = .ret 2
    ∧ wfile ((dmq_send (fresh_pair "q" MODE_FRAMES) 0 (List.replicate 65536 65) 65536).w.fs "q") 0
        = [2, 0] := by
  obtain ⟨h1, h2, -⟩ := send_frames_any_length (fresh_pair "q" MODE_FRAMES) 0 "q"
    (List.replicate 65536 65) 65536 0 (by decide) (by decide) (by decide) (by decide) (by decide)
    (by decide) (by decide) (by decide) (by decide) (Nat.zero_le _)
  refine ⟨h1, ?_⟩
  have h3 : ((fresh_pair "q" MODE_FRAMES).fs "q").shared.writetarget = 0 := by decide
  rw [h3] at h2
  rw [h2]
  decide

/-! ## Receiving in Raw mode -/

theorem findeor_raw (BUFSIZ : Nat) (buf : Nat → Byte) (a b : Int) :
    dmq_findeor BUFSIZ buf MODE_RAW a b = .aborted := by
  simp [dmq_findeor, MODE_RAW, MODE_NULLS, MODE_NEWLINES, MODE_FRAMES]

/-- In Raw mode the search ends before a second `dmq_read`. -/
theorem receive_find_raw (BUFSIZ fuel : Nat) (s : session) (nowait : Int) (e : Option Int)
    (hm : s.shared.mode = MODE_RAW) :
    (receive_find BUFSIZ fuel s nowait e).ret = .null
    ∨ (receive_find BUFSIZ fuel s nowait e).ret = .undefined
    ∨ (s.st.pos < s.st.readiov.len ∧ (receive_find BUFSIZ fuel s nowait e).ret = .aborted) := by
  unfold receive_find
  split
  · exact Or.inl rfl
  · rename_i hlt
    split
    · exact Or.inr (Or.inl rfl)
    · rw [hm, findeor_raw]
      exact Or.inr (Or.inr ⟨by omega, rfl⟩)

theorem receive_refill1_raw (BUFSIZ fuel : Nat) (s : session) (nowait : Int) (e : Option Int)
    (hm : s.shared.mode = MODE_RAW) (res : dmq_record) :
    (receive_refill1 BUFSIZ fuel s nowait e).ret ≠ .record res := by
  have hk := dmq_read_keeps fuel s nowait e
  unfold receive_refill1
  generalize dmq_read fuel s nowait e = o at hk
  rcases o with ⟨so, ro, eo⟩
  cases ro <;> dsimp only at hk ⊢
  · have hm2 : (rewind (set_iov so true)).shared.mode = MODE_RAW := by
      show so.shared.mode = _
      rw [hk.2.2.1]; exact hm
    rcases receive_find_raw BUFSIZ fuel (rewind (set_iov so true)) nowait eo hm2 with h | h | h
    · rw [h]; simp
    · rw [h]; simp
    · rw [h.2]; simp
  all_goals simp

/-- In Raw mode the body of `dmq_receive` hands out no record. -/
theorem receive_body_raw (BUFSIZ fuel : Nat) (s : session) (nowait : Int) (e : Option Int)
    (hm : s.shared.mode = MODE_RAW) (res : dmq_record) :
    (dmq_receive_body BUFSIZ fuel s nowait e).ret ≠ .record res := by
  unfold dmq_receive_body
  split
  · split <;> simp
  · split
    · simp
    · split
      · exact receive_refill1_raw BUFSIZ fuel _ nowait e
          (by show (commit s 2).shared.mode = _; rw [commit_shared]; exact hm) res
      · rcases receive_find_raw BUFSIZ fuel (commit s 2) nowait e
          (by rw [commit_shared]; exact hm) with h | h | h
        · rw [h]; simp
        · rw [h]; simp
        · rw [h.2]; simp

/-- In Raw mode, a `dmq_receive` that finds data in the read file ends in `abort()`. -/
theorem receive_body_raw_data (BUFSIZ fuel : Nat) (s : session) (nowait : Int) (e : Option Int)
    (hm : s.shared.mode = MODE_RAW) (hdir : s.direction ≠ 1) (hiov : s.st.iov = true)
    (hpos : s.st.pos = s.st.readiov.len)
    (hrt : s.shared.readtarget = 0 ∨ s.shared.readtarget = 1)
    (henv : s.env.readfail = false) (hB : 0 < BUFSIZ)
    (hdata : qoff s s.shared.readtarget < (qfile s s.shared.readtarget).length) :
    (dmq_receive_body BUFSIZ (fuel + 1) s nowait e).ret = .aborted := by
  have hiov2 : ¬ ((commit s 2).st.iov = false) := by rw [commit_st, hiov]; simp
  have hpos2 : (commit s 2).st.pos = (commit s 2).st.readiov.len := by rw [commit_st]; exact hpos
  have hlen : (arm BUFSIZ (commit s 2)).st.readiov.len = (BUFSIZ : Nat) := rfl
  have hq : qoff (arm BUFSIZ (commit s 2)) (arm BUFSIZ (commit s 2)).shared.readtarget
      = qoff s s.shared.readtarget := by
    show qoff (arm BUFSIZ (commit s 2)) (commit s 2).shared.readtarget = _
    rw [commit_shared]
    exact qoff_congr _ _ _ (commit_qfd0 s 2) (commit_qfd1 s 2)
  have hf : qfile (arm BUFSIZ (commit s 2)) (arm BUFSIZ (commit s 2)).shared.readtarget
      = qfile s s.shared.readtarget := by
    show qfile (arm BUFSIZ (commit s 2)) (commit s 2).shared.readtarget = _
    rw [commit_shared]
    exact qfile_congr _ _ _ (commit_q0 s 2) (commit_q1 s 2)
  have hrl : 0 < readlen (arm BUFSIZ (commit s 2)) := by
    apply readlen_pos BUFSIZ _ hlen hB
    rw [hq, hf]; exact hdata
  have hread := dmq_read_data fuel (arm BUFSIZ (commit s 2)) nowait e BUFSIZ
    (by rw [show (arm BUFSIZ (commit s 2)).shared = s.shared from commit_shared s 2]; exact hrt) rfl
    (by show (commit s 2).env.readfail = false; rw [commit_env]; exact henv) hrl
  unfold dmq_receive_body
  rw [if_neg hdir, if_neg hiov2, if_pos hpos2]
  unfold receive_refill1
  simp only [hread]
  have hm2 : (rewind (set_iov (after_read (arm BUFSIZ (commit s 2)) BUFSIZ) true)).shared.mode
      = MODE_RAW := by
    show (commit s 2).shared.mode = _
    rw [commit_shared]; exact hm
  unfold receive_find
  have hnl : ¬ ((rewind (set_iov (after_read (arm BUFSIZ (commit s 2)) BUFSIZ) true)).st.readiov.len
      ≤ (rewind (set_iov (after_read (arm BUFSIZ (commit s 2)) BUFSIZ) true)).st.pos) := by
    show ¬ (((readlen (arm BUFSIZ (commit s 2)) : Nat) : Int) ≤ 0)
    omega
  rw [if_neg hnl]
  have hb : (rewind (set_iov (after_read (arm BUFSIZ (commit s 2)) BUFSIZ) true)).st.readiov.buf
      = some BUFSIZ := rfl
  simp only [hb, hm2, findeor_raw]

/-! ## A record that does not fit the buffer -/

theorem readlen_full (BUFSIZ : Nat) (s : session) (hlen : s.st.readiov.len = (BUFSIZ : Nat))
    (h : qoff s s.shared.readtarget + BUFSIZ ≤ (qfile s s.shared.readtarget).length) :
    readlen s = BUFSIZ := by
  unfold readlen
  rw [hlen, Int.toNat_ofNat]
  omega

/-- The buffer after a carry-over and a refill of `BUFSIZ` bytes: the carried bytes
followed by the bytes read. -/
theorem carry_slice (BUFSIZ : Nat) (buf : Nat → Byte) (p n : Nat) (Y : List Byte)
    (hn : p + n = BUFSIZ) (hY : Y.length = BUFSIZ) :
    slice (blit (blit buf p (slice buf (BUFSIZ + p) n)) BUFSIZ Y) p (n + BUFSIZ)
      = slice buf (BUFSIZ + p) n ++ Y := by
  rw [slice_add, hn]
  congr 1
  · rw [slice_blit_off _ _ _ _ _ (Or.inl (by omega))]
    have := slice_blit_self buf p (slice buf (BUFSIZ + p) n)
    rwa [slice_length] at this
  · have := slice_blit_self (blit buf p (slice buf (BUFSIZ + p) n)) BUFSIZ Y
    rwa [hY] at this

/-- `receive_find` on a full buffer whose unread bytes and the `BUFSIZ` bytes that
follow them in the read file hold no delimiter: the record is too big. -/
theorem receive_find_too_big (BUFSIZ fuel : Nat) (s : session) (nowait : Int) (e : Option Int)
    (p n : Nat)
    (hm : s.shared.mode = MODE_NULLS ∨ s.shared.mode = MODE_NEWLINES)
    (hrt : s.shared.readtarget = 0 ∨ s.shared.readtarget = 1)
    (henv : s.env.readfail = false) (herr : s.dmq_errmsg ≠ none)
    (hpos : s.st.pos = (p : Nat)) (hlen : s.st.readiov.len = (BUFSIZ : Nat))
    (hbuf : s.st.readiov.buf = some BUFSIZ)
    (hn : p + n = BUFSIZ) (hnpos : 0 < n)
    (hun : delim s.shared.mode ∉ slice s.st.buffer (BUFSIZ + p) n)
    (hfl : qoff s s.shared.readtarget + BUFSIZ ≤ (qfile s s.shared.readtarget).length)
    (hnl : delim s.shared.mode
      ∉ ((qfile s s.shared.readtarget).drop (qoff s s.shared.readtarget)).take BUFSIZ) :
    (receive_find BUFSIZ (fuel + 1) s nowait e).ret = .null
    ∧ (receive_find BUFSIZ (fuel + 1) s nowait e).err = e.map (fun _ => 1)
    ∧ (receive_find BUFSIZ (fuel + 1) s nowait e).s.dmq_errmsg
        = some "Receive: record too big for internal buffer"
    ∧ (receive_find BUFSIZ (fuel + 1) s nowait e).s.shared.position = s.shared.position
    ∧ Wedged BUFSIZ (receive_find BUFSIZ (fuel + 1) s nowait e).s
    ∧ (receive_find BUFSIZ (fuel + 1) s nowait e).s.direction = s.direction
    ∧ (receive_find BUFSIZ (fuel + 1) s nowait e).s.q0 = s.q0
    ∧ (receive_find BUFSIZ (fuel + 1) s nowait e).s.q1 = s.q1
    ∧ (receive_find BUFSIZ (fuel + 1) s nowait e).s.shared.readtarget
        = s.shared.readtarget := by
  have hBpos : 0 < BUFSIZ := by omega
  -- the first search
  have hfind1 : dmq_findeor BUFSIZ s.st.buffer s.shared.mode ((BUFSIZ : Nat) + s.st.pos)
      ((BUFSIZ : Nat) + s.st.readiov.len) = .notfound := by
    rw [findeor_delim BUFSIZ s.st.buffer s.shared.mode _ _ (BUFSIZ + p) (BUFSIZ + BUFSIZ) hm
      (by rw [hpos]; push_cast; ring) (by rw [hlen]; push_cast; ring) (by omega)]
    have h2 : BUFSIZ + BUFSIZ - (BUFSIZ + p) = n := by omega
    rw [h2, scan_none s.st.buffer (delim s.shared.mode) n (BUFSIZ + p) hun]
  have hstep := receive_find_notfound BUFSIZ (fuel + 1) s nowait e BUFSIZ
    (by rw [hpos, hlen]; omega) hbuf hfind1 (by rw [hpos]; omega)
  -- the carry-over and the second read
  obtain ⟨c1, c2, c3, -⟩ := carry_over_fields BUFSIZ s p n hpos (by rw [hlen, hn])
  have hlen1 : (carry_over BUFSIZ s BUFSIZ).st.readiov.len = (BUFSIZ : Nat) := by rw [c3]
  have hbuf1 : (carry_over BUFSIZ s BUFSIZ).st.readiov.buf = some BUFSIZ := by rw [c3]
  have hrl : readlen (carry_over BUFSIZ s BUFSIZ) = BUFSIZ :=
    readlen_full BUFSIZ _ hlen1 hfl
  have hread := dmq_read_data fuel (carry_over BUFSIZ s BUFSIZ) nowait e BUFSIZ hrt hbuf1 henv
    (by rw [hrl]; exact hBpos)
  obtain ⟨f1, f2, f3, f4, f5, f6, f7, f8, f9, f10, f11, f12, f13, f14⟩ :=
    after_read_fields (carry_over BUFSIZ s BUFSIZ) BUFSIZ
  rw [hrl] at f9 f10
  have hY : (List.take BUFSIZ (List.drop (qoff s s.shared.readtarget)
      (qfile s s.shared.readtarget))).length = BUFSIZ := by
    rw [List.length_take, List.length_drop]
    omega
  have hbufA : (after_read (carry_over BUFSIZ s BUFSIZ) BUFSIZ).st.buffer
      = blit (blit s.st.buffer p (slice s.st.buffer (BUFSIZ + p) n)) BUFSIZ
          (List.take BUFSIZ (List.drop (qoff s s.shared.readtarget)
            (qfile s s.shared.readtarget))) := by
    rw [f10, c1]; rfl
  -- the second search
  have hfind2 : dmq_findeor BUFSIZ (after_read (carry_over BUFSIZ s BUFSIZ) BUFSIZ).st.buffer
      (after_read (carry_over BUFSIZ s BUFSIZ) BUFSIZ).shared.mode
      ((BUFSIZ : Nat) + (after_read (carry_over BUFSIZ s BUFSIZ) BUFSIZ).st.pos)
      ((BUFSIZ : Nat) + (after_read (carry_over BUFSIZ s BUFSIZ) BUFSIZ).st.readiov.len)
      = .notfound := by
    have hmA : (after_read (carry_over BUFSIZ s BUFSIZ) BUFSIZ).shared.mode = s.shared.mode := f3
    rw [hmA, findeor_delim BUFSIZ _ s.shared.mode _ _ p (BUFSIZ + BUFSIZ) hm
      (by rw [f7, c2]; ring) (by rw [f9]; push_cast; ring) (by omega)]
    have h2 : BUFSIZ + BUFSIZ - p = n + BUFSIZ := by omega
    have hno : delim s.shared.mode
        ∉ slice (after_read (carry_over BUFSIZ s BUFSIZ) BUFSIZ).st.buffer p (n + BUFSIZ) := by
      rw [hbufA, carry_slice BUFSIZ s.st.buffer p n _ hn hY]
      intro h
      rcases List.mem_append.mp h with h | h
      · exact hun h
      · exact hnl h
    rw [h2, scan_none _ (delim s.shared.mode) (n + BUFSIZ) p hno]
  have hbufA2 : (after_read (carry_over BUFSIZ s BUFSIZ) BUFSIZ).st.readiov.buf = some BUFSIZ := by
    rw [f9]; exact hbuf1
  obtain ⟨msg, hmsg⟩ := Option.ne_none_iff_exists'.mp herr
  have herrA : (after_read (carry_over BUFSIZ s BUFSIZ) BUFSIZ).dmq_errmsg = some msg := by
    rw [← hmsg]
    simp [after_read, carry_over]
  have hres : receive_find BUFSIZ (fuel + 1) s nowait e
      = ⟨set_errmsg (set_iov (after_read (carry_over BUFSIZ s BUFSIZ) BUFSIZ) true)
          "Receive: record too big for internal buffer", .null, e.map (fun _ => 1)⟩ := by
    rw [hstep]
    unfold receive_refill2
    simp only [hread, hbufA2, hfind2, herrA]
  rw [hres]
  refine ⟨rfl, rfl, rfl, rfl, ⟨⟨p, by omega, f7.trans c2⟩, ?_, rfl, hfind2⟩, ?_, ?_, ?_, f1⟩
  · show (after_read (carry_over BUFSIZ s BUFSIZ) BUFSIZ).st.readiov = _
    rw [f9, hbuf1]
  · show (after_read (carry_over BUFSIZ s BUFSIZ) BUFSIZ).direction = _
    rw [f12]; rfl
  · show (after_read (carry_over BUFSIZ s BUFSIZ) BUFSIZ).q0 = _
    rw [f5]; rfl
  · show (after_read (carry_over BUFSIZ s BUFSIZ) BUFSIZ).q1 = _
    rw [f6]; rfl

theorem mem_take_mono (L : List Byte) (a b : Nat) (x : Byte) (hab : a ≤ b)
    (h : x ∈ L.take a) : x ∈ L.take b := by
  have h1 : L.take a = (L.take b).take a := by
    rw [List.take_take, Nat.min_eq_left hab]
  rw [h1] at h
  exact List.mem_of_mem_take h

/-- The body of `dmq_receive` when the unread bytes of the buffer and the bytes
that follow them in the read file, `2 * BUFSIZ` bytes in all, hold no delimiter. -/
theorem receive_body_too_big (BUFSIZ fuel : Nat) (s : session) (nowait : Int) (e : Option Int)
    (p l : Nat)
    (hm : s.shared.mode = MODE_NULLS ∨ s.shared.mode = MODE_NEWLINES)
    (hdir : s.direction ≠ 1) (hiov : s.st.iov = true)
    (hrt : s.shared.readtarget = 0 ∨ s.shared.readtarget = 1)
    (henv : s.env.readfail = false) (herr : s.dmq_errmsg ≠ none)
    (hB : 0 < BUFSIZ)
    (hpos : s.st.pos = (p : Nat)) (hlen : s.st.readiov.len = (l : Nat)) (hpl : p ≤ l)
    (hfull : p < l → l = BUFSIZ ∧ s.st.readiov.buf = some BUFSIZ)
    (hun : delim s.shared.mode ∉ slice s.st.buffer (BUFSIZ + p) (l - p))
    (hfl : qoff s s.shared.readtarget + 2 * BUFSIZ
      ≤ (qfile s s.shared.readtarget).length + (l - p))
    (hnl : delim s.shared.mode ∉ ((qfile s s.shared.readtarget).drop
      (qoff s s.shared.readtarget)).take (2 * BUFSIZ - (l - p))) :
    (dmq_receive_body BUFSIZ (fuel + 1) s nowait e).ret = .null
    ∧ (dmq_receive_body BUFSIZ (fuel + 1) s nowait e).err = e.map (fun _ => 1)
    ∧ (dmq_receive_body BUFSIZ (fuel + 1) s nowait e).s.dmq_errmsg
        = some "Receive: record too big for internal buffer"
    ∧ (dmq_receive_body BUFSIZ (fuel + 1) s nowait e).s.shared.position
        = s.shared.position
    ∧ Wedged BUFSIZ (dmq_receive_body BUFSIZ (fuel + 1) s nowait e).s
    ∧ (dmq_receive_body BUFSIZ (fuel + 1) s nowait e).s.direction ≠ 1
    ∧ (dmq_receive_body BUFSIZ (fuel + 1) s nowait e).s.q0 = s.q0
    ∧ (dmq_receive_body BUFSIZ (fuel + 1) s nowait e).s.q1 = s.q1
    ∧ (dmq_receive_body BUFSIZ (fuel + 1) s nowait e).s.shared.readtarget
        = s.shared.readtarget := by
  have hiov2 : ¬ ((commit s 2).st.iov = false) := by rw [commit_st, hiov]; simp
  have hcd : (commit s 2).direction ≠ 1 := by
    rw [commit_direction]
    split <;> omega
  have hsh : (commit s 2).shared = s.shared := commit_shared s 2
  have hqf : ∀ t, qfile (commit s 2) t = qfile s t := fun t => qfile_commit s 2 t
  have hqo : ∀ t, qoff (commit s 2) t = qoff s t := fun t => qoff_commit s 2 t
  unfold dmq_receive_body
  rw [if_neg hdir, if_neg hiov2]
  by_cases hlt : p < l
  · obtain ⟨hlB, hbuf⟩ := hfull hlt
    have hne : ¬ ((commit s 2).st.pos = (commit s 2).st.readiov.len) := by
      rw [commit_st, hpos, hlen]
      intro h
      have : p = l := by exact_mod_cast h
      omega
    rw [if_neg hne]
    have h := receive_find_too_big BUFSIZ fuel (commit s 2) nowait e p (l - p)
      (by rw [hsh]; exact hm) (by rw [hsh]; exact hrt) (by rw [commit_env]; exact henv)
      (by rw [commit_errmsg]; exact herr) (by rw [commit_st]; exact hpos)
      (by rw [commit_st, hlen, hlB]) (by rw [commit_st]; exact hbuf) (by omega) (by omega)
      (by rw [hsh, commit_st]; exact hun)
      (by rw [hsh, hqo, hqf]; omega)
      (by
        rw [hsh, hqo, hqf]
        intro hx
        exact hnl (mem_take_mono _ _ _ _ (by omega) hx))
    obtain ⟨k1, k2, k3, k4, k5, k6, k7, k8, k9⟩ := h
    rw [hsh] at k4 k9
    exact ⟨k1, k2, k3, k4, k5, by rw [k6]; exact hcd, k7.trans (commit_q0 s 2),
      k8.trans (commit_q1 s 2), k9⟩
  · have hpl2 : p = l := by omega
    have hposlen : (commit s 2).st.pos = (commit s 2).st.readiov.len := by
      rw [commit_st, hpos, hlen, hpl2]
    rw [if_pos hposlen]
    have hlp : l - p = 0 := by omega
    rw [hlp, Nat.sub_zero] at hnl
    rw [hlp, Nat.add_zero] at hfl
    -- the first read fills the buffer
    have hA1 : (arm BUFSIZ (commit s 2)).shared = s.shared := hsh
    have hAf : ∀ t, qfile (arm BUFSIZ (commit s 2)) t = qfile s t :=
      fun t => (qfile_congr _ _ t rfl rfl).trans (hqf t)
    have hAo : ∀ t, qoff (arm BUFSIZ (commit s 2)) t = qoff s t :=
      fun t => (qoff_congr _ _ t rfl rfl).trans (hqo t)
    have hrl : readlen (arm BUFSIZ (commit s 2)) = BUFSIZ :=
      readlen_full BUFSIZ _ rfl (by rw [hA1, hAo, hAf]; omega)
    have hread := dmq_read_data fuel (arm BUFSIZ (commit s 2)) nowait e BUFSIZ
      (by rw [hA1]; exact hrt) rfl
      (by show (commit s 2).env.readfail = false; rw [commit_env]; exact henv)
      (by rw [hrl]; exact hB)
    obtain ⟨f1, f2, f3, f4, f5, f6, f7, f8, f9, f10, f11, f12, f13, f14⟩ :=
      after_read_fields (arm BUFSIZ (commit s 2)) BUFSIZ
    rw [hrl, hA1, hAo, hAf] at f10
    rw [hrl, hA1, hAo] at f13
    rw [hrl] at f9
    rw [hA1] at f1 f3
    have hY : (List.take BUFSIZ (List.drop (qoff s s.shared.readtarget)
        (qfile s s.shared.readtarget))).length = BUFSIZ := by
      rw [List.length_take, List.length_drop]
      omega
    have hsplit : List.take (2 * BUFSIZ) (List.drop (qoff s s.shared.readtarget)
        (qfile s s.shared.readtarget))
        = List.take BUFSIZ (List.drop (qoff s s.shared.readtarget) (qfile s s.shared.readtarget))
          ++ List.take BUFSIZ (List.drop (qoff s s.shared.readtarget + BUFSIZ)
              (qfile s s.shared.readtarget)) := by
      rw [two_mul, List.take_add, List.drop_drop]
    rw [hsplit] at hnl
    have hSm : (rewind (set_iov (after_read (arm BUFSIZ (commit s 2)) BUFSIZ) true)).shared.mode
        = s.shared.mode := f3
    have hSr : (rewind (set_iov (after_read (arm BUFSIZ (commit s 2)) BUFSIZ) true)).shared.readtarget
        = s.shared.readtarget := f1
    have hSp : (rewind (set_iov (after_read (arm BUFSIZ (commit s 2)) BUFSIZ) true)).shared.position
        = s.shared.position := by
      show (commit s 2).shared.position = _
      rw [hsh]
    have hS := receive_find_too_big BUFSIZ fuel
      (rewind (set_iov (after_read (arm BUFSIZ (commit s 2)) BUFSIZ) true)) nowait e 0 BUFSIZ
      (by rw [hSm]; exact hm)
      (by rw [hSr]; exact hrt)
      (by show (after_read (arm BUFSIZ (commit s 2)) BUFSIZ).env.readfail = false
          rw [f11]
          show (commit s 2).env.readfail = false
          rw [commit_env]; exact henv)
      (by show (after_read (arm BUFSIZ (commit s 2)) BUFSIZ).dmq_errmsg ≠ none
          have : (after_read (arm BUFSIZ (commit s 2)) BUFSIZ).dmq_errmsg = s.dmq_errmsg := by
            rw [← commit_errmsg s 2]
            simp [after_read, arm]
          rw [this]; exact herr)
      rfl
      (by show (after_read (arm BUFSIZ (commit s 2)) BUFSIZ).st.readiov.len = _
          rw [f9])
      (by show (after_read (arm BUFSIZ (commit s 2)) BUFSIZ).st.readiov.buf = _
          rw [f9]; rfl)
      (by omega) hB
      (by show delim (after_read (arm BUFSIZ (commit s 2)) BUFSIZ).shared.mode
              ∉ slice (after_read (arm BUFSIZ (commit s 2)) BUFSIZ).st.buffer (BUFSIZ + 0) BUFSIZ
          rw [f3, f10, Nat.add_zero]
          have := slice_blit_self (arm BUFSIZ (commit s 2)).st.buffer BUFSIZ
            (List.take BUFSIZ (List.drop (qoff s s.shared.readtarget)
              (qfile s s.shared.readtarget)))
          rw [hY] at this
          rw [this]
          exact fun h => hnl (List.mem_append_left _ h))
      (by show qoff (after_read (arm BUFSIZ (commit s 2)) BUFSIZ)
              (after_read (arm BUFSIZ (commit s 2)) BUFSIZ).shared.readtarget + BUFSIZ
            ≤ (qfile (after_read (arm BUFSIZ (commit s 2)) BUFSIZ)
                (after_read (arm BUFSIZ (commit s 2)) BUFSIZ).shared.readtarget).length
          rw [f1, f13, f14, hAf]; omega)
      (by show delim (after_read (arm BUFSIZ (commit s 2)) BUFSIZ).shared.mode
              ∉ ((qfile (after_read (arm BUFSIZ (commit s 2)) BUFSIZ)
                  (after_read (arm BUFSIZ (commit s 2)) BUFSIZ).shared.readtarget).drop
                (qoff (after_read (arm BUFSIZ (commit s 2)) BUFSIZ)
                  (after_read (arm BUFSIZ (commit s 2)) BUFSIZ).shared.readtarget)).take BUFSIZ
          rw [f3, f1, f13, f14, hAf]
          exact fun h => hnl (List.mem_append_right _ h))
    have hSd : (rewind (set_iov (after_read (arm BUFSIZ (commit s 2)) BUFSIZ) true)).direction
        = (commit s 2).direction := f12
    have hS0 : (rewind (set_iov (after_read (arm BUFSIZ (commit s 2)) BUFSIZ) true)).q0
        = s.q0 := f5.trans (commit_q0 s 2)
    have hS1 : (rewind (set_iov (after_read (arm BUFSIZ (commit s 2)) BUFSIZ) true)).q1
        = s.q1 := f6.trans (commit_q1 s 2)
    obtain ⟨k1, k2, k3, k4, k5, k6, k7, k8, k9⟩ := hS
    rw [hSp] at k4
    rw [hSr] at k9
    unfold receive_refill1
    simp only [hread]
    exact ⟨k1, k2, k3, k4, k5, by rw [k6, hSd]; exact hcd, k7.trans hS0, k8.trans hS1, k9⟩

/-- The first failure of a descriptor: in Newlines mode, when `pos` is not negative
and the bytes a consumer descriptor has not handed out yet (the unread bytes of a
full buffer, then the read-target file from the descriptor's offset on) start with
`2 * BUFSIZ` bytes that hold no 0x0A, `dmq_receive` returns NULL, sets the flag to
1, leaves the message "Receive: record too big for internal buffer" in
`dmq_errmsg`, and hands out no record (`position` stays). -/
theorem receive_record_too_big (BUFSIZ fuel : Nat) (w : World) (c : Nat) (B : String)
    (nowait v : Int) (p l : Nat)
    (hslot : c < 20) (hbound : (w.sdarray c).sharedstate = some B)
    (hdir : (w.sdarray c).direction ≠ 1)
    (hm : (w.fs B).shared.mode = MODE_NEWLINES)
    (hrt : (w.fs B).shared.readtarget = 0 ∨ (w.fs B).shared.readtarget = 1)
    (henv : w.env.readfail = false) (herr : w.dmq_errmsg ≠ none) (hiov : w.st.iov = true)
    (hB : 0 < BUFSIZ)
    (hpos : w.st.pos = (p : Nat)) (hlen : w.st.readiov.len = (l : Nat)) (hpl : p ≤ l)
    (hfull : p < l → l = BUFSIZ ∧ w.st.readiov.buf = some BUFSIZ)
    (hun : 10 ∉ slice w.st.buffer (BUFSIZ + p) (l - p))
    (hfl : qoff (attach w c B) (w.fs B).shared.readtarget + 2 * BUFSIZ
      ≤ (wfile (w.fs B) (w.fs B).shared.readtarget).length + (l - p))
    (hnl : 10 ∉ ((wfile (w.fs B) (w.fs B).shared.readtarget).drop
      (qoff (attach w c B) (w.fs B).shared.readtarget)).take (2 * BUFSIZ - (l - p))) :
    (dmq_receive BUFSIZ (fuel + 1) w c nowait (some v)).ret = .null
    ∧ (dmq_receive BUFSIZ (fuel + 1) w c nowait (some v)).err = some 1
    ∧ (dmq_receive BUFSIZ (fuel + 1) w c nowait (some v)).w.dmq_errmsg
        = some "Receive: record too big for internal buffer"
    ∧ ((dmq_receive BUFSIZ (fuel + 1) w c nowait (some v)).w.fs B).shared.position
        = (w.fs B).shared.position := by
  have hchk := check_sdesc_bound w c B hslot hbound
  have hB2 : (w.sdarray ((c : Int)).toNat).sharedstate = some B := by
    rw [Int.toNat_ofNat]; exact hbound
  have hbnd := dmq_receive_bound BUFSIZ (fuel + 1) w c B nowait (some v) hchk hB2
  rw [Int.toNat_ofNat] at hbnd
  have hdl : delim (attach w c B).shared.mode = 10 := by
    show delim (w.fs B).shared.mode = 10
    rw [hm]; rfl
  obtain ⟨h1, h2, h3, h4, -⟩ := receive_body_too_big BUFSIZ fuel (attach w c B) nowait (some v) p l
    (Or.inr hm) hdir hiov hrt henv herr hB hpos hlen hpl hfull (by rw [hdl]; exact hun) hfl
    (by rw [hdl]; exact hnl)
  obtain ⟨d1, d2, d3, d4, d5, d6, d7, d8, d9⟩ := detach_facts w c B
    (dmq_receive_body BUFSIZ (fuel + 1) (attach w c B) nowait (some v)).s
  rw [hbnd]
  refine ⟨h1, h2, h3, ?_⟩
  dsimp only
  rw [d6]
  exact h4

theorem receive_record_too_big_witness :
    (wfile ((dmq_send (fresh_pair "q" MODE_NEWLINES) 0 [1, 2, 3, 4, 5, 6, 7, 8] 8).w.fs "q") 0
        = [1, 2, 3, 4, 5, 6, 7, 8, 10])
    ∧ (dmq_receive 4 2 (dmq_send (fresh_pair "q" MODE_NEWLINES) 0 [1, 2, 3, 4, 5, 6, 7, 8] 8).w
        1 0 (some 0)).err = some 1 :=
  ⟨by decide, (receive_record_too_big 4 1
    (dmq_send (fresh_pair "q" MODE_NEWLINES) 0 [1, 2, 3, 4, 5, 6, 7, 8] 8).w 1 "q" 0 0 0 0
    (by decide) (by decide) (by decide) (by decide) (by decide) (by decide) (by decide)
    (by decide) (by decide) (by decide) (by decide) (by decide)
    (fun h => absurd h (by decide)) (by decide) (by decide) (by decide)).2.1⟩

/-- A `dmq_receive` that starts from the statics a "record too big" failure left:
the search fails again and the `memcpy` of line 307 has its destination
`iov->buf + pos - BUFSIZ` before the start of `buffer`. -/
theorem wedged_undefined (BUFSIZ fuel : Nat) (s : session) (nowait : Int) (e : Option Int)
    (hw : Wedged BUFSIZ s) (hdir : s.direction ≠ 1) :
    (dmq_receive_body BUFSIZ fuel s nowait e).ret = .undefined := by
  obtain ⟨q, hq, hpos⟩ := hw.pos
  have hlen : s.st.readiov.len = (BUFSIZ : Nat) := by rw [hw.readiov]
  have hbuf : s.st.readiov.buf = some BUFSIZ := by rw [hw.readiov]
  have hiov2 : ¬ ((commit s 2).st.iov = false) := by rw [commit_st, hw.iov]; simp
  have hne : ¬ ((commit s 2).st.pos = (commit s 2).st.readiov.len) := by
    rw [commit_st, hpos, hlen]; omega
  have hnl : ¬ ((commit s 2).st.readiov.len ≤ (commit s 2).st.pos) := by
    rw [commit_st, hpos, hlen]; omega
  have hb2 : (commit s 2).st.readiov.buf = some BUFSIZ := by rw [commit_st]; exact hbuf
  have hscan : dmq_findeor BUFSIZ (commit s 2).st.buffer (commit s 2).shared.mode
      ((BUFSIZ : Nat) + (commit s 2).st.pos) ((BUFSIZ : Nat) + (commit s 2).st.readiov.len)
      = .notfound := by
    rw [commit_st, commit_shared]; exact hw.scan
  have hdst : ((BUFSIZ : Nat) : Int) + (commit s 2).st.pos - (BUFSIZ : Nat) < 0 := by
    rw [commit_st, hpos]; omega
  unfold dmq_receive_body
  rw [if_neg hdir, if_neg hiov2, if_neg hne]
  unfold receive_find
  rw [if_neg hnl]
  simp only [hb2, hscan]
  rw [if_pos hdst]

/-- A `dmq_send` leaves `dmq_errmsg` allocated. -/
theorem send_body_errmsg (s : session) (data : List Byte) (slen : Int)
    (herr : s.dmq_errmsg ≠ none) : (dmq_send_body s data slen).s.dmq_errmsg ≠ none := by
  obtain ⟨m, hm⟩ := Option.ne_none_iff_exists'.mp herr
  unfold dmq_send_body
  simp only [commit_errmsg, commit_shared, commit_env]
  split_ifs <;> simp [hm, set_errmsg, after_write, commit_errmsg, setoff, setfile] <;>
    split_ifs <;> simp [hm, commit_errmsg]

/-- The state after one record has been sent on a fresh Newlines queue, seen from
the consumer descriptor. -/
theorem fresh_send_state (B : String) (data : List Byte) (n : Int)
    (hn : n = (data.length : Nat)) (hlt : data.length ≤ 65535) :
    ((dmq_send (fresh_pair B MODE_NEWLINES) 0 data n).w.sdarray 1).sharedstate = some B
    ∧ ((dmq_send (fresh_pair B MODE_NEWLINES) 0 data n).w.sdarray 1).direction ≠ 1
    ∧ ((dmq_send (fresh_pair B MODE_NEWLINES) 0 data n).w.fs B).shared.mode = MODE_NEWLINES
    ∧ ((dmq_send (fresh_pair B MODE_NEWLINES) 0 data n).w.fs B).shared.readtarget = 0
    ∧ (dmq_send (fresh_pair B MODE_NEWLINES) 0 data n).w.env.readfail = false
    ∧ (dmq_send (fresh_pair B MODE_NEWLINES) 0 data n).w.dmq_errmsg ≠ none
    ∧ (dmq_send (fresh_pair B MODE_NEWLINES) 0 data n).w.st = statics0
    ∧ wfile ((dmq_send (fresh_pair B MODE_NEWLINES) 0 data n).w.fs B) 0 = data ++ [10]
    ∧ qoff (attach (dmq_send (fresh_pair B MODE_NEWLINES) 0 data n).w 1 B) 0 = 0 := by
  obtain ⟨hp, -, hsh, -⟩ := fresh_pair_idle 8192 B MODE_NEWLINES (Or.inr rfl)
  have hwt : ((fresh_pair B MODE_NEWLINES).fs B).shared.writetarget = 0
      ∨ ((fresh_pair B MODE_NEWLINES).fs B).shared.writetarget = 1 := by
    rw [hsh]; exact Or.inl rfl
  obtain ⟨v1, v2, v3, v4, v5, v6, v7, v8, v9⟩ := dmq_send_view (fresh_pair B MODE_NEWLINES) 0 1 B
    data n (by decide) hp hwt
  have e0 : ((0 : Nat) : Int) = 0 := rfl
  rw [e0] at v1 v2 v3 v4 v6 v8
  clear v5 v7 v9
  have hfr : (send_frame ((fresh_pair B MODE_NEWLINES).fs B).shared.mode data n).1.flatten
      = data ++ [10] := by
    rw [hsh]
    have h1 : (n % 65536).toNat = data.length := by omega
    simp [send_frame, newheader, h1]
  have hwt0 : ((fresh_pair B MODE_NEWLINES).fs B).shared.writetarget = 0 := by rw [hsh]; rfl
  rw [hfr, hwt0] at v6
  have herr : (dmq_send (fresh_pair B MODE_NEWLINES) 0 data n).w.dmq_errmsg ≠ none := by
    rw [dmq_send_bound (fresh_pair B MODE_NEWLINES) 0 B data n (by simp [CHECK_SDESC]) (by simp)]
    exact send_body_errmsg _ data n (by simp [attach])
  refine ⟨by rw [v8]; simp, by rw [v8]; simp, ?_, ?_, ?_, herr, ?_, ?_, ?_⟩
  · have : (attach (dmq_send (fresh_pair B MODE_NEWLINES) 0 data n).w 1 B).shared.mode
        = MODE_NEWLINES := by rw [v1]; simp [attach, newheader]
    exact this
  · have : (attach (dmq_send (fresh_pair B MODE_NEWLINES) 0 data n).w 1 B).shared.readtarget
        = 0 := by rw [v1]; simp [attach, newheader]
    exact this
  · have : (attach (dmq_send (fresh_pair B MODE_NEWLINES) 0 data n).w 1 B).env.readfail
        = false := by rw [v3]; simp [attach, nofault]
    exact this
  · have : (attach (dmq_send (fresh_pair B MODE_NEWLINES) 0 data n).w 1 B).st = statics0 := by
      rw [v2]; simp [attach]
    exact this
  · have : qfile (attach (dmq_send (fresh_pair B MODE_NEWLINES) 0 data n).w 1 B) 0
        = data ++ [10] := by rw [v6]; simp [attach, qfile]
    exact this
  · have : (attach (dmq_send (fresh_pair B MODE_NEWLINES) 0 data n).w 1 B).qfd0 = 0 := by
      rw [v4]; simp [attach]
    exact this

theorem not_mem_take_long (data : List Byte) (k : Nat) (h : 10 ∉ data) (hk : k ≤ data.length) :
    10 ∉ ((data ++ [10]).drop 0).take k := by
  rw [List.drop_zero, List.take_append_of_le_length hk]
  exact fun hm => h (List.mem_of_mem_take hm)

theorem long_record_state :
    (long_record.sdarray 1).sharedstate = some "q"
    ∧ (long_record.sdarray 1).direction ≠ 1
    ∧ (long_record.fs "q").shared.mode = MODE_NEWLINES
    ∧ (long_record.fs "q").shared.readtarget = 0
    ∧ long_record.env.readfail = false
    ∧ long_record.dmq_errmsg ≠ none
    ∧ long_record.st = statics0
    ∧ wfile (long_record.fs "q") 0 = List.replicate 20000 120 ++ [10]
    ∧ qoff (attach long_record 1 "q") 0 = 0 :=
  fresh_send_state "q" (List.replicate 20000 120) 20000
    (by rw [List.length_replicate]; rfl) (by rw [List.length_replicate]; decide)

/-- C12, failing input: two calls of `dmq_receive` on a record that does not fit.
In Newlines mode, when the bytes a consumer descriptor has not handed out yet (the
unread bytes of a full buffer, then the read-target file from the descriptor's
offset on) start with `2 * BUFSIZ` bytes that hold no 0x0A, a first `dmq_receive`
returns NULL with the flag 1 and the message "Receive: record too big for internal
buffer", and leaves the queue as it was (position, read target, both files). The
read-target file from the consumer's position on is then what it was, yet the next
`dmq_receive` on the descriptor returns nothing: its behaviour is undefined,
because line 308 left `pos` `BUFSIZ` too low and the `memcpy` of line 307 writes
before the start of `buffer`. -/
theorem receive_too_big_twice (BUFSIZ fuel fuel2 : Nat) (w : World) (c : Nat) (B : String)
    (nowait v nowait2 : Int) (e2 : Option Int) (p l : Nat)
    (hslot : c < 20) (hbound : (w.sdarray c).sharedstate = some B)
    (hdir : (w.sdarray c).direction ≠ 1)
    (hm : (w.fs B).shared.mode = MODE_NEWLINES)
    (hrt : (w.fs B).shared.readtarget = 0 ∨ (w.fs B).shared.readtarget = 1)
    (henv : w.env.readfail = false) (herr : w.dmq_errmsg ≠ none) (hiov : w.st.iov = true)
    (hB : 0 < BUFSIZ)
    (hpos : w.st.pos = (p : Nat)) (hlen : w.st.readiov.len = (l : Nat)) (hpl : p ≤ l)
    (hfull : p < l → l = BUFSIZ ∧ w.st.readiov.buf = some BUFSIZ)
    (hun : 10 ∉ slice w.st.buffer (BUFSIZ + p) (l - p))
    (hfl : qoff (attach w c B) (w.fs B).shared.readtarget + 2 * BUFSIZ
      ≤ (wfile (w.fs B) (w.fs B).shared.readtarget).length + (l - p))
    (hnl : 10 ∉ ((wfile (w.fs B) (w.fs B).shared.readtarget).drop
      (qoff (attach w c B) (w.fs B).shared.readtarget)).take (2 * BUFSIZ - (l - p))) :
    (dmq_receive BUFSIZ (fuel + 1) w c nowait (some v)).ret = .null
    ∧ (dmq_receive BUFSIZ (fuel + 1) w c nowait (some v)).err = some 1
    ∧ (dmq_receive BUFSIZ (fuel + 1) w c nowait (some v)).w.dmq_errmsg
        = some "Receive: record too big for internal buffer"
    ∧ ((dmq_receive BUFSIZ (fuel + 1) w c nowait (some v)).w.fs B).shared.position
        = (w.fs B).shared.position
    ∧ ((dmq_receive BUFSIZ (fuel + 1) w c nowait (some v)).w.fs B).shared.readtarget
        = (w.fs B).shared.readtarget
    ∧ ((dmq_receive BUFSIZ (fuel + 1) w c nowait (some v)).w.fs B).q0 = (w.fs B).q0
    ∧ ((dmq_receive BUFSIZ (fuel + 1) w c nowait (some v)).w.fs B).q1 = (w.fs B).q1
    ∧ (dmq_receive BUFSIZ fuel2 (dmq_receive BUFSIZ (fuel + 1) w c nowait (some v)).w c
        nowait2 e2).ret = .undefined := by
  have hchk := check_sdesc_bound w c B hslot hbound
  have hB2 : (w.sdarray ((c : Int)).toNat).sharedstate = some B := by
    rw [Int.toNat_ofNat]; exact hbound
  have hbnd := dmq_receive_bound BUFSIZ (fuel + 1) w c B nowait (some v) hchk hB2
  rw [Int.toNat_ofNat] at hbnd
  have hdl : delim (attach w c B).shared.mode = 10 := by
    show delim (w.fs B).shared.mode = 10
    rw [hm]; rfl
  obtain ⟨h1, h2, h3, h4, h5, h6, h7, h8, h9⟩ := receive_body_too_big BUFSIZ fuel (attach w c B)
    nowait (some v) p l (Or.inr hm) hdir hiov hrt henv herr hB hpos hlen hpl hfull
    (by rw [hdl]; exact hun) hfl (by rw [hdl]; exact hnl)
  obtain ⟨d1, d2, d3, d4, d5, d6, d7, d8, d9⟩ := detach_facts w c B
    (dmq_receive_body BUFSIZ (fuel + 1) (attach w c B) nowait (some v)).s
  rw [hbnd]
  dsimp only
  refine ⟨h1, h2, h3, by rw [d6]; exact h4, by rw [d6]; exact h9, by rw [d7]; exact h7,
    by rw [d8]; exact h8, ?_⟩
  have hchk3 := check_sdesc_bound _ c B hslot d2
  have hB3 : ((detach w c B (dmq_receive_body BUFSIZ (fuel + 1) (attach w c B) nowait
      (some v)).s).sdarray ((c : Int)).toNat).sharedstate = some B := by
    rw [Int.toNat_ofNat]; exact d2
  rw [dmq_receive_bound BUFSIZ fuel2 _ c B nowait2 e2 hchk3 hB3, Int.toNat_ofNat]
  dsimp only
  rw [d1]
  exact wedged_undefined BUFSIZ fuel2 _ nowait2 e2 h5 h6

theorem receive_too_big_twice_witness :
    wfile (long_record.fs "q") 0 = List.replicate 20000 120 ++ [10]
    ∧ (dmq_receive 8192 2 long_record 1 0 (some 0)).ret = .null
    ∧ (dmq_receive 8192 2 long_record 1 0 (some 0)).err = some 1
    ∧ (dmq_receive 8192 2 (dmq_receive 8192 2 long_record 1 0 (some 0)).w 1 0 (some 0)).ret
        = .undefined := by
  obtain ⟨s1, s2, s3, s4, s5, s6, s7, s8, s9⟩ := long_record_state
  have hun : 10 ∉ slice long_record.st.buffer (8192 + 0) (0 - 0) := by
    rw [Nat.sub_self, slice_zero]; exact List.not_mem_nil 10
  have hfl : qoff (attach long_record 1 "q") (long_record.fs "q").shared.readtarget + 2 * 8192
      ≤ (wfile (long_record.fs "q") (long_record.fs "q").shared.readtarget).length + (0 - 0) := by
    rw [s4, s9, s8, List.length_append, List.length_replicate]; decide
  have hnl : 10 ∉ ((wfile (long_record.fs "q") (long_record.fs "q").shared.readtarget).drop
      (qoff (attach long_record 1 "q") (long_record.fs "q").shared.readtarget)).take
        (2 * 8192 - (0 - 0)) := by
    rw [s4, s9, s8]
    exact not_mem_take_long _ _ (fun h => absurd (List.eq_of_mem_replicate h) (by decide))
      (by rw [List.length_replicate]; decide)
  have h := receive_too_big_twice 8192 1 2 long_record 1 "q" 0 0 0 (some 0) 0 0 (by decide)
    s1 s2 s3 (Or.inl s4) s5 s6 (by rw [s7]; rfl) (by decide) (by rw [s7]; rfl)
    (by rw [s7]; rfl) (le_refl 0) (fun h => absurd h (by decide)) hun hfl hnl
  exact ⟨s8, h.1, h.2.1, h.2.2.2.2.2.2.2⟩

/-- C18, amended: on a Raw-mode queue `dmq_receive` hands out no record, and a call
that finds data in the read file does not return NULL with the flag 1: it ends in
the `abort()` of `dmq_findeor`, which terminates the process. -/
theorem dmq_receive_raw (BUFSIZ fuel : Nat) (w : World) (c : Nat) (B : String)
    (nowait : Int) (e : Option Int)
    (hslot : c < 20) (hbound : (w.sdarray c).sharedstate = some B)
    (hm : (w.fs B).shared.mode = MODE_RAW) :
    (∀ res, (dmq_receive BUFSIZ fuel w c nowait e).ret ≠ .record res)
    ∧ ((w.sdarray c).direction ≠ 1 → w.st.iov = true → w.st.pos = w.st.readiov.len →
        ((w.fs B).shared.readtarget = 0 ∨ (w.fs B).shared.readtarget = 1) →
        w.env.readfail = false → 0 < BUFSIZ →
        qoff (attach w c B) (w.fs B).shared.readtarget
          < (wfile (w.fs B) (w.fs B).shared.readtarget).length →
        (dmq_receive BUFSIZ (fuel + 1) w c nowait e).ret = .aborted) := by
  have hchk := check_sdesc_bound w c B hslot hbound
  have hB2 : (w.sdarray ((c : Int)).toNat).sharedstate = some B := by
    rw [Int.toNat_ofNat]; exact hbound
  refine ⟨fun res => ?_, fun hdir hiov hpos hrt henv hB hdata => ?_⟩
  · rw [dmq_receive_bound BUFSIZ fuel w c B nowait e hchk hB2, Int.toNat_ofNat]
    exact receive_body_raw BUFSIZ fuel (attach w c B) nowait e hm res
  · rw [dmq_receive_bound BUFSIZ (fuel + 1) w c B nowait e hchk hB2, Int.toNat_ofNat]
    exact receive_body_raw_data BUFSIZ fuel (attach w c B) nowait e hm hdir hiov hpos hrt henv hB
      hdata

theorem dmq_receive_raw_witness :
    (raw_one.fs "q").shared.mode = MODE_RAW
    ∧ ∀ res, (dmq_receive 8192 2 raw_one 1 0 none).ret ≠ .record res :=
  ⟨by decide, (dmq_receive_raw 8192 2 raw_one 1 "q" 0 none (by decide) (by decide)
    (by decide)).1⟩

/-- On a Raw-mode queue that holds the byte "x", a non-blocking `dmq_receive` with
a flag to report through does not return NULL: the call ends in `abort()`. -/
theorem dmq_receive_raw_aborts :
    wfile (raw_one.fs "q") 0 = [120]
    ∧ (dmq_receive 8192 2 raw_one 1 1 (some 0)).ret = .aborted
    ∧ (dmq_receive 8192 2 raw_one 1 1 (some 0)).ret ≠ .null
    ∧ (dmq_receive 8192 2 raw_one 1 1 (some 0)).err ≠ some 1 := by
  decide

/-! ## Evaluations: flags, shared receive state, late attach -/

/-- C11, failing input: `dmq_receive` on a handle that is out of range or unbound
returns NULL with the message "Invalid descriptor" and leaves the caller's flag as
it was (0 stays 0, 7 stays 7), so a flag of 0 does not mean would-block; the
direction violation, next to it, sets the flag to 1. -/
theorem receive_invalid_handle_keeps_flag :
    (dmq_receive 8192 2 (fresh_pair "q" MODE_NEWLINES) 5 1 (some 0)).ret = .null
    ∧ (dmq_receive 8192 2 (fresh_pair "q" MODE_NEWLINES) 5 1 (some 0)).err = some 0
    ∧ (dmq_receive 8192 2 (fresh_pair "q" MODE_NEWLINES) 5 1 (some 0)).w.dmq_errmsg
        = some "Invalid descriptor"
    ∧ (dmq_receive 8192 2 (fresh_pair "q" MODE_NEWLINES) (-1) 0 (some 0)).ret = .null
    ∧ (dmq_receive 8192 2 (fresh_pair "q" MODE_NEWLINES) (-1) 0 (some 0)).err = some 0
    ∧ (dmq_receive 8192 2 (fresh_pair "q" MODE_NEWLINES) 20 0 (some 7)).err = some 7
    ∧ (dmq_receive 8192 2 (dmq_send (fresh_pair "q" MODE_NEWLINES) 0 [120] 1).w 0 1 (some 0)).ret
        = .null
    ∧ (dmq_receive 8192 2 (dmq_send (fresh_pair "q" MODE_NEWLINES) 0 [120] 1).w 0 1 (some 0)).err
        = some 1 := by
  decide

/-- C16, failing inputs: with "x", "y" on queue "a" and "z" on queue "b", after a
`dmq_receive` on the consumer of "a" has handed out "x", the first `dmq_receive`
on the consumer of "b" hands out "y", a record of queue "a", and writes 0 as the
position of "b"; and after `dmq_free` and `dmq_init` on one queue the next
`dmq_receive` serves "y" from the buffer the freed descriptor left, writes the
position 2 where the next record starts at 4, and the call after it hands out "y"
a second time. -/
theorem receive_state_shared_between_descriptors :
    wfile (two_queues.fs "a") 0 = [120, 10, 121, 10]
    ∧ wfile (two_queues.fs "b") 0 = [122, 10]
    ∧ (dmq_receive 8192 2 two_queues 2 0 (some 0)).ret = .record ⟨8192, 8193⟩
    ∧ record_bytes (dmq_receive 8192 2 two_queues 2 0 (some 0)).w.st ⟨8192, 8193⟩ = [120]
    ∧ (dmq_receive 8192 2 (dmq_receive 8192 2 two_queues 2 0 (some 0)).w 3 0 (some 0)).ret
        = .record ⟨8194, 8195⟩
    ∧ record_bytes (dmq_receive 8192 2 (dmq_receive 8192 2 two_queues 2 0 (some 0)).w 3 0
        (some 0)).w.st ⟨8194, 8195⟩ = [121]
    ∧ ((dmq_receive 8192 2 (dmq_receive 8192 2 two_queues 2 0 (some 0)).w 3 0
        (some 0)).w.fs "b").shared.position = 0
    ∧ (reattached 8192).ret = .ret 1
    ∧ ((reattached 8192).w.fs "q").shared.position = 2
    ∧ (dmq_receive 8192 2 (reattached 8192).w 1 0 (some 0)).ret = .record ⟨8194, 8195⟩
    ∧ ((dmq_receive 8192 2 (reattached 8192).w 1 0 (some 0)).w.fs "q").shared.position = 2
    ∧ (dmq_receive 8192 2 (dmq_receive 8192 2 (reattached 8192).w 1 0 (some 0)).w 1 0
        (some 0)).ret = .record ⟨8192, 8193⟩
    ∧ record_bytes (dmq_receive 8192 2 (dmq_receive 8192 2 (reattached 8192).w 1 0
        (some 0)).w 1 0 (some 0)).w.st ⟨8192, 8193⟩ = [121] := by
  decide

/-- C20, failing input: on a fresh Newlines queue with "a", "b", "cde" sent and "a"
received, a further `dmq_init` sets the read offset back to 2 while the consumer
holds six unread bytes; the next `dmq_receive` hands out "b" and writes the
position `2 - 8 + 4` in `size_t` arithmetic, that is `2 ^ 64 - 2`: above the read
offset 2, above the size 8 of the read file, and not the offset 4 of "cde". -/
theorem late_attach_breaks_position :
    (attached_late 8192).ret = .ret 2
    ∧ ((attached_late 8192).w.fs "q").shared.position = 2
    ∧ ((attached_late 8192).w.fs "q").shared.readoffset = 2
    ∧ (dmq_receive 8192 2 (attached_late 8192).w 1 0 (some 0)).ret = .record ⟨8194, 8195⟩
    ∧ record_bytes (dmq_receive 8192 2 (attached_late 8192).w 1 0 (some 0)).w.st ⟨8194, 8195⟩
        = [98]
    ∧ ((dmq_receive 8192 2 (attached_late 8192).w 1 0 (some 0)).w.fs "q").shared.position
        = 2 ^ 64 - 2
    ∧ ((dmq_receive 8192 2 (attached_late 8192).w 1 0 (some 0)).w.fs "q").shared.readoffset = 2
    ∧ (wfile ((dmq_receive 8192 2 (attached_late 8192).w 1 0 (some 0)).w.fs "q") 0).length = 8 := by
  decide

/-! ## Evaluations: a second poll, a late attach and the position -/

/-- C9, failing input: on a freshly created queue, with both files empty and
nothing sent, a first `dmq_receive` with `nowait != 0` returns NULL with the flag 0
and leaves the header and both files as they were, so that the queue is still as
the premise describes it; a second `dmq_receive` on the descriptor, whatever its
`nowait`, dereferences the NULL pointer the first one stored in the static `iov`. -/
theorem receive_second_poll_undefined (BUFSIZ fuel fuel2 : Nat) (B : String)
    (m nowait v nowait2 : Int) (e2 : Option Int) (hn : nowait ≠ 0) :
    (dmq_receive BUFSIZ (fuel + 1) (fresh_pair B m) 1 nowait (some v)).ret = .null
    ∧ (dmq_receive BUFSIZ (fuel + 1) (fresh_pair B m) 1 nowait (some v)).err = some 0
    ∧ ((dmq_receive BUFSIZ (fuel + 1) (fresh_pair B m) 1 nowait (some v)).w.fs B).shared
        = ((fresh_pair B m).fs B).shared
    ∧ ((dmq_receive BUFSIZ (fuel + 1) (fresh_pair B m) 1 nowait (some v)).w.fs B).q0 = []
    ∧ ((dmq_receive BUFSIZ (fuel + 1) (fresh_pair B m) 1 nowait (some v)).w.fs B).q1 = []
    ∧ (dmq_receive BUFSIZ fuel2
        (dmq_receive BUFSIZ (fuel + 1) (fresh_pair B m) 1 nowait (some v)).w 1 nowait2 e2).ret
        = .undefined := by
  have hw : (dmq_receive BUFSIZ (fuel + 1) (fresh_pair B m) 1 nowait (some v)).w
      = detach (fresh_pair B m) 1 B
          (dmq_receive_body BUFSIZ (fuel + 1) (attach (fresh_pair B m) 1 B) nowait (some v)).s := by
    rw [dmq_receive_bound BUFSIZ (fuel + 1) (fresh_pair B m) 1 B nowait (some v)
      (by simp [CHECK_SDESC]) (by simp)]
    rfl
  obtain ⟨d1, d2, -⟩ := detach_facts (fresh_pair B m) 1 B
    (dmq_receive_body BUFSIZ (fuel + 1) (attach (fresh_pair B m) 1 B) nowait (some v)).s
  refine ⟨?_, ?_, ?_, ?_, ?_, ?_⟩
  iterate 5
    rw [dmq_receive_bound BUFSIZ (fuel + 1) (fresh_pair B m) 1 B nowait (some v)
      (by simp [CHECK_SDESC]) (by simp)]
    simp [attach, detach, dmq_receive_body, statics0, receive_refill1, dmq_read, dmq_read_pass,
      readlen, after_wait, qfile, qoff, hn, newheader, nofault, commit, arm, set_iov]
  rw [hw]
  have hchk3 := check_sdesc_bound _ 1 B (by decide) d2
  have hB3 : ((detach (fresh_pair B m) 1 B (dmq_receive_body BUFSIZ (fuel + 1)
      (attach (fresh_pair B m) 1 B) nowait (some v)).s).sdarray ((1 : Int)).toNat).sharedstate
      = some B := d2
  rw [dmq_receive_bound BUFSIZ fuel2 _ 1 B nowait2 e2 hchk3 hB3]
  dsimp only
  have h1 : ((1 : Int)).toNat = 1 := rfl
  rw [h1, d1]
  simp [attach, detach, dmq_receive_body, statics0, receive_refill1, dmq_read, dmq_read_pass,
    readlen, after_wait, qfile, qoff, hn, newheader, nofault, commit, arm, set_iov]

theorem receive_second_poll_undefined_witness :
    (dmq_receive 8192 2 (fresh_pair "q" MODE_NEWLINES) 1 1 (some 1)).err = some 0
    ∧ (dmq_receive 8192 2 (dmq_receive 8192 2 (fresh_pair "q" MODE_NEWLINES) 1 1 (some 1)).w
        1 1 (some 1)).ret = .undefined :=
  ⟨(receive_second_poll_undefined 8192 1 2 "q" MODE_NEWLINES 1 1 1 (some 1) (by decide)).2.1,
   (receive_second_poll_undefined 8192 1 2 "q" MODE_NEWLINES 1 1 1 (some 1)
    (by decide)).2.2.2.2.2⟩

/-- C7, failing input: "a", "b" and "cde" are sent on a fresh Newlines queue, the
consumer receives "a", a further descriptor is attached with `dmq_init`, and the
consumer receives "b". The read-target file then holds the framing of the three
records and the consumer has received exactly the first two, yet the header's
position is `2 ^ 64 - 2` and not 4, the sum of `len r + 1` over the two records
received, which is the offset of "cde". -/
theorem position_lost_after_late_attach :
    (dmq_receive 8192 2 (send_all (fresh_pair "q" MODE_NEWLINES) 0
        [[97], [98], [99, 100, 101]]) 1 0 (some 0)).ret = .record ⟨8192, 8193⟩
    ∧ record_bytes (dmq_receive 8192 2 (send_all (fresh_pair "q" MODE_NEWLINES) 0
        [[97], [98], [99, 100, 101]]) 1 0 (some 0)).w.st ⟨8192, 8193⟩ = [97]
    ∧ (dmq_receive 8192 2 (attached_late 8192).w 1 0 (some 0)).ret = .record ⟨8194, 8195⟩
    ∧ record_bytes (dmq_receive 8192 2 (attached_late 8192).w 1 0 (some 0)).w.st ⟨8194, 8195⟩
        = [98]
    ∧ ((dmq_receive 8192 2 (attached_late 8192).w 1 0 (some 0)).w.fs "q").shared.readtarget = 0
    ∧ wfile ((dmq_receive 8192 2 (attached_late 8192).w 1 0 (some 0)).w.fs "q") 0
        = frames MODE_NEWLINES [[97], [98], [99, 100, 101]]
    ∧ ((List.take 2 [[97], [98], [99, 100, 101]]).map (fun r => r.length + 1)).sum = 4
    ∧ ((dmq_receive 8192 2 (attached_late 8192).w 1 0 (some 0)).w.fs "q").shared.position
        = 2 ^ 64 - 2
    ∧ ((dmq_receive 8192 2 (attached_late 8192).w 1 0 (some 0)).w.fs "q").shared.position
        ≠ ((List.take 2 [[97], [98], [99, 100, 101]]).map (fun r => r.length + 1)).sum := by
  decide

end Dmq
